import Mathlib

/-!
Verification of the Koffan shopping-list server's import/export,
conflict-resolution, version-check and auth-middleware logic.

Go strings are modelled as Lean `String`s viewed through their character
lists; `len`, slicing and `strings.ToLower` are modelled character-wise
(on ASCII data, Go's byte-based operations coincide with these).
Go maps are modelled as association lists with overwrite-on-insert, so
key lists stay duplicate-free and lookup order is unobservable.
-/

namespace Koffan

/-! ## String primitives (models of Go's builtin and `strings` operations) -/

/-- Model of Go `len(s)` (character-wise; equals bytes on ASCII data). -/
def strLen (s : String) : Nat := s.data.length

/-- Model of Go slicing `s[:n]`. -/
def strTake (s : String) (n : Nat) : String := ⟨s.data.take n⟩

/-- Model of Go `strings.ToLower` (character-wise lowering). -/
def strLower (s : String) : String := ⟨s.data.map Char.toLower⟩

/-- Whitespace test used by the model of `strings.TrimSpace`. -/
def isSpaceChar (c : Char) : Bool := c == ' ' || c == '\t' || c == '\n' || c == '\r'

/-- Model of Go `strings.TrimSpace`. -/
def strTrim (s : String) : String :=
  ⟨((s.data.dropWhile isSpaceChar).reverse.dropWhile isSpaceChar).reverse⟩

/-- Character-list splitter backing the model of `strings.Split`. -/
def splitChars (sep : Char) : List Char → List Char → List (List Char)
  | cur, [] => [cur.reverse]
  | cur, c :: cs => if c = sep then cur.reverse :: splitChars sep [] cs else splitChars sep (c :: cur) cs

/-- Model of Go `strings.Split(s, sep)` for a one-character separator. -/
def strSplit (s : String) (sep : Char) : List String :=
  (splitChars sep [] s.data).map (fun cs => ⟨cs⟩)

/-! ## Association-list model of Go maps -/

/-- Association-list model of a Go map with `String` keys. -/
abbrev KMap (β : Type) : Type := List (String × β)

/-- Model of the Go map membership test `_, ok := m[k]`. -/
def hasKey {β : Type} (m : KMap β) (k : String) : Bool :=
  m.any (fun p => p.1 == k)

/-- Model of the Go map lookup `v := m[k]`. -/
def lookupKey {β : Type} (m : KMap β) (k : String) : Option β :=
  (m.find? (fun p => p.1 == k)).map (fun p => p.2)

/-- Model of the Go map insert `m[k] = v` (overwrite keeps keys duplicate-free). -/
def mapInsert {β : Type} (m : KMap β) (k : String) (v : β) : KMap β :=
  m.filter (fun p => !(p.1 == k)) ++ [(k, v)]

/-! ## Length limits

`MaxItemNameLength`, `MaxDescriptionLength`, `MaxSectionNameLength` are the
constants from `api/items.go` and the sections handler.  `MaxListNameLength`
and `MaxIconLength` are declared in a source file outside the provided set;
the list-name limit of 100 is stated by the specification (§3), the icon
limit's exact value is irrelevant to every property proved here. -/

def MaxItemNameLength : Nat := 200

def MaxDescriptionLength : Nat := 500

def MaxSectionNameLength : Nat := 100

/-- Modelled from the spec: list display name limit (≤ 100 chars, §3). -/
def MaxListNameLength : Nat := 100

/-- Modelled from the spec: icon length limit; value unconstrained by the spec
and unused by any claim. -/
def MaxIconLength : Nat := 50

/-! ## findUniqueName (import conflict resolver, `copy` mode) -/

/-- Name built by `fmt.Sprintf("%s (%s)", baseName, suffix)`. -/
def plainCopyName (baseName suffix : String) : String :=
  baseName ++ " (" ++ suffix ++ ")"

/-- Name built by `fmt.Sprintf("%s (%s %d)", baseName, suffix, i)`. -/
def numberedCopyName (baseName suffix : String) (i : Nat) : String :=
  baseName ++ " (" ++ suffix ++ " " ++ toString i ++ ")"

/-- Loop of `findUniqueName`: the Go loop `for i := 2; i <= 100; i++` is the
call with `i = 2` and `fuel = 99`; running out of fuel is the fallthrough to
the sentinel-9999 fallback, which does not record anything. -/
def findUniqueNum (baseName suffix : String) (m : KMap Int) : Nat → Nat → String × KMap Int
  | _, 0 => (numberedCopyName baseName suffix 9999, m)
  | i, fuel + 1 =>
      let c := numberedCopyName baseName suffix i
      if hasKey m (strLower c) then findUniqueNum baseName suffix m (i + 1) fuel
      else (c, mapInsert m (strLower c) (-1))

/-- Model of `findUniqueName` (import.go): returns the chosen name together
with the updated `existingNames` map. -/
def findUniqueName (baseName suffix : String) (m : KMap Int) : String × KMap Int :=
  let c := plainCopyName baseName suffix
  if hasKey m (strLower c) then findUniqueNum baseName suffix m 2 99
  else (c, mapInsert m (strLower c) (-1))

/-! ## Version checker (`version.go`) -/

/-- Digit-accumulation loop inside `parseVersion`: consumes leading digits,
stops at the first non-digit. -/
def parseComponent : Nat → List Char → Nat
  | n, [] => n
  | n, c :: rest =>
      if '0' ≤ c ∧ c ≤ '9' then parseComponent (n * 10 + (c.toNat - '0'.toNat)) rest
      else n

/-- Model of `parseVersion`: strips a leading `v`, splits on `.`, parses up to
three numeric components (missing components are 0). -/
def parseVersion (v : String) : Nat × Nat × Nat :=
  let w : String := if v.data.head? = some 'v' then ⟨v.data.tail⟩ else v
  let parts := strSplit w '.'
  let comp := fun (i : Nat) =>
    match parts.get? i with
    | some p => parseComponent 0 p.data
    | none => 0
  (comp 0, comp 1, comp 2)

/-- Model of `isNewerVersion`: guard for unparseable values, then the unrolled
major/minor/patch comparison loop. -/
def isNewerVersion (latest current : String) : Bool :=
  if latest = "unknown" ∨ latest = "" ∨ current = "dev" then false
  else
    let l := parseVersion latest
    let c := parseVersion current
    if l.1 > c.1 then true
    else if l.1 < c.1 then false
    else if l.2.1 > c.2.1 then true
    else if l.2.1 < c.2.1 then false
    else if l.2.2 > c.2.2 then true
    else if l.2.2 < c.2.2 then false
    else false

/-- Specification-side reading of "component-wise with major, then minor, then
patch precedence". -/
def SpecNewer (l c : Nat × Nat × Nat) : Prop :=
  l.1 > c.1 ∨ (l.1 = c.1 ∧ l.2.1 > c.2.1) ∨ (l.1 = c.1 ∧ l.2.1 = c.2.1 ∧ l.2.2 > c.2.2)

/-! ## Token auth middleware (`api/middleware.go`) -/

/-- Outcome of a middleware invocation: a rejected response or a pass-through
to the next handler. -/
inductive MWOutcome where
  | reject (status : Nat) (error message : String)
  | next
  deriving DecidableEq

/-- Model of Go `strings.SplitN(s, " ", 2)`. -/
def splitN2 (s : String) : List String :=
  match s.data.splitOn ' ' with
  | [] => [s]
  | [_] => [s]
  | first :: rest => [⟨first⟩, ⟨(List.intercalate [' '] rest)⟩]

/-- Model of `TokenAuthMiddleware`; the first argument is the configured
`API_TOKEN` environment value, the second the request's Authorization header. -/
def TokenAuthMiddleware (expectedToken authHeader : String) : MWOutcome :=
  if expectedToken = "" then
    .reject 503 "api_disabled" "API is not enabled on this server"
  else if authHeader = "" then
    .reject 401 "missing_token" "Authorization header is required"
  else
    match splitN2 authHeader with
    | [scheme, token] =>
        if strLower scheme = "bearer" then
          if token = expectedToken then .next
          else .reject 401 "invalid_token" "Invalid API token"
        else .reject 401 "invalid_format" "Authorization header must be in format: Bearer <token>"
    | _ => .reject 401 "invalid_format" "Authorization header must be in format: Bearer <token>"

/-! ## Export/import document model (`export.go` data types) -/

structure ExportItem where
  name : String
  description : String
  completed : Bool
  uncertain : Bool
  deriving DecidableEq

structure ExportSection where
  name : String
  items : List ExportItem
  deriving DecidableEq

structure ExportList where
  name : String
  icon : String
  isActive : Bool
  sections : List ExportSection
  deriving DecidableEq

structure ExportTemplateItem where
  sectionName : String
  name : String
  description : String
  deriving DecidableEq

structure ExportTemplate where
  name : String
  description : String
  items : List ExportTemplateItem
  deriving DecidableEq

structure ExportHistory where
  name : String
  lastSection : String
  usageCount : Int
  deriving DecidableEq

structure ExportBody where
  lists : List ExportList
  templates : List ExportTemplate
  history : List ExportHistory
  deriving DecidableEq

structure ExportData where
  version : String
  exportedAt : String
  app : String
  data : ExportBody
  deriving DecidableEq

/-! ## Relational store model

Modelled from the spec (§3, §6): the `db` package itself is outside the
provided sources, so rows are modelled as lists with integer identities and
auto-increment counters; `sort_order` columns are represented by list
position (the import code always passes the running position counters
`sectionOrder` / `itemOrder` as the sort order, so the two coincide). -/

structure StoreItem where
  id : Nat
  name : String
  description : String
  completed : Bool
  uncertain : Bool
  deriving DecidableEq

structure StoreSection where
  id : Nat
  name : String
  items : List StoreItem
  deriving DecidableEq

structure StoreList where
  id : Nat
  name : String
  icon : String
  isActive : Bool
  sections : List StoreSection
  deriving DecidableEq

structure HistoryRow where
  name : String
  sectionId : Option Nat
  usageCount : Int
  deriving DecidableEq

structure TemplateRow where
  id : Nat
  name : String
  description : String
  items : List ExportTemplateItem
  deriving DecidableEq

structure Store where
  lists : List StoreList
  templates : List TemplateRow
  history : List HistoryRow
  nextListId : Nat
  nextSectionId : Nat
  nextItemId : Nat
  nextTemplateId : Nat
  deriving DecidableEq

/-! ## Preview pass (`previewJSONImport`) -/

structure ImportListInfo where
  name : String
  icon : String
  sections : Nat
  items : Nat
  hasConflict : Bool
  deriving DecidableEq

structure ImportPreviewResponse where
  status : Nat
  valid : Bool
  error : String
  listsCount : Nat
  itemsCount : Nat
  templatesCount : Nat
  historyCount : Nat
  lists : List ImportListInfo
  conflictingLists : List String
  deriving DecidableEq

/-- Modelled from the spec: the localized `common.reserved_name` message used
when an uploaded list is named `[HISTORY]`; its i18n lookup is external and
its exact text is irrelevant to every claim. -/
def reservedNameMessage : String := "reserved name"

/-- Existing-name lookup built by `previewJSONImport` from `db.GetAllLists`. -/
def previewExistingNames (store : Store) : KMap Bool :=
  store.lists.foldl (fun m l => mapInsert m (strLower l.name) true) []

/-- Item-validation loop of the preview pass (early return on violation). -/
def previewItems (listName : String) : List ExportItem → Except String Unit
  | [] => .ok ()
  | it :: rest =>
      if strLen it.name > MaxItemNameLength then
        .error ("Item name too long in list \x27" ++ listName ++ "\x27: " ++ it.name)
      else if strLen it.description > MaxDescriptionLength then
        .error ("Item description too long in list \x27" ++ listName ++ "\x27, item \x27" ++ it.name ++ "\x27")
      else previewItems listName rest

/-- Section-validation loop of the preview pass. -/
def previewSections (listName : String) : List ExportSection → Except String Unit
  | [] => .ok ()
  | sec :: rest =>
      if strLen sec.name > MaxSectionNameLength then
        .error ("Section name too long in list \x27" ++ listName ++ "\x27: " ++ sec.name)
      else
        match previewItems listName sec.items with
        | .error e => .error e
        | .ok _ => previewSections listName rest

/-- Number of items of an uploaded list, as counted by the preview loop. -/
def listItemCount (l : ExportList) : Nat :=
  (l.sections.map (fun sec => sec.items.length)).sum

structure PreviewAcc where
  itemsCount : Nat
  lists : List ImportListInfo
  conflicting : List String
  deriving DecidableEq

/-- Per-list loop of `previewJSONImport`: validates lengths and the reserved
name with early return, then accumulates conflict and count information. -/
def previewLists (existing : KMap Bool) : List ExportList → PreviewAcc → Except String PreviewAcc
  | [], acc => .ok acc
  | l :: rest, acc =>
      if strLen l.name > MaxListNameLength then
        .error ("List name too long: " ++ l.name)
      else if l.name = "[HISTORY]" then
        .error reservedNameMessage
      else
        match previewSections l.name l.sections with
        | .error e => .error e
        | .ok _ =>
            let hasConflict := hasKey existing (strLower l.name)
            previewLists existing rest
              { itemsCount := acc.itemsCount + listItemCount l
                lists := acc.lists ++
                  [⟨l.name, l.icon, l.sections.length, listItemCount l, hasConflict⟩]
                conflicting := if hasConflict then acc.conflicting ++ [l.name] else acc.conflicting }

/-- Error response of the preview handler: HTTP 400 with `Valid: false`. -/
def previewError (e : String) : ImportPreviewResponse :=
  ⟨400, false, e, 0, 0, 0, 0, [], []⟩

/-- Model of `previewJSONImport` on an already-decoded document. -/
def previewJSONImport (doc : ExportData) (store : Store) : ImportPreviewResponse :=
  if doc.app ≠ "koffan" ∧ doc.app ≠ "" then
    previewError "This file was not exported from Koffan"
  else
    match previewLists (previewExistingNames store) doc.data.lists ⟨0, [], []⟩ with
    | .error e => previewError e
    | .ok acc =>
        ⟨200, true, "", doc.data.lists.length, acc.itemsCount, doc.data.templates.length,
          doc.data.history.length, acc.lists, acc.conflicting⟩

/-! ## Import pass: transactional state and database operations

The row-creating calls go through a `sql.Tx`; their semantics (and the
semantics of `Commit`/deferred `Rollback`) are modelled from the spec (§4.3,
§5): writes through the transaction become visible in the store exactly when
the commit succeeds.  `db.CreateTemplate` / `db.AddTemplateItem` in
`importJSON` are issued on the plain `db` handle, NOT through the
transaction, and are therefore applied to the store immediately.  Every
database call consumes one value of a failure oracle so that arbitrary
per-row failures can be quantified over. -/

abbrev Oracle := Nat → Bool

/-- Oracle under which every database operation succeeds. -/
def allOk : Oracle := fun _ => true

structure ImportState where
  draftLists : List StoreList
  draftHistory : List HistoryRow
  templates : List TemplateRow
  existing : KMap Int
  nextListId : Nat
  nextSectionId : Nat
  nextItemId : Nat
  nextTemplateId : Nat
  calls : Nat
  importedLists : Nat
  importedItems : Nat
  importedTemplates : Nat
  importedHistory : Nat
  skippedLists : Nat
  deriving DecidableEq

def stepCall (ora : Oracle) (st : ImportState) : Bool × ImportState :=
  (ora st.calls, { st with calls := st.calls + 1 })

/-- Update of the list row with the given identity. -/
def updListsAt (listId : Nat) (f : StoreList → StoreList) (ls : List StoreList) :
    List StoreList :=
  ls.map (fun l => if l.id = listId then f l else l)

/-- Update of the section row with the given identity. -/
def updSectionsAt (sectionId : Nat) (f : StoreSection → StoreSection) (ls : List StoreList) :
    List StoreList :=
  ls.map (fun l =>
    { l with sections := l.sections.map (fun s => if s.id = sectionId then f s else s) })

/-- Update of the item row with the given identity. -/
def updItemsAt (itemId : Nat) (f : StoreItem → StoreItem) (ls : List StoreList) :
    List StoreList :=
  ls.map (fun l =>
    { l with sections := l.sections.map (fun s =>
        { s with items := s.items.map (fun it => if it.id = itemId then f it else it) }) })

/-- Model of `db.CreateListTx`: inserts a list row with a fresh identity. -/
def dbCreateListTx (ora : Oracle) (st : ImportState) (name icon : String) :
    Option Nat × ImportState :=
  match stepCall ora st with
  | (true, st) =>
      (some st.nextListId,
        { st with
            draftLists := st.draftLists ++ [⟨st.nextListId, name, icon, false, []⟩]
            nextListId := st.nextListId + 1 })
  | (false, st) => (none, st)

/-- Model of a `tx.Exec` statement acting on the lists table. -/
def dbExec (ora : Oracle) (st : ImportState) (f : List StoreList → List StoreList) :
    Bool × ImportState :=
  match stepCall ora st with
  | (true, st) => (true, { st with draftLists := f st.draftLists })
  | (false, st) => (false, st)

/-- Model of `db.CreateSectionForListTx` (the running sort order is the list
position). -/
def dbCreateSectionForListTx (ora : Oracle) (st : ImportState) (listId : Nat) (name : String) :
    Option Nat × ImportState :=
  match stepCall ora st with
  | (true, st) =>
      (some st.nextSectionId,
        { st with
            draftLists := updListsAt listId
              (fun l => { l with sections := l.sections ++ [⟨st.nextSectionId, name, []⟩] })
              st.draftLists
            nextSectionId := st.nextSectionId + 1 })
  | (false, st) => (none, st)

/-- Model of `db.CreateItemTx`. -/
def dbCreateItemTx (ora : Oracle) (st : ImportState) (sectionId : Nat) (name desc : String) :
    Option Nat × ImportState :=
  match stepCall ora st with
  | (true, st) =>
      (some st.nextItemId,
        { st with
            draftLists := updSectionsAt sectionId
              (fun s => { s with items := s.items ++ [⟨st.nextItemId, name, desc, false, false⟩] })
              st.draftLists
            nextItemId := st.nextItemId + 1 })
  | (false, st) => (none, st)

/-- Model of `db.CreateTemplate` — issued OUTSIDE the transaction. -/
def dbCreateTemplate (ora : Oracle) (st : ImportState) (name desc : String) :
    Option Nat × ImportState :=
  match stepCall ora st with
  | (true, st) =>
      (some st.nextTemplateId,
        { st with
            templates := st.templates ++ [⟨st.nextTemplateId, name, desc, []⟩]
            nextTemplateId := st.nextTemplateId + 1 })
  | (false, st) => (none, st)

/-- Model of `db.AddTemplateItem` — issued OUTSIDE the transaction; its error
is ignored by the caller. -/
def dbAddTemplateItem (ora : Oracle) (st : ImportState) (tid : Nat)
    (item : ExportTemplateItem) : ImportState :=
  match stepCall ora st with
  | (true, st) =>
      { st with templates := st.templates.map (fun t =>
          if t.id = tid then { t with items := t.items ++ [item] } else t) }
  | (false, st) => st

/-- Model of `db.GetSectionIDByNameTx`: modelled from the spec — resolves a
section name to the identity of a section with that name, if any. -/
def dbGetSectionIDByNameTx (st : ImportState) (name : String) : Option Nat :=
  (((st.draftLists.map (fun l => l.sections)).flatten).find? (fun s => s.name = name)).map
    (fun s => s.id)

/-- Model of `db.SaveItemHistoryWithCountTx`: modelled from the spec — records
a history row through the transaction. -/
def dbSaveItemHistoryTx (ora : Oracle) (st : ImportState) (name : String)
    (sectionId : Option Nat) (count : Int) : Bool × ImportState :=
  match stepCall ora st with
  | (true, st) => (true, { st with draftHistory := st.draftHistory ++ [⟨name, sectionId, count⟩] })
  | (false, st) => (false, st)

/-- Go truncation pattern `if len(x) > max { x = x[:max] }`. -/
def truncStr (s : String) (n : Nat) : String :=
  if strLen s > n then strTake s n else s

/-! ## importJSON -/

/-- Item loop body of `importJSON`. -/
def jsonItemStep (ora : Oracle) (sectionId : Nat) (st : ImportState) (it : ExportItem) :
    ImportState :=
  let itemName := truncStr it.name MaxItemNameLength
  let itemDesc := truncStr it.description MaxDescriptionLength
  match dbCreateItemTx ora st sectionId itemName itemDesc with
  | (none, st) => st
  | (some itemId, st) =>
      let st := if it.completed then
          (dbExec ora st (updItemsAt itemId (fun x => { x with completed := true }))).2
        else st
      let st := if it.uncertain then
          (dbExec ora st (updItemsAt itemId (fun x => { x with uncertain := true }))).2
        else st
      { st with importedItems := st.importedItems + 1 }

/-- Section loop body of `importJSON`. -/
def jsonSectionStep (ora : Oracle) (listId : Nat) (st : ImportState) (sec : ExportSection) :
    ImportState :=
  let sectionName := truncStr sec.name MaxSectionNameLength
  match dbCreateSectionForListTx ora st listId sectionName with
  | (none, st) => st
  | (some sectionId, st) => sec.items.foldl (jsonItemStep ora sectionId) st

/-- Creation part of the `importJSON` list loop (after conflict resolution),
with `name` the possibly renamed list name. -/
def jsonListCreate (ora : Oracle) (st : ImportState) (l : ExportList) (name : String) :
    ImportState :=
  match dbCreateListTx ora st name l.icon with
  | (none, st) => st
  | (some listId, st) =>
      let st := if l.isActive then
          (dbExec ora st (updListsAt listId (fun x => { x with isActive := true }))).2
        else st
      let st := { st with importedLists := st.importedLists + 1 }
      l.sections.foldl (jsonSectionStep ora listId) st

/-- List loop body of `importJSON`: reserved-name check, length check,
conflict resolution, then creation. -/
def jsonListStep (ora : Oracle) (mode suffix : String) (st : ImportState) (l : ExportList) :
    ImportState :=
  if l.name = "[HISTORY]" then { st with skippedLists := st.skippedLists + 1 }
  else if strLen l.name > MaxListNameLength then st
  else
    match lookupKey st.existing (strLower l.name) with
    | none => jsonListCreate ora st l l.name
    | some existingId =>
        if mode = "skip" then { st with skippedLists := st.skippedLists + 1 }
        else if mode = "replace" then
          match dbExec ora st (fun ls => ls.filter (fun x => (x.id : Int) ≠ existingId)) with
          | (false, st) => st
          | (true, st) => jsonListCreate ora st l l.name
        else if mode = "copy" then
          let r := findUniqueName l.name suffix st.existing
          jsonListCreate ora { st with existing := r.2 } l r.1
        else jsonListCreate ora st l l.name

/-- Template loop body of `importJSON` (runs outside the transaction). -/
def templateStep (ora : Oracle) (st : ImportState) (t : ExportTemplate) : ImportState :=
  match dbCreateTemplate ora st t.name t.description with
  | (none, st) => st
  | (some tid, st) =>
      let st := t.items.foldl (fun st it => dbAddTemplateItem ora st tid it) st
      { st with importedTemplates := st.importedTemplates + 1 }

/-- History loop body of `importJSON`: usage counts below 1 are coerced to 1. -/
def historyStep (ora : Oracle) (st : ImportState) (h : ExportHistory) : ImportState :=
  let usageCount : Int := if h.usageCount < 1 then 1 else h.usageCount
  let sectionId := dbGetSectionIDByNameTx st h.lastSection
  match dbSaveItemHistoryTx ora st h.name sectionId usageCount with
  | (false, st) => st
  | (true, st) => { st with importedHistory := st.importedHistory + 1 }

structure ImportSummary where
  importedLists : Nat
  importedItems : Nat
  importedTemplates : Nat
  importedHistory : Nat
  skippedLists : Nat
  deriving DecidableEq

inductive ImportResult (σ : Type) where
  | err (status : Nat) (message : String)
  | ok (summary : σ)
  deriving DecidableEq

/-- Existing-name lookup built by the import passes from `db.GetAllLists`. -/
def buildExistingNames (store : Store) : KMap Int :=
  store.lists.foldl (fun m l => mapInsert m (strLower l.name) (l.id : Int)) []

def initImportState (store : Store) : ImportState :=
  { draftLists := store.lists
    draftHistory := store.history
    templates := store.templates
    existing := buildExistingNames store
    nextListId := store.nextListId
    nextSectionId := store.nextSectionId
    nextItemId := store.nextItemId
    nextTemplateId := store.nextTemplateId
    calls := 0
    importedLists := 0
    importedItems := 0
    importedTemplates := 0
    importedHistory := 0
    skippedLists := 0 }

/-- Model of `importJSON` on an already-decoded document.  `beginOk` is the
outcome of `db.DB.Begin()`, `commitOk` that of `tx.Commit()`; the returned
store is what is persisted after the handler returns (the deferred
`tx.Rollback()` discards the draft unless the commit succeeded, while the
template writes were never part of the transaction). -/
def importJSON (store : Store) (doc : ExportData) (mode suffix : String) (ora : Oracle)
    (beginOk commitOk : Bool) : ImportResult ImportSummary × Store :=
  if beginOk then
    let st0 := initImportState store
    let st1 := doc.data.lists.foldl (jsonListStep ora mode suffix) st0
    let st2 := doc.data.templates.foldl (templateStep ora) st1
    let st3 := doc.data.history.foldl (historyStep ora) st2
    if commitOk then
      (.ok ⟨st3.importedLists, st3.importedItems, st3.importedTemplates,
        st3.importedHistory, st3.skippedLists⟩,
        { lists := st3.draftLists
          templates := st3.templates
          history := st3.draftHistory
          nextListId := st3.nextListId
          nextSectionId := st3.nextSectionId
          nextItemId := st3.nextItemId
          nextTemplateId := st3.nextTemplateId })
    else
      (.err 500 "Failed to commit import",
        { store with templates := st3.templates, nextTemplateId := st3.nextTemplateId })
  else (.err 500 "Failed to start transaction", store)

/-! ## importCSV -/

/-- Column access `row[i]` (guarded by length checks mirrored from the Go
code; out-of-range access never happens on the guarded paths). -/
def col (row : List String) (i : Nat) : String := row.getD i ""

/-- Digit run parser backing the model of `strconv.Atoi`. -/
def digitsToNat : Nat → List Char → Option Nat
  | n, [] => some n
  | n, c :: r =>
      if '0' ≤ c ∧ c ≤ '9' then digitsToNat (n * 10 + (c.toNat - '0'.toNat)) r else none

/-- Model of Go `strconv.Atoi` (overflow behaviour is not modelled; the import
only compares the result with 0). -/
def atoi (s : String) : Option Int :=
  match s.data with
  | [] => none
  | '+' :: rest => if rest = [] then none else (digitsToNat 0 rest).map (fun n => (n : Int))
  | '-' :: rest => if rest = [] then none else (digitsToNat 0 rest).map (fun n => -(n : Int))
  | l => (digitsToNat 0 l).map (fun n => (n : Int))

/-- Modelled from the spec: the localized default section name
`i18n.Get(lang, "sections.default")` with fallback `"General"` (§4.2). -/
def defaultSectionNameVal : String := "General"

/-- Default cart icon used when a CSV row has no usable icon column. -/
def cartIcon : String := "🛒"

/-- State of the `importCSV` loop: the transactional state plus the
`createdLists` / `createdSections` / `skippedListNames` tracking maps. -/
structure CSVState where
  base : ImportState
  createdLists : KMap Nat
  createdSections : KMap (KMap Nat)
  skippedNames : KMap Bool
  deriving DecidableEq

/-- History-row branch of the `importCSV` loop (`[HISTORY]` sentinel rows). -/
def csvHistoryRow (ora : Oracle) (st : ImportState) (row : List String) : ImportState :=
  let itemName := if row.length > 2 then strTrim (col row 2) else ""
  if itemName ≠ "" then
    let lastSectionName := if row.length > 3 then strTrim (col row 3) else ""
    let usageCount : Int :=
      if row.length > 4 then
        match atoi (strTrim (col row 4)) with
        | some c => if c > 0 then c else 1
        | none => 1
      else 1
    let sectionId := dbGetSectionIDByNameTx st lastSectionName
    match dbSaveItemHistoryTx ora st itemName sectionId usageCount with
    | (false, st) => st
    | (true, st) => { st with importedHistory := st.importedHistory + 1 }
  else st

/-- Item part of the `importCSV` row loop. -/
def csvItem (ora : Oracle) (st : CSVState) (sectionId : Nat)
    (itemName itemDescription : String) (completed uncertain : Bool) : CSVState :=
  if itemName ≠ "" then
    match dbCreateItemTx ora st.base sectionId itemName itemDescription with
    | (none, stb) => { st with base := stb }
    | (some itemId, stb) =>
        let stb := if completed then
            (dbExec ora stb (updItemsAt itemId (fun x => { x with completed := true }))).2
          else stb
        let stb := if uncertain then
            (dbExec ora stb (updItemsAt itemId (fun x => { x with uncertain := true }))).2
          else stb
        { st with base := { stb with importedItems := stb.importedItems + 1 } }
  else st

/-- Section lookup/creation part of the `importCSV` row loop. -/
def csvSectionItem (ora : Oracle) (defaultSectionName : String) (st : CSVState)
    (listId : Nat) (listKey : String) (sectionName0 itemName itemDescription : String)
    (completed uncertain : Bool) : CSVState :=
  let sectionName1 := if sectionName0 = "" then defaultSectionName else sectionName0
  let sectionName := truncStr sectionName1 MaxSectionNameLength
  let sectionKey := strLower sectionName
  let secMap := (lookupKey st.createdSections listKey).getD []
  match lookupKey secMap sectionKey with
  | some sectionId => csvItem ora st sectionId itemName itemDescription completed uncertain
  | none =>
      match dbCreateSectionForListTx ora st.base listId sectionName with
      | (none, stb) => { st with base := stb }
      | (some sectionId, stb) =>
          let st := { st with
            base := stb
            createdSections := mapInsert st.createdSections listKey
              (mapInsert secMap sectionKey sectionId) }
          csvItem ora st sectionId itemName itemDescription completed uncertain

/-- List-creation part of the `importCSV` row loop (after conflict
resolution), with `listName`/`listKey` the possibly renamed name and key. -/
def csvCreateList (ora : Oracle) (defaultSectionName : String) (st : CSVState)
    (listName listKey listIcon : String) (sectionName0 itemName itemDescription : String)
    (completed uncertain : Bool) : CSVState :=
  match dbCreateListTx ora st.base listName listIcon with
  | (none, stb) => { st with base := stb }
  | (some listId, stb) =>
      let st := { st with
        base := { stb with importedLists := stb.importedLists + 1 }
        createdLists := mapInsert st.createdLists listKey listId
        createdSections := mapInsert st.createdSections listKey [] }
      csvSectionItem ora defaultSectionName st listId listKey sectionName0 itemName
        itemDescription completed uncertain

/-- Row loop body of `importCSV`.  Note that the `skippedListNames` check uses
the key of the UNtruncated name while the marker is stored under the key of
the truncated name — faithful to the Go code. -/
def csvRowStep (ora : Oracle) (mode suffix defaultSectionName : String)
    (st : CSVState) (row : List String) : CSVState :=
  if row.length < 4 then st
  else
    let listName0 := strTrim (col row 0)
    if listName0 = "" then st
    else if listName0 = "[HISTORY]" then { st with base := csvHistoryRow ora st.base row }
    else
      let listKey0 := strLower listName0
      if hasKey st.skippedNames listKey0 then st
      else
        let listName := if strLen listName0 > MaxListNameLength then
            strTake listName0 MaxListNameLength else listName0
        let listKey := strLower listName
        let listIcon := if row.length > 1 ∧ col row 1 ≠ "" then
            (if strLen (col row 1) > MaxIconLength then cartIcon else col row 1)
          else cartIcon
        let sectionName0 := if row.length > 2 then strTrim (col row 2) else ""
        let itemName := truncStr (strTrim (col row 3)) MaxItemNameLength
        let itemDescription := truncStr (if row.length > 4 then strTrim (col row 4) else "")
          MaxDescriptionLength
        let itemCompleted := decide (row.length > 5) && (strLower (strTrim (col row 5)) == "true")
        let itemUncertain := decide (row.length > 6) && (strLower (strTrim (col row 6)) == "true")
        match lookupKey st.createdLists listKey with
        | some listId =>
            csvSectionItem ora defaultSectionName st listId listKey sectionName0 itemName
              itemDescription itemCompleted itemUncertain
        | none =>
            match lookupKey st.base.existing listKey with
            | some existingId =>
                if mode = "skip" then
                  { st with
                    base := { st.base with skippedLists := st.base.skippedLists + 1 }
                    skippedNames := mapInsert st.skippedNames listKey true }
                else if mode = "replace" then
                  let st := { st with
                    base := (dbExec ora st.base
                      (fun ls => ls.filter (fun x => (x.id : Int) ≠ existingId))).2 }
                  csvCreateList ora defaultSectionName st listName listKey listIcon
                    sectionName0 itemName itemDescription itemCompleted itemUncertain
                else if mode = "copy" then
                  let r := findUniqueName listName suffix st.base.existing
                  let st := { st with base := { st.base with existing := r.2 } }
                  csvCreateList ora defaultSectionName st r.1 (strLower r.1) listIcon
                    sectionName0 itemName itemDescription itemCompleted itemUncertain
                else
                  csvCreateList ora defaultSectionName st listName listKey listIcon
                    sectionName0 itemName itemDescription itemCompleted itemUncertain
            | none =>
                csvCreateList ora defaultSectionName st listName listKey listIcon
                  sectionName0 itemName itemDescription itemCompleted itemUncertain

structure CSVImportSummary where
  importedLists : Nat
  importedItems : Nat
  importedHistory : Nat
  skippedLists : Nat
  deriving DecidableEq

/-- Model of `importCSV` on the already-parsed CSV records (the byte-level
CSV/BOM/delimiter handling of `encoding/csv` is external to the model).
`records` includes the header row, which the loop skips.  Unlike `importJSON`,
every database write in the CSV path goes through the transaction (`Tx`
functions and `tx.Exec` only), so the deferred rollback after a failed commit
leaves the store exactly as it was. -/
def importCSV (store : Store) (records : List (List String)) (mode suffix : String)
    (ora : Oracle) (beginOk commitOk : Bool) : ImportResult CSVImportSummary × Store :=
  if records.length < 2 then (.err 400 "CSV file is empty", store)
  else if beginOk then
    let st0 : CSVState := ⟨initImportState store, [], [], []⟩
    let st1 := (records.drop 1).foldl (csvRowStep ora mode suffix defaultSectionNameVal) st0
    if commitOk then
      (.ok ⟨st1.base.importedLists, st1.base.importedItems, st1.base.importedHistory,
        st1.base.skippedLists⟩,
        { lists := st1.base.draftLists
          templates := st1.base.templates
          history := st1.base.draftHistory
          nextListId := st1.base.nextListId
          nextSectionId := st1.base.nextSectionId
          nextItemId := st1.base.nextItemId
          nextTemplateId := st1.base.nextTemplateId })
    else
      (.err 500 "Failed to commit import", store)
  else (.err 500 "Failed to start transaction", store)

/-! ## Shapes and identity invariants -/

/-- Shape of an item row (identity forgotten). -/
def shapeItem (it : StoreItem) : ExportItem := ⟨it.name, it.description, it.completed, it.uncertain⟩

/-- Shape of a section row (identity forgotten, items in sort order). -/
def shapeSection (s : StoreSection) : ExportSection := ⟨s.name, s.items.map shapeItem⟩

/-- Shape of a list row (identity forgotten, sections in sort order). -/
def shapeList (l : StoreList) : ExportList := ⟨l.name, l.icon, l.isActive, l.sections.map shapeSection⟩

/-- Shape that `importJSON` stores for an uploaded item: name and description
truncated to their limits. -/
def importedItemShape (it : ExportItem) : ExportItem :=
  ⟨truncStr it.name MaxItemNameLength, truncStr it.description MaxDescriptionLength,
    it.completed, it.uncertain⟩

/-- Shape that `importJSON` stores for an uploaded section. -/
def importedSectionShape (sec : ExportSection) : ExportSection :=
  ⟨truncStr sec.name MaxSectionNameLength, sec.items.map importedItemShape⟩

/-- Shape that `importJSON` stores for an uploaded list (no renaming). -/
def importedListShape (l : ExportList) : ExportList :=
  ⟨l.name, l.icon, l.isActive, l.sections.map importedSectionShape⟩

/-- Uploaded JSON lists that produce rows under `conflict_resolution=skip`. -/
def jsonKeepB (ex0 : KMap Int) (l : ExportList) : Bool :=
  if l.name = "[HISTORY]" then false
  else if strLen l.name > MaxListNameLength then false
  else !hasKey ex0 (strLower l.name)

/-- Uploaded JSON lists that increment `skipped_lists` under
`conflict_resolution=skip`. -/
def jsonSkipB (ex0 : KMap Int) (l : ExportList) : Bool :=
  if l.name = "[HISTORY]" then true
  else if strLen l.name > MaxListNameLength then false
  else hasKey ex0 (strLower l.name)

def listIds (ls : List StoreList) : List Nat := ls.map (fun l => l.id)

def sectionIds (ls : List StoreList) : List Nat :=
  (ls.map (fun l => l.sections.map (fun s => s.id))).flatten

def itemIds (ls : List StoreList) : List Nat :=
  (ls.map (fun l => (l.sections.map (fun s => s.items.map (fun it => it.id))).flatten)).flatten

/-- Well-formed identities: pairwise distinct and below the auto-increment
counters, as a relational store with auto-increment keys guarantees. -/
def IdsOk (ls : List StoreList) (nL nS nI : Nat) : Prop :=
  (listIds ls).Nodup ∧ (∀ i ∈ listIds ls, i < nL) ∧
  (sectionIds ls).Nodup ∧ (∀ i ∈ sectionIds ls, i < nS) ∧
  (itemIds ls).Nodup ∧ (∀ i ∈ itemIds ls, i < nI)

def Store.WF (store : Store) : Prop :=
  IdsOk store.lists store.nextListId store.nextSectionId store.nextItemId

/-! ## Specification-side CSV grouping (for the refinement claim C6) -/

/-- List name of a data row: trimmed first column, truncated to the limit. -/
def rowListName (r : List String) : String :=
  truncStr (strTrim (col r 0)) MaxListNameLength

/-- Case-insensitive grouping key of a data row. -/
def rowKey (r : List String) : String := strLower (rowListName r)

/-- Icon of a data row (default cart icon when absent or over-long). -/
def rowIcon (r : List String) : String :=
  if r.length > 1 ∧ col r 1 ≠ "" then
    (if strLen (col r 1) > MaxIconLength then cartIcon else col r 1)
  else cartIcon

/-- Section name of a data row: empty falls back to the localized default. -/
def rowSectionName (d : String) (r : List String) : String :=
  let s := if r.length > 2 then strTrim (col r 2) else ""
  truncStr (if s = "" then d else s) MaxSectionNameLength

def rowItemName (r : List String) : String :=
  truncStr (strTrim (col r 3)) MaxItemNameLength

def rowItemDesc (r : List String) : String :=
  truncStr (if r.length > 4 then strTrim (col r 4) else "") MaxDescriptionLength

def rowCompleted (r : List String) : Bool :=
  decide (r.length > 5) && (strLower (strTrim (col r 5)) == "true")

def rowUncertain (r : List String) : Bool :=
  decide (r.length > 6) && (strLower (strTrim (col r 6)) == "true")

/-- Data rows of a CSV upload: enough columns, non-empty list name, not the
`[HISTORY]` sentinel. -/
def validCsvRow (r : List String) : Bool :=
  decide (4 ≤ r.length) && (strTrim (col r 0) != "") && (strTrim (col r 0) != "[HISTORY]")

/-- Item contributed by one data row (none when the item column is empty). -/
def specRowItems (r : List String) : List ExportItem :=
  if rowItemName r ≠ "" then [⟨rowItemName r, rowItemDesc r, rowCompleted r, rowUncertain r⟩]
  else []

/-- Spec-side grouping: insert a row's item into the section with its
case-insensitive section name, creating the section at the end on first
occurrence. -/
def specAddRowToSections (d : String) (r : List String) :
    List ExportSection → List ExportSection
  | [] => [⟨rowSectionName d r, specRowItems r⟩]
  | s :: ss =>
      if strLower s.name = strLower (rowSectionName d r) then
        { s with items := s.items ++ specRowItems r } :: ss
      else s :: specAddRowToSections d r ss

/-- Spec-side grouping: insert a row into the list with its case-insensitive
list name, creating the list at the end on first occurrence. -/
def specAddRow (d : String) (r : List String) : List ExportList → List ExportList
  | [] => [⟨rowListName r, rowIcon r, false, specAddRowToSections d r []⟩]
  | g :: gs =>
      if strLower g.name = rowKey r then
        { g with sections := specAddRowToSections d r g.sections } :: gs
      else g :: specAddRow d r gs

/-- Specification-side grouping of CSV data rows (§4.2): rows grouped into
lists and sections by case-insensitive name, first occurrence fixing the
creation order, empty section names replaced by the localized default. -/
def groupCsvRows (d : String) (rows : List (List String)) : List ExportList :=
  rows.foldl (fun acc r => specAddRow d r acc) []

/-- First-occurrence list of the keys of conflicting valid data rows. -/
def csvConflictKeys (ex0 : KMap Int) (rows : List (List String)) : List String :=
  rows.foldl
    (fun acc r =>
      if validCsvRow r && hasKey ex0 (rowKey r) && !(acc.contains (rowKey r)) then
        acc ++ [rowKey r]
      else acc) []

/-- Items contributed by one CSV row at the next fresh item identity (empty
item names create no item row). -/
def newCsvItems (nid : Nat) (n dsc : String) (comp unc : Bool) : List StoreItem :=
  if n = "" then [] else [⟨nid, n, dsc, comp, unc⟩]

/-- Spec-side fold over data rows restricted to the valid rows that do not
collide with an existing list name. -/
def specGroupFold (d : String) (ex0 : KMap Int) (rows : List (List String))
    (acc : List ExportList) : List ExportList :=
  rows.foldl (fun acc r =>
    if validCsvRow r && !hasKey ex0 (rowKey r) then specAddRow d r acc else acc) acc

/-- Fold accumulating the first occurrences of conflicting row keys. -/
def skFold (ex0 : KMap Int) (rows : List (List String)) (sk : List String) : List String :=
  rows.foldl
    (fun acc r =>
      if validCsvRow r && hasKey ex0 (rowKey r) && !(acc.contains (rowKey r)) then
        acc ++ [rowKey r]
      else acc) sk

/-- Invariant of the `importCSV` row loop, relating the model state to the
initial store, the list rows created so far (`created`) and the first
occurrences of conflicting keys skipped so far (`SK`). -/
structure CsvInv (store : Store) (ex0 : KMap Int) (st : CSVState)
    (created : List StoreList) (SK : List String) : Prop where
  drafts : st.base.draftLists = store.lists ++ created
  exist0 : st.base.existing = ex0
  clists : st.createdLists = created.map (fun g => (strLower g.name, g.id))
  csects : ∀ k, lookupKey st.createdSections k =
    (created.find? (fun g => strLower g.name == k)).map
      (fun g => g.sections.map (fun sc => (strLower sc.name, sc.id)))
  sknames : st.skippedNames = SK.map (fun k => (k, true))
  skcount : st.base.skippedLists = SK.length
  frKeys : ∀ g ∈ created, hasKey ex0 (strLower g.name) = false
  keysNd : (created.map (fun g => strLower g.name)).Nodup
  skNd : SK.Nodup
  skC : ∀ k ∈ SK, hasKey ex0 k = true ∧ strLen k ≤ MaxListNameLength
  lNd : (listIds (store.lists ++ created)).Nodup
  lB : ∀ i ∈ listIds (store.lists ++ created), i < st.base.nextListId
  sNd : (sectionIds (store.lists ++ created)).Nodup
  sB : ∀ i ∈ sectionIds (store.lists ++ created), i < st.base.nextSectionId
  iB : ∀ i ∈ itemIds (store.lists ++ created), i < st.base.nextItemId

/-! ## Concrete example inputs used by counterexamples and witnesses -/

/-- Empty well-formed store. -/
def emptyStore : Store := ⟨[], [], [], 1, 1, 1, 1⟩

/-- Store with one list named `"X"`, used by the C6 counterexample. -/
def c6store : Store := ⟨[⟨1, "X", "i", true, []⟩], [], [], 2, 1, 1, 1⟩

/-- CSV records (header plus two data rows of the same list name) used by the
C6 counterexample. -/
def c6rows : List (List String) :=
  [["list_name"], ["X", "", "S", "apple"], ["X", "", "S", "pear"]]

/-- CSV records used by the C6 witness: four data rows exercising
case-insensitive list and section grouping and the default section name. -/
def c6wrows : List (List String) :=
  [["list_name"],
   ["A", "", "", "apple"],
   ["a", "🍐", "s1", "pear"],
   ["A", "", "S1", "plum"],
   ["B", "", "S2", "milk"]]

/-- List name of 101 characters used by the C7 counterexample. -/
def longListName : String := ⟨List.replicate 101 'b'⟩

/-- Store with one list whose name is the 100-character truncation of
`longListName`, used by the C7 counterexample. -/
def c7store : Store := ⟨[⟨1, ⟨List.replicate 100 'b'⟩, "i", true, []⟩], [], [], 2, 1, 1, 1⟩

/-- CSV records with two rows of the same over-long list name, used by the C7
counterexample. -/
def c7rows : List (List String) :=
  [["list_name"], [longListName, "", "S", "x"], [longListName, "", "S", "y"]]

/-- Store with one list named `"G"`, used by the C7 witness. -/
def c7wstore : Store := ⟨[⟨1, "G", "i", true, []⟩], [], [], 2, 1, 1, 1⟩

/-- JSON document with one colliding and one fresh list, used by the C7
witness. -/
def c7wdoc : ExportData :=
  ⟨"1.0", "x", "koffan",
    ⟨[⟨"g", "i", true, [⟨"S", [⟨"it", "", false, false⟩]⟩]⟩,
      ⟨"H", "i", true, []⟩], [], []⟩⟩

/-- CSV records with two rows of the colliding name `"G"` and one fresh row,
used by the C7 witness. -/
def c7wrows : List (List String) :=
  [["list_name"], ["g", "", "S", "x"], ["G", "", "S", "y"], ["N", "", "S", "z"]]

/-- Document with a single template, used by the C1 counterexample. -/
def c1doc : ExportData := ⟨"1.0", "2024-01-01T00:00:00Z", "koffan", ⟨[], [⟨"T", "d", []⟩], []⟩⟩

/-- Name of 101 characters used by the C10 witness. -/
def longName : String := ⟨List.replicate 101 'a'⟩

/-- Item name of 201 characters used by the C4 witness. -/
def longItemName : String := ⟨List.replicate 201 'a'⟩

/-- Document with one list, one section and one over-long item name, used by
the C4 witness. -/
def c4doc : ExportData :=
  ⟨"1.0", "x", "koffan",
    ⟨[⟨"L", "i", false, [⟨"S", [⟨longItemName, "desc", false, false⟩]⟩]⟩], [], []⟩⟩

/-- C2 counterexample seed: a lookup table in which the plain copy name and
all 99 numbered candidates for base `"A"`, suffix `"c"` are already taken. -/
def fullTable : KMap Int :=
  (strLower (plainCopyName "A" "c"), 0) ::
    (List.range 99).map (fun j => (strLower (numberedCopyName "A" "c" (j + 2)), (0 : Int)))

/-! ## Basic lemmas -/

theorem data_append (s t : String) : (s ++ t).data = s.data ++ t.data := by
  cases s; cases t; rfl

theorem string_eq_of_data (s t : String) (h : s.data = t.data) : s = t := by
  cases s; cases t; exact congrArg String.mk h

theorem hasKey_append {β : Type} (m m' : KMap β) (k : String) :
    hasKey (m ++ m') k = (hasKey m k || hasKey m' k) := by
  simp [hasKey]

theorem filter_eq_self_of_not_hasKey {β : Type} (m : KMap β) (k : String)
    (h : hasKey m k = false) : m.filter (fun p => !(p.1 == k)) = m := by
  induction m with
  | nil => rfl
  | cons p m ih =>
      simp only [hasKey, List.any_cons, Bool.or_eq_false_iff] at h
      simp [List.filter_cons, h.1, ih h.2]

theorem mapInsert_of_not_hasKey {β : Type} (m : KMap β) (k : String) (v : β)
    (h : hasKey m k = false) : mapInsert m k v = m ++ [(k, v)] := by
  simp [mapInsert, filter_eq_self_of_not_hasKey m k h]

theorem hasKey_mapInsert_self {β : Type} (m : KMap β) (k : String) (v : β) :
    hasKey (mapInsert m k v) k = true := by
  simp [mapInsert, hasKey]


/-! ## Lemmas about findUniqueName -/

theorem findUniqueNum_exhausted (b s : String) (m : KMap Int) :
    ∀ fuel i, (∀ j, i ≤ j → j < i + fuel → hasKey m (strLower (numberedCopyName b s j)) = true) →
      findUniqueNum b s m i fuel = (numberedCopyName b s 9999, m) := by
  intro fuel
  induction fuel with
  | zero => intro i _; rfl
  | succ n ih =>
      intro i h
      have hi : hasKey m (strLower (numberedCopyName b s i)) = true := h i le_rfl (by omega)
      simp only [findUniqueNum, hi, if_true]
      exact ih (i + 1) (fun j hj hj2 => h j (by omega) (by omega))

theorem findUniqueNum_found (b s : String) (m : KMap Int) :
    ∀ fuel i k, i ≤ k → k < i + fuel →
      hasKey m (strLower (numberedCopyName b s k)) = false →
      (∀ j, i ≤ j → j < k → hasKey m (strLower (numberedCopyName b s j)) = true) →
      findUniqueNum b s m i fuel =
        (numberedCopyName b s k, mapInsert m (strLower (numberedCopyName b s k)) (-1)) := by
  intro fuel
  induction fuel with
  | zero => intro i k h1 h2 _ _; omega
  | succ n ih =>
      intro i k h1 h2 hk hall
      by_cases hik : i = k
      · subst hik
        simp [findUniqueNum, hk]
      · have hi : hasKey m (strLower (numberedCopyName b s i)) = true :=
          hall i le_rfl (by omega)
        simp only [findUniqueNum, hi, if_true]
        exact ih (i + 1) k (by omega) (by omega) hk (fun j hj hj2 => hall j (by omega) hj2)

theorem findUniqueNum_characterize (b s : String) (m : KMap Int) :
    ∀ fuel i, (∃ k, i ≤ k ∧ k < i + fuel ∧
        hasKey m (strLower (numberedCopyName b s k)) = false ∧
        findUniqueNum b s m i fuel =
          (numberedCopyName b s k, mapInsert m (strLower (numberedCopyName b s k)) (-1))) ∨
      findUniqueNum b s m i fuel = (numberedCopyName b s 9999, m) := by
  intro fuel
  induction fuel with
  | zero => intro _; right; rfl
  | succ n ih =>
      intro i
      cases hc : hasKey m (strLower (numberedCopyName b s i)) with
      | false =>
          left
          exact ⟨i, le_rfl, by omega, hc, by simp [findUniqueNum, hc]⟩
      | true =>
          rcases ih (i + 1) with ⟨k, h1, h2, h3, h4⟩ | h
          · left
            refine ⟨k, by omega, by omega, h3, ?_⟩
            simp only [findUniqueNum, hc, if_true]
            exact h4
          · right
            simp only [findUniqueNum, hc, if_true]
            exact h

theorem plainCopyName_ne_numbered (b s : String) (k : Nat) :
    plainCopyName b s ≠ numberedCopyName b s k := by
  intro h
  have hd := congrArg String.data h
  simp only [plainCopyName, numberedCopyName, data_append, List.append_assoc] at hd
  have h1 := List.append_cancel_left hd
  have h2 := List.append_cancel_left h1
  have h3 := List.append_cancel_left h2
  simp at h3

/-! ## Claims C2 and C3 -/

set_option maxRecDepth 10000 in
/-- C2 counterexample: when every one of the 100 candidate names is taken,
`findUniqueName` returns the 9999-fallback name WITHOUT recording it in the
lookup table, so a second call with the same colliding base name returns the
very same name — refuting the claim that every returned name is recorded and
that two colliding calls in one batch always get distinct names. -/
theorem C2_counterexample :
    (findUniqueName "A" "c" fullTable).1 = numberedCopyName "A" "c" 9999 ∧
    (findUniqueName "A" "c" fullTable).2 = fullTable ∧
    hasKey (findUniqueName "A" "c" fullTable).2
      (strLower ((findUniqueName "A" "c" fullTable).1)) = false ∧
    (findUniqueName "A" "c" ((findUniqueName "A" "c" fullTable).2)).1 =
      (findUniqueName "A" "c" fullTable).1 := by
  decide

/-- C2 amended: provided the call does not exhaust all 100 candidates (i.e.
does not return the fixed fallback name with sentinel 9999), the returned name
is recorded case-insensitively in the lookup table before returning, and a
second call with the same base name and suffix returns a distinct name. -/
theorem C2_findUniqueName_records_amended (b s : String) (m : KMap Int)
    (h : (findUniqueName b s m).1 ≠ numberedCopyName b s 9999) :
    hasKey (findUniqueName b s m).2 (strLower ((findUniqueName b s m).1)) = true ∧
    (findUniqueName b s ((findUniqueName b s m).2)).1 ≠ (findUniqueName b s m).1 := by
  cases hc : hasKey m (strLower (plainCopyName b s)) with
  | false =>
      have hr : findUniqueName b s m =
          (plainCopyName b s, mapInsert m (strLower (plainCopyName b s)) (-1)) := by
        simp [findUniqueName, hc]
      rw [hr]
      refine ⟨hasKey_mapInsert_self m _ _, ?_⟩
      have hc2 : hasKey (mapInsert m (strLower (plainCopyName b s)) (-1))
          (strLower (plainCopyName b s)) = true := hasKey_mapInsert_self m _ _
      have hr2 : findUniqueName b s (mapInsert m (strLower (plainCopyName b s)) (-1)) =
          findUniqueNum b s (mapInsert m (strLower (plainCopyName b s)) (-1)) 2 99 := by
        simp [findUniqueName, hc2]
      rw [hr2]
      rcases findUniqueNum_characterize b s _ 99 2 with ⟨k, _, _, _, h4⟩ | h4 <;>
        rw [h4] <;> exact (plainCopyName_ne_numbered b s _).symm
  | true =>
      have hr : findUniqueName b s m = findUniqueNum b s m 2 99 := by
        simp [findUniqueName, hc]
      rcases findUniqueNum_characterize b s m 99 2 with ⟨k, _, _, h3, h4⟩ | h4
      · rw [hr, h4]
        refine ⟨hasKey_mapInsert_self m _ _, ?_⟩
        set m2 := mapInsert m (strLower (numberedCopyName b s k)) (-1) with hm2
        have hplain : hasKey m2 (strLower (plainCopyName b s)) = true := by
          rw [hm2, mapInsert_of_not_hasKey m _ _ h3, hasKey_append, hc]
          rfl
        have hr2 : findUniqueName b s m2 = findUniqueNum b s m2 2 99 := by
          simp [findUniqueName, hplain]
        rw [hr2]
        rcases findUniqueNum_characterize b s m2 99 2 with ⟨k2, _, _, h23, h24⟩ | h24
        · rw [h24]
          intro heq
          have hkey : strLower (numberedCopyName b s k2) = strLower (numberedCopyName b s k) :=
            congrArg strLower heq
          rw [hkey] at h23
          rw [hasKey_mapInsert_self m _ _] at h23
          simp at h23
        · rw [h24]
          rw [hr, h4] at h
          exact fun heq => h heq.symm
      · rw [hr, h4] at h
        exact absurd rfl h

/-- C2 amended witness at a concrete input: a single free candidate. -/
theorem C2_witness :
    hasKey (findUniqueName "A" "c" []).2 (strLower ((findUniqueName "A" "c" []).1)) = true ∧
    (findUniqueName "A" "c" ((findUniqueName "A" "c" []).2)).1 ≠ (findUniqueName "A" "c" []).1 :=
  C2_findUniqueName_records_amended "A" "c" [] (by decide)

/-- C3 confirmed: `findUniqueName` returns the plain `"B (S)"` name when free;
otherwise the first free `"B (S k)"` for k = 2..100 (at most 100 candidates in
total); if all are taken it returns the fixed sentinel-9999 fallback; and the
two concrete examples from the specification hold. -/
theorem C3_findUniqueName_correct :
    (∀ b s m, hasKey m (strLower (plainCopyName b s)) = false →
        (findUniqueName b s m).1 = plainCopyName b s) ∧
    (∀ b s m k, hasKey m (strLower (plainCopyName b s)) = true →
        2 ≤ k → k ≤ 100 →
        hasKey m (strLower (numberedCopyName b s k)) = false →
        (∀ j, 2 ≤ j → j < k → hasKey m (strLower (numberedCopyName b s j)) = true) →
        (findUniqueName b s m).1 = numberedCopyName b s k) ∧
    (∀ b s m, hasKey m (strLower (plainCopyName b s)) = true →
        (∀ j, 2 ≤ j → j ≤ 100 → hasKey m (strLower (numberedCopyName b s j)) = true) →
        (findUniqueName b s m).1 = numberedCopyName b s 9999) ∧
    (findUniqueName "Groceries" "copy" []).1 = "Groceries (copy)" ∧
    (findUniqueName "Groceries" "copy" [("groceries (copy)", 1)]).1 = "Groceries (copy 2)" := by
  refine ⟨?_, ?_, ?_, by decide, by decide⟩
  · intro b s m h
    simp [findUniqueName, h]
  · intro b s m k h h2 h100 hk hall
    have : findUniqueName b s m = findUniqueNum b s m 2 99 := by
      simp [findUniqueName, h]
    rw [this, findUniqueNum_found b s m 99 2 k h2 (by omega) hk
      (fun j hj hj2 => hall j hj hj2)]
  · intro b s m h hall
    have : findUniqueName b s m = findUniqueNum b s m 2 99 := by
      simp [findUniqueName, h]
    rw [this, findUniqueNum_exhausted b s m 99 2 (fun j hj hj2 => hall j hj (by omega))]

/-- C3 witness at a concrete input: empty table yields the plain copy name. -/
theorem C3_witness : (findUniqueName "A" "c" []).1 = plainCopyName "A" "c" :=
  C3_findUniqueName_correct.1 "A" "c" [] (by decide)

/-! ## Claim C5 -/

/-- C5 counterexample: the claim says the comparison returns "not newer"
whenever EITHER side is a placeholder, but an unparseable CURRENT version is
parsed as 0.0.0 and the code reports an update. -/
theorem C5_counterexample : isNewerVersion "1.0.0" "unknown" = true := by decide

/-- C5 amended: the comparison returns false when `latest` is `"unknown"` or
empty or when `current` is `"dev"` (only these guards exist — an unparseable
value on the other side is parsed as 0.0.0); otherwise it is exactly the
major/minor/patch lexicographic comparison of the parsed versions; and the
specification's concrete examples hold. -/
theorem C5_isNewerVersion_amended :
    (∀ latest current, (latest = "unknown" ∨ latest = "" ∨ current = "dev") →
        isNewerVersion latest current = false) ∧
    (∀ latest current, latest ≠ "unknown" → latest ≠ "" → current ≠ "dev" →
        (isNewerVersion latest current = true ↔
          SpecNewer (parseVersion latest) (parseVersion current))) ∧
    isNewerVersion "v1.2.0" "1.1.9" = true ∧
    isNewerVersion "1.1.9" "v1.2.0" = false ∧
    (∀ current, isNewerVersion "unknown" current = false) := by
  refine ⟨?_, ?_, by decide, by decide, ?_⟩
  · intro latest current h
    simp [isNewerVersion, h]
  · intro latest current h1 h2 h3
    have hg : ¬(latest = "unknown" ∨ latest = "" ∨ current = "dev") := by
      tauto
    simp only [isNewerVersion, if_neg hg]
    generalize parseVersion latest = x
    generalize parseVersion current = y
    obtain ⟨a, b, d⟩ := x
    obtain ⟨e, f, g⟩ := y
    simp only [SpecNewer]
    dsimp only
    split_ifs <;> simp <;> omega
  · intro current
    simp [isNewerVersion]

/-- C5 amended witness at a concrete input. -/
theorem C5_witness : isNewerVersion "unknown" "0.0.1" = false :=
  C5_isNewerVersion_amended.1 "unknown" "0.0.1" (Or.inl rfl)

/-! ## Claim C8 -/

/-- C8 confirmed: with no configured API token, the middleware always responds
503 `api_disabled` and never passes the request to the next handler, whatever
the Authorization header contains. -/
theorem C8_token_middleware_disabled (authHeader : String) :
    TokenAuthMiddleware "" authHeader =
      MWOutcome.reject 503 "api_disabled" "API is not enabled on this server" ∧
    TokenAuthMiddleware "" authHeader ≠ MWOutcome.next := by
  constructor
  · simp [TokenAuthMiddleware]
  · simp [TokenAuthMiddleware]


/-! ## Claim C1 -/

/-- C1 counterexample: a JSON import whose document carries one template and
whose transaction commit fails still persists the template, because
`db.CreateTemplate` is issued outside the transaction — refuting the claim
that none of the work is persisted after a failed commit. -/
theorem C1_counterexample :
    (importJSON emptyStore c1doc "skip" "copy" allOk true false).1 =
      ImportResult.err 500 "Failed to commit import" ∧
    (importJSON emptyStore c1doc "skip" "copy" allOk true false).2.templates ≠
      emptyStore.templates := by
  decide

/-- C1 amended: when the final commit fails, both import paths return the 500
"Failed to commit import" error and none of the transactional work (lists,
sections, items, history) is persisted — the store is fully unchanged in the
CSV path, while in the JSON path only the template rows, which are written
outside the transaction, survive; and with a successful commit an import
never aborts, whatever row-level failures the oracle injects. -/
theorem C1_transaction_amended :
    (∀ (store : Store) (doc : ExportData) (mode suffix : String) (ora : Oracle),
        (importJSON store doc mode suffix ora true false).1 =
          ImportResult.err 500 "Failed to commit import" ∧
        (importJSON store doc mode suffix ora true false).2.lists = store.lists ∧
        (importJSON store doc mode suffix ora true false).2.history = store.history) ∧
    (∀ (store : Store) (doc : ExportData) (mode suffix : String) (ora : Oracle),
        ∃ s, (importJSON store doc mode suffix ora true true).1 = ImportResult.ok s) ∧
    (∀ (store : Store) (records : List (List String)) (mode suffix : String) (ora : Oracle),
        2 ≤ records.length →
        (importCSV store records mode suffix ora true false).1 =
          ImportResult.err 500 "Failed to commit import" ∧
        (importCSV store records mode suffix ora true false).2 = store) ∧
    (∀ (store : Store) (records : List (List String)) (mode suffix : String) (ora : Oracle),
        2 ≤ records.length →
        ∃ s, (importCSV store records mode suffix ora true true).1 = ImportResult.ok s) := by
  refine ⟨fun store doc mode suffix ora => ⟨rfl, rfl, rfl⟩,
    fun store doc mode suffix ora => ⟨_, rfl⟩, ?_, ?_⟩
  · intro store records mode suffix ora h
    have hlt : ¬records.length < 2 := by omega
    refine ⟨?_, ?_⟩ <;> simp [importCSV, hlt]
  · intro store records mode suffix ora h
    have hlt : ¬records.length < 2 := by omega
    unfold importCSV
    rw [if_neg hlt]
    exact ⟨_, rfl⟩

/-- C1 amended witness at concrete inputs. -/
theorem C1_witness :
    (importCSV emptyStore [["list_name"], ["a", "i", "s", "n"]] "skip" "copy" allOk
        true false).1 = ImportResult.err 500 "Failed to commit import" ∧
    (importCSV emptyStore [["list_name"], ["a", "i", "s", "n"]] "skip" "copy" allOk
        true false).2 = emptyStore :=
  C1_transaction_amended.2.2.1 emptyStore [["list_name"], ["a", "i", "s", "n"]]
    "skip" "copy" allOk (by decide)

/-! ## Claim C9 -/

/-- C9 confirmed: only the preview validates the `app` tag — the preview
rejects any app value other than "koffan" or empty with a 400, while the
result of the import pass is entirely independent of the `app` field. -/
theorem C9_app_check_only_in_preview :
    (∀ (doc : ExportData) (store : Store), doc.app ≠ "koffan" → doc.app ≠ "" →
        previewJSONImport doc store =
          previewError "This file was not exported from Koffan") ∧
    (∀ (v e a1 a2 : String) (d : ExportBody) (store : Store) (mode suffix : String)
        (ora : Oracle) (bOk cOk : Bool),
        importJSON store ⟨v, e, a1, d⟩ mode suffix ora bOk cOk =
          importJSON store ⟨v, e, a2, d⟩ mode suffix ora bOk cOk) := by
  constructor
  · intro doc store h1 h2
    simp [previewJSONImport, h1, h2]
  · intro v e a1 a2 d store mode suffix ora bOk cOk
    rfl

/-- C9 witness at a concrete input. -/
theorem C9_witness :
    previewJSONImport ⟨"1.0", "x", "other", ⟨[], [], []⟩⟩ emptyStore =
      previewError "This file was not exported from Koffan" :=
  C9_app_check_only_in_preview.1 ⟨"1.0", "x", "other", ⟨[], [], []⟩⟩ emptyStore
    (by decide) (by decide)

/-! ## Claim C10 -/

/-- C10 confirmed: a JSON list whose name exceeds 100 characters is dropped
entirely — the import behaves exactly as if the list were absent from the
upload, so no rows are created for it and neither `imported_lists` nor
`skipped_lists` counts it. -/
theorem C10_overlong_json_list_dropped (store : Store) (v e a : String)
    (pre post : List ExportList) (tpls : List ExportTemplate) (hist : List ExportHistory)
    (l : ExportList) (mode suffix : String) (ora : Oracle) (bOk cOk : Bool)
    (h : strLen l.name > MaxListNameLength) :
    importJSON store ⟨v, e, a, ⟨pre ++ l :: post, tpls, hist⟩⟩ mode suffix ora bOk cOk =
      importJSON store ⟨v, e, a, ⟨pre ++ post, tpls, hist⟩⟩ mode suffix ora bOk cOk := by
  have hne : l.name ≠ "[HISTORY]" := by
    intro he
    rw [he] at h
    exact absurd h (by decide)
  have hstep : ∀ st, jsonListStep ora mode suffix st l = st := by
    intro st
    simp [jsonListStep, hne, h]
  have hfold : ∀ st0 : ImportState,
      (pre ++ l :: post).foldl (jsonListStep ora mode suffix) st0 =
        (pre ++ post).foldl (jsonListStep ora mode suffix) st0 := by
    intro st0
    rw [List.foldl_append, List.foldl_append, List.foldl_cons, hstep]
  simp only [importJSON]
  rw [hfold]

/-- C10 witness at a concrete input. -/
theorem C10_witness :
    importJSON emptyStore ⟨"1.0", "x", "koffan", ⟨[] ++ ⟨longName, "", false, []⟩ :: [], [], []⟩⟩
        "skip" "copy" allOk true true =
      importJSON emptyStore ⟨"1.0", "x", "koffan", ⟨[] ++ [], [], []⟩⟩
        "skip" "copy" allOk true true :=
  C10_overlong_json_list_dropped emptyStore "1.0" "x" "koffan" [] [] [] []
    ⟨longName, "", false, []⟩ "skip" "copy" allOk true true (by decide)

/-! ## Helper lemmas for the import characterizations -/

theorem listMapIdOf {α : Type} (l : List α) (f : α → α) (h : ∀ a ∈ l, f a = a) :
    l.map f = l := by
  induction l with
  | nil => rfl
  | cons a l ih => simp_all

theorem mem_listIds_of {ls : List StoreList} {l : StoreList} (hl : l ∈ ls) :
    l.id ∈ listIds ls := by
  simp only [listIds, List.mem_map]
  exact ⟨l, hl, rfl⟩

theorem mem_sectionIds_of {ls : List StoreList} {l : StoreList} {s : StoreSection}
    (hl : l ∈ ls) (hs : s ∈ l.sections) : s.id ∈ sectionIds ls := by
  simp only [sectionIds, List.mem_flatten, List.mem_map]
  exact ⟨l.sections.map (fun s => s.id), ⟨l, hl, rfl⟩, by simp only [List.mem_map]; exact ⟨s, hs, rfl⟩⟩

theorem mem_itemIds_of {ls : List StoreList} {l : StoreList} {s : StoreSection} {it : StoreItem}
    (hl : l ∈ ls) (hs : s ∈ l.sections) (hi : it ∈ s.items) : it.id ∈ itemIds ls := by
  simp only [itemIds, List.mem_flatten, List.mem_map]
  refine ⟨(l.sections.map (fun s => s.items.map (fun it => it.id))).flatten, ⟨l, hl, rfl⟩, ?_⟩
  simp only [List.mem_flatten, List.mem_map]
  exact ⟨s.items.map (fun it => it.id), ⟨s, hs, rfl⟩, by simp only [List.mem_map]; exact ⟨it, hi, rfl⟩⟩

theorem lookupKey_of_hasKey {β : Type} (m : KMap β) (k : String) (h : hasKey m k = true) :
    ∃ v, lookupKey m k = some v := by
  have h2 : (m.find? (fun p => p.1 == k)).isSome := by
    rw [List.find?_isSome]
    simpa [hasKey, List.any_eq_true] using h
  rcases Option.isSome_iff_exists.mp h2 with ⟨p, hp⟩
  exact ⟨p.2, by simp [lookupKey, hp]⟩

theorem lookupKey_of_not_hasKey {β : Type} (m : KMap β) (k : String) (h : hasKey m k = false) :
    lookupKey m k = none := by
  have h2 : ∀ p ∈ m, ¬(p.1 == k) = true := by
    simpa [hasKey, List.any_eq_true] using h
  simp [lookupKey, List.find?_eq_none.mpr h2]

theorem updListsAt_id (lid : Nat) (f : StoreList → StoreList) (ls : List StoreList)
    (h : lid ∉ listIds ls) : updListsAt lid f ls = ls := by
  refine listMapIdOf _ _ (fun l hl => ?_)
  rw [if_neg]
  intro he
  exact h (he ▸ mem_listIds_of hl)

theorem updSectionsAt_id (sid : Nat) (f : StoreSection → StoreSection) (ls : List StoreList)
    (h : sid ∉ sectionIds ls) : updSectionsAt sid f ls = ls := by
  refine listMapIdOf _ _ (fun l hl => ?_)
  have h2 : l.sections.map (fun s => if s.id = sid then f s else s) = l.sections := by
    refine listMapIdOf _ _ (fun s hs => ?_)
    rw [if_neg]
    intro he
    exact h (he ▸ mem_sectionIds_of hl hs)
  rw [h2]

theorem updItemsAt_id (iid : Nat) (f : StoreItem → StoreItem) (ls : List StoreList)
    (h : iid ∉ itemIds ls) : updItemsAt iid f ls = ls := by
  refine listMapIdOf _ _ (fun l hl => ?_)
  have h2 : l.sections.map (fun s =>
      { s with items := s.items.map (fun it => if it.id = iid then f it else it) }) = l.sections := by
    refine listMapIdOf _ _ (fun s hs => ?_)
    have h3 : s.items.map (fun it => if it.id = iid then f it else it) = s.items := by
      refine listMapIdOf _ _ (fun it hi => ?_)
      rw [if_neg]
      intro he
      exact h (he ▸ mem_itemIds_of hl hs hi)
    rw [h3]
  rw [h2]

theorem updListsAt_last (ls : List StoreList) (L : StoreList) (f : StoreList → StoreList)
    (h : L.id ∉ listIds ls) : updListsAt L.id f (ls ++ [L]) = ls ++ [f L] := by
  have h1 : updListsAt L.id f (ls ++ [L]) = updListsAt L.id f ls ++ updListsAt L.id f [L] := by
    simp [updListsAt]
  rw [h1, updListsAt_id _ _ _ h]
  simp [updListsAt]

theorem updSectionsAt_last (ls : List StoreList) (L : StoreList) (ss : List StoreSection)
    (sec : StoreSection) (f : StoreSection → StoreSection)
    (hL : L.sections = ss ++ [sec]) (h1 : sec.id ∉ sectionIds ls)
    (h2 : ∀ s ∈ ss, s.id ≠ sec.id) :
    updSectionsAt sec.id f (ls ++ [L]) = ls ++ [{ L with sections := ss ++ [f sec] }] := by
  have e1 : updSectionsAt sec.id f (ls ++ [L]) =
      updSectionsAt sec.id f ls ++ updSectionsAt sec.id f [L] := by
    simp [updSectionsAt]
  rw [e1, updSectionsAt_id _ _ _ h1]
  have e2 : ss.map (fun s => if s.id = sec.id then f s else s) = ss :=
    listMapIdOf _ _ (fun s hs => if_neg (h2 s hs))
  simp [updSectionsAt, hL, e2]

theorem updItemsAt_last (ls : List StoreList) (L : StoreList) (ss : List StoreSection)
    (sec : StoreSection) (its : List StoreItem) (it : StoreItem) (f : StoreItem → StoreItem)
    (hL : L.sections = ss ++ [sec]) (hsec : sec.items = its ++ [it])
    (h1 : it.id ∉ itemIds ls)
    (h2 : ∀ s ∈ ss, ∀ x ∈ s.items, x.id ≠ it.id)
    (h3 : ∀ x ∈ its, x.id ≠ it.id) :
    updItemsAt it.id f (ls ++ [L]) =
      ls ++ [{ L with sections := ss ++ [{ sec with items := its ++ [f it] }] }] := by
  have e1 : updItemsAt it.id f (ls ++ [L]) = updItemsAt it.id f ls ++ updItemsAt it.id f [L] := by
    simp [updItemsAt]
  rw [e1, updItemsAt_id _ _ _ h1]
  have e2 : ss.map (fun s =>
      { s with items := s.items.map (fun x => if x.id = it.id then f x else x) }) = ss := by
    refine listMapIdOf _ _ (fun s hs => ?_)
    have : s.items.map (fun x => if x.id = it.id then f x else x) = s.items :=
      listMapIdOf _ _ (fun x hx => if_neg (h2 s hs x hx))
    rw [this]
  have e3 : its.map (fun x => if x.id = it.id then f x else x) = its :=
    listMapIdOf _ _ (fun x hx => if_neg (h3 x hx))
  simp [updItemsAt, hL, hsec, e2, e3]

theorem listIds_append (a b : List StoreList) : listIds (a ++ b) = listIds a ++ listIds b := by
  simp [listIds]

theorem sectionIds_append (a b : List StoreList) :
    sectionIds (a ++ b) = sectionIds a ++ sectionIds b := by
  simp [sectionIds]

theorem itemIds_append (a b : List StoreList) : itemIds (a ++ b) = itemIds a ++ itemIds b := by
  simp [itemIds]

theorem jsonFlagStep (stx : ImportState) (ls : List StoreList) (L : StoreList)
    (ss : List StoreSection) (sec : StoreSection) (its : List StoreItem) (it0 : StoreItem)
    (f : StoreItem → StoreItem)
    (hd : stx.draftLists = ls ++ [L]) (hL : L.sections = ss ++ [sec])
    (hsec : sec.items = its ++ [it0])
    (h1 : it0.id ∉ itemIds ls)
    (h2 : ∀ s ∈ ss, ∀ x ∈ s.items, x.id ≠ it0.id)
    (h3 : ∀ x ∈ its, x.id ≠ it0.id) :
    (dbExec allOk stx (updItemsAt it0.id f)).2 =
      { stx with
          calls := stx.calls + 1
          draftLists := ls ++
            [{ L with sections := ss ++ [{ sec with items := its ++ [f it0] }] }] } := by
  simp only [dbExec, stepCall, allOk]
  rw [hd, updItemsAt_last ls L ss sec its it0 f hL hsec h1 h2 h3]

theorem jsonFlagPhase (ST : ImportState) (ls : List StoreList) (L1 : StoreList)
    (ss : List StoreSection) (sec1 : StoreSection) (its : List StoreItem) (it0 : StoreItem)
    (c u : Bool)
    (hd : ST.draftLists = ls ++ [L1]) (hL : L1.sections = ss ++ [sec1])
    (hsec : sec1.items = its ++ [it0])
    (h1 : it0.id ∉ itemIds ls)
    (h2 : ∀ s ∈ ss, ∀ x ∈ s.items, x.id ≠ it0.id)
    (h3 : ∀ x ∈ its, x.id ≠ it0.id) :
    (if u then
        (dbExec allOk
          (if c then (dbExec allOk ST (updItemsAt it0.id (fun x => { x with completed := true }))).2
           else ST)
          (updItemsAt it0.id (fun x => { x with uncertain := true }))).2
      else
        (if c then (dbExec allOk ST (updItemsAt it0.id (fun x => { x with completed := true }))).2
         else ST)) =
    { ST with
        calls := ST.calls + (cond c 1 0) + (cond u 1 0)
        draftLists := ls ++ [{ L1 with sections := ss ++ [{ sec1 with items := its ++
          [{ it0 with completed := it0.completed || c, uncertain := it0.uncertain || u }] }] }] } := by
  have hstep1 := jsonFlagStep ST ls L1 ss sec1 its it0
    (fun x => { x with completed := true }) hd hL hsec h1 h2 h3
  cases c <;> cases u
  case false.false =>
    simp only [Bool.false_eq_true, if_false, cond_false, Nat.add_zero, Bool.or_false]
    rw [show ({ it0 with completed := it0.completed, uncertain := it0.uncertain } : StoreItem)
        = it0 from rfl,
      ← hsec,
      show ({ sec1 with items := sec1.items } : StoreSection) = sec1 from rfl,
      ← hL,
      show ({ L1 with sections := L1.sections } : StoreList) = L1 from rfl,
      ← hd]
  case false.true =>
    have hstep2 := jsonFlagStep ST ls L1 ss sec1 its it0
      (fun x => { x with uncertain := true }) hd hL hsec h1 h2 h3
    simp only [Bool.false_eq_true, if_false, if_true, cond_false, cond_true, Nat.add_zero,
      Bool.or_false, Bool.or_true]
    rw [hstep2]
  case true.false =>
    simp only [Bool.false_eq_true, if_false, if_true, cond_false, cond_true, Nat.add_zero,
      Bool.or_false, Bool.or_true]
    rw [hstep1]
  case true.true =>
    simp only [if_true, cond_true, Bool.or_true]
    rw [hstep1]
    have hstep2 := jsonFlagStep
      { ST with
          calls := ST.calls + 1
          draftLists := ls ++ [{ L1 with sections := ss ++
            [{ sec1 with items := its ++ [{ it0 with completed := true }] }] }] }
      ls
      { L1 with sections := ss ++ [{ sec1 with items := its ++ [{ it0 with completed := true }] }] }
      ss
      { sec1 with items := its ++ [{ it0 with completed := true }] }
      its
      { it0 with completed := true }
      (fun x => { x with uncertain := true }) rfl rfl rfl h1 h2 h3
    rw [hstep2]

theorem jsonItemStep_build (st : ImportState) (ls : List StoreList) (L : StoreList)
    (ss : List StoreSection) (sec : StoreSection) (it : ExportItem)
    (hd : st.draftLists = ls ++ [L]) (hL : L.sections = ss ++ [sec])
    (hs1 : sec.id ∉ sectionIds ls) (hs2 : ∀ s ∈ ss, s.id ≠ sec.id)
    (hib : ∀ i ∈ itemIds st.draftLists, i < st.nextItemId) :
    jsonItemStep allOk sec.id st it =
      { st with
          draftLists := ls ++ [{ L with sections := ss ++ [{ sec with items := sec.items ++
            [⟨st.nextItemId, truncStr it.name MaxItemNameLength,
              truncStr it.description MaxDescriptionLength, it.completed, it.uncertain⟩] }] }]
          nextItemId := st.nextItemId + 1
          importedItems := st.importedItems + 1
          calls := st.calls + 1 + (cond it.completed 1 0) + (cond it.uncertain 1 0) } := by
  have hfresh1 : st.nextItemId ∉ itemIds ls := by
    intro hmem
    have := hib st.nextItemId (by rw [hd, itemIds_append]; exact List.mem_append_left _ hmem)
    omega
  have hfresh2 : ∀ s ∈ ss, ∀ x ∈ s.items, x.id ≠ st.nextItemId := by
    intro s hs x hx he
    have hx2 : x.id ∈ itemIds [L] :=
      mem_itemIds_of (List.mem_singleton.mpr rfl) (by rw [hL]; exact List.mem_append_left _ hs) hx
    have := hib x.id (by rw [hd, itemIds_append]; exact List.mem_append_right _ hx2)
    omega
  have hfresh3 : ∀ x ∈ sec.items, x.id ≠ st.nextItemId := by
    intro x hx he
    have hsm : sec ∈ L.sections := by rw [hL]; exact List.mem_append_right _ (by simp)
    have hx2 : x.id ∈ itemIds [L] := mem_itemIds_of (List.mem_singleton.mpr rfl) hsm hx
    have := hib x.id (by rw [hd, itemIds_append]; exact List.mem_append_right _ hx2)
    omega
  have e1 : dbCreateItemTx allOk st sec.id (truncStr it.name MaxItemNameLength)
      (truncStr it.description MaxDescriptionLength) =
      (some st.nextItemId,
        { st with
            calls := st.calls + 1
            draftLists := ls ++ [{ L with sections := ss ++ [{ sec with items := sec.items ++
              [⟨st.nextItemId, truncStr it.name MaxItemNameLength,
                truncStr it.description MaxDescriptionLength, false, false⟩] }] }]
            nextItemId := st.nextItemId + 1 }) := by
    simp only [dbCreateItemTx, stepCall, allOk]
    rw [hd, updSectionsAt_last ls L ss sec _ hL hs1 hs2]
  have ephase := jsonFlagPhase
    { st with
        calls := st.calls + 1
        draftLists := ls ++ [{ L with sections := ss ++ [{ sec with items := sec.items ++
          [⟨st.nextItemId, truncStr it.name MaxItemNameLength,
            truncStr it.description MaxDescriptionLength, false, false⟩] }] }]
        nextItemId := st.nextItemId + 1 }
    ls
    { L with sections := ss ++ [{ sec with items := sec.items ++
      [⟨st.nextItemId, truncStr it.name MaxItemNameLength,
        truncStr it.description MaxDescriptionLength, false, false⟩] }] }
    ss
    { sec with items := sec.items ++
      [⟨st.nextItemId, truncStr it.name MaxItemNameLength,
        truncStr it.description MaxDescriptionLength, false, false⟩] }
    sec.items
    ⟨st.nextItemId, truncStr it.name MaxItemNameLength,
      truncStr it.description MaxDescriptionLength, false, false⟩
    it.completed it.uncertain rfl rfl rfl hfresh1 hfresh2 hfresh3
  simp only [jsonItemStep, e1, ephase, Bool.false_or]

theorem itemIds_snoc (ls : List StoreList) (L : StoreList) (ss : List StoreSection)
    (sec : StoreSection) (x : StoreItem) (hL : L.sections = ss ++ [sec]) :
    itemIds (ls ++ [{ L with sections := ss ++ [{ sec with items := sec.items ++ [x] }] }]) =
      itemIds (ls ++ [L]) ++ [x.id] := by
  simp [itemIds, hL]

theorem jsonItemsFold_build :
    ∀ (items : List ExportItem) (st : ImportState) (ls : List StoreList) (L : StoreList)
      (ss : List StoreSection) (sec : StoreSection),
      st.draftLists = ls ++ [L] → L.sections = ss ++ [sec] →
      sec.id ∉ sectionIds ls → (∀ s ∈ ss, s.id ≠ sec.id) →
      (∀ i ∈ itemIds st.draftLists, i < st.nextItemId) →
      ∃ newIts : List StoreItem,
        (items.foldl (jsonItemStep allOk sec.id) st).draftLists =
          ls ++ [{ L with sections := ss ++ [{ sec with items := sec.items ++ newIts }] }] ∧
        newIts.map shapeItem = items.map importedItemShape ∧
        (∀ i ∈ itemIds (items.foldl (jsonItemStep allOk sec.id) st).draftLists,
          i < (items.foldl (jsonItemStep allOk sec.id) st).nextItemId) ∧
        (items.foldl (jsonItemStep allOk sec.id) st).nextSectionId = st.nextSectionId ∧
        (items.foldl (jsonItemStep allOk sec.id) st).nextListId = st.nextListId ∧
        (items.foldl (jsonItemStep allOk sec.id) st).existing = st.existing ∧
        (items.foldl (jsonItemStep allOk sec.id) st).skippedLists = st.skippedLists := by
  intro items
  induction items with
  | nil =>
      intro st ls L ss sec hd hL hs1 hs2 hib
      refine ⟨[], ?_, rfl, hib, rfl, rfl, rfl, rfl⟩
      rw [List.foldl_nil, hd, List.append_nil]
      rw [show ({ sec with items := sec.items } : StoreSection) = sec from rfl, ← hL]
  | cons it rest ih =>
      intro st ls L ss sec hd hL hs1 hs2 hib
      rw [List.foldl_cons, jsonItemStep_build st ls L ss sec it hd hL hs1 hs2 hib]
      set x : StoreItem := ⟨st.nextItemId, truncStr it.name MaxItemNameLength,
        truncStr it.description MaxDescriptionLength, it.completed, it.uncertain⟩ with hx
      set sec1 : StoreSection := { sec with items := sec.items ++ [x] } with hsec1
      set L1 : StoreList := { L with sections := ss ++ [sec1] } with hL1
      set st1 : ImportState :=
        { st with
            draftLists := ls ++ [L1]
            nextItemId := st.nextItemId + 1
            importedItems := st.importedItems + 1
            calls := st.calls + 1 + (cond it.completed 1 0) + (cond it.uncertain 1 0) } with hst1
      have hib1 : ∀ i ∈ itemIds st1.draftLists, i < st1.nextItemId := by
        intro i hi
        rw [hst1] at hi ⊢
        dsimp only at hi ⊢
        rw [hL1, hsec1, itemIds_snoc ls L ss sec x hL] at hi
        rcases List.mem_append.mp hi with hi2 | hi2
        · have := hib i (hd ▸ hi2)
          omega
        · have : i = st.nextItemId := by simpa [hx] using hi2
          omega
      have hrec := ih st1 ls L1 ss sec1 rfl rfl hs1 hs2 hib1
      rcases hrec with ⟨newIts, hr1, hr2, hr3, hr4, hr5, hr6, hr7⟩
      refine ⟨x :: newIts, ?_, ?_, hr3, hr4, hr5, hr6, hr7⟩
      · rw [hr1, hL1, hsec1]
        simp
      · simp only [List.map_cons, hr2, List.map_cons]
        congr 1

theorem sectionIds_snoc (ls : List StoreList) (L : StoreList) (newSecs : List StoreSection) :
    sectionIds (ls ++ [{ L with sections := L.sections ++ newSecs }]) =
      sectionIds (ls ++ [L]) ++ newSecs.map (fun s => s.id) := by
  simp [sectionIds]

theorem jsonSectionStep_build (st : ImportState) (ls : List StoreList) (L : StoreList)
    (sec : ExportSection)
    (hd : st.draftLists = ls ++ [L]) (hlid : L.id ∉ listIds ls)
    (hsb : ∀ i ∈ sectionIds st.draftLists, i < st.nextSectionId)
    (hib : ∀ i ∈ itemIds st.draftLists, i < st.nextItemId) :
    ∃ newSec : StoreSection,
      (jsonSectionStep allOk L.id st sec).draftLists =
        ls ++ [{ L with sections := L.sections ++ [newSec] }] ∧
      shapeSection newSec = importedSectionShape sec ∧
      (∀ i ∈ sectionIds (jsonSectionStep allOk L.id st sec).draftLists,
        i < (jsonSectionStep allOk L.id st sec).nextSectionId) ∧
      (∀ i ∈ itemIds (jsonSectionStep allOk L.id st sec).draftLists,
        i < (jsonSectionStep allOk L.id st sec).nextItemId) ∧
      (jsonSectionStep allOk L.id st sec).nextListId = st.nextListId ∧
      (jsonSectionStep allOk L.id st sec).existing = st.existing ∧
      (jsonSectionStep allOk L.id st sec).skippedLists = st.skippedLists := by
  have e1 : dbCreateSectionForListTx allOk st L.id (truncStr sec.name MaxSectionNameLength) =
      (some st.nextSectionId,
        { st with
            calls := st.calls + 1
            draftLists := ls ++ [{ L with sections := L.sections ++
              [⟨st.nextSectionId, truncStr sec.name MaxSectionNameLength, []⟩] }]
            nextSectionId := st.nextSectionId + 1 }) := by
    simp only [dbCreateSectionForListTx, stepCall, allOk]
    rw [hd, updListsAt_last ls L _ hlid]
  set newSec0 : StoreSection := ⟨st.nextSectionId, truncStr sec.name MaxSectionNameLength, []⟩
    with hnewSec0
  set L1 : StoreList := { L with sections := L.sections ++ [newSec0] } with hL1
  set st1 : ImportState :=
    { st with
        calls := st.calls + 1
        draftLists := ls ++ [L1]
        nextSectionId := st.nextSectionId + 1 } with hst1
  have hfs1 : newSec0.id ∉ sectionIds ls := by
    intro hmem
    have := hsb newSec0.id (by rw [hd, sectionIds_append]; exact List.mem_append_left _ hmem)
    simp only [hnewSec0] at this
    omega
  have hfs2 : ∀ s ∈ L.sections, s.id ≠ newSec0.id := by
    intro s hs he
    have hmem : s.id ∈ sectionIds [L] := mem_sectionIds_of (List.mem_singleton.mpr rfl) hs
    have := hsb s.id (by rw [hd, sectionIds_append]; exact List.mem_append_right _ hmem)
    rw [he] at this
    simp only [hnewSec0] at this
    omega
  have hib1 : ∀ i ∈ itemIds st1.draftLists, i < st1.nextItemId := by
    intro i hi
    refine hib i ?_
    rw [hd, itemIds_append]
    rw [hst1] at hi
    dsimp only at hi
    rw [itemIds_append] at hi
    rcases List.mem_append.mp hi with hi2 | hi2
    · exact List.mem_append_left _ hi2
    · refine List.mem_append_right _ ?_
      simpa [itemIds, hL1, hnewSec0] using hi2
  have hrec := jsonItemsFold_build sec.items st1 ls L1 L.sections newSec0 rfl rfl hfs1 hfs2 hib1
  rcases hrec with ⟨newIts, hr1, hr2, hr3, hr4, hr5, hr6, hr7⟩
  have hstep : jsonSectionStep allOk L.id st sec =
      sec.items.foldl (jsonItemStep allOk newSec0.id) st1 := by
    simp only [jsonSectionStep, e1]
  refine ⟨{ newSec0 with items := newIts }, ?_, ?_, ?_, ?_, ?_, ?_, ?_⟩
  · rw [hstep, hr1, hL1]
    simp [hnewSec0]
  · simp only [shapeSection, importedSectionShape, hnewSec0]
    rw [hr2]
  · rw [hstep]
    intro i hi
    rw [hr1] at hi
    have hi2 : i ∈ sectionIds (ls ++ [L]) ++ [newSec0.id] := by
      simp only [sectionIds, List.map_append, List.map_cons, List.map_nil, List.flatten_append,
        List.flatten_cons, List.flatten_nil, List.append_nil, List.mem_append] at hi ⊢
      tauto
    have hns : (sec.items.foldl (jsonItemStep allOk newSec0.id) st1).nextSectionId =
        st.nextSectionId + 1 := by rw [hr4, hst1]
    rw [hns]
    rcases List.mem_append.mp hi2 with hi3 | hi3
    · have := hsb i (hd ▸ hi3)
      omega
    · have : i = newSec0.id := by simpa using hi3
      simp only [hnewSec0] at this
      omega
  · rw [hstep]
    exact hr3
  · rw [hstep, hr5, hst1]
  · rw [hstep, hr6, hst1]
  · rw [hstep, hr7, hst1]

theorem jsonSectionsFold_build :
    ∀ (secs : List ExportSection) (st : ImportState) (ls : List StoreList) (L : StoreList),
      st.draftLists = ls ++ [L] → L.id ∉ listIds ls →
      (∀ i ∈ sectionIds st.draftLists, i < st.nextSectionId) →
      (∀ i ∈ itemIds st.draftLists, i < st.nextItemId) →
      ∃ newSecs : List StoreSection,
        (secs.foldl (jsonSectionStep allOk L.id) st).draftLists =
          ls ++ [{ L with sections := L.sections ++ newSecs }] ∧
        newSecs.map shapeSection = secs.map importedSectionShape ∧
        (∀ i ∈ sectionIds (secs.foldl (jsonSectionStep allOk L.id) st).draftLists,
          i < (secs.foldl (jsonSectionStep allOk L.id) st).nextSectionId) ∧
        (∀ i ∈ itemIds (secs.foldl (jsonSectionStep allOk L.id) st).draftLists,
          i < (secs.foldl (jsonSectionStep allOk L.id) st).nextItemId) ∧
        (secs.foldl (jsonSectionStep allOk L.id) st).nextListId = st.nextListId ∧
        (secs.foldl (jsonSectionStep allOk L.id) st).existing = st.existing ∧
        (secs.foldl (jsonSectionStep allOk L.id) st).skippedLists = st.skippedLists := by
  intro secs
  induction secs with
  | nil =>
      intro st ls L hd hlid hsb hib
      refine ⟨[], ?_, rfl, hsb, hib, rfl, rfl, rfl⟩
      rw [List.foldl_nil, hd, List.append_nil]
  | cons sec rest ih =>
      intro st ls L hd hlid hsb hib
      rcases jsonSectionStep_build st ls L sec hd hlid hsb hib with
        ⟨newSec, hr1, hr2, hr3, hr4, hr5, hr6, hr7⟩
      rw [List.foldl_cons]
      have hrec := ih (jsonSectionStep allOk L.id st sec) ls
        { L with sections := L.sections ++ [newSec] } hr1 hlid hr3 hr4
      rcases hrec with ⟨newSecs, hq1, hq2, hq3, hq4, hq5, hq6, hq7⟩
      refine ⟨newSec :: newSecs, ?_, ?_, hq3, hq4, ?_, ?_, ?_⟩
      · rw [hq1]
        simp
      · simp only [List.map_cons, hr2, hq2]
      · rw [hq5, hr5]
      · rw [hq6, hr6]
      · rw [hq7, hr7]

theorem jsonListCreate_build (st : ImportState) (l : ExportList) (name : String)
    (hlb : ∀ i ∈ listIds st.draftLists, i < st.nextListId)
    (hsb : ∀ i ∈ sectionIds st.draftLists, i < st.nextSectionId)
    (hib : ∀ i ∈ itemIds st.draftLists, i < st.nextItemId) :
    ∃ newL : StoreList,
      (jsonListCreate allOk st l name).draftLists = st.draftLists ++ [newL] ∧
      shapeList newL = ⟨name, l.icon, l.isActive, l.sections.map importedSectionShape⟩ ∧
      (∀ i ∈ listIds (jsonListCreate allOk st l name).draftLists,
        i < (jsonListCreate allOk st l name).nextListId) ∧
      (∀ i ∈ sectionIds (jsonListCreate allOk st l name).draftLists,
        i < (jsonListCreate allOk st l name).nextSectionId) ∧
      (∀ i ∈ itemIds (jsonListCreate allOk st l name).draftLists,
        i < (jsonListCreate allOk st l name).nextItemId) ∧
      (jsonListCreate allOk st l name).existing = st.existing ∧
      (jsonListCreate allOk st l name).skippedLists = st.skippedLists := by
  have e1 : dbCreateListTx allOk st name l.icon =
      (some st.nextListId,
        { st with
            calls := st.calls + 1
            draftLists := st.draftLists ++ [⟨st.nextListId, name, l.icon, false, []⟩]
            nextListId := st.nextListId + 1 }) := by
    simp only [dbCreateListTx, stepCall, allOk]
  have hfreshL : st.nextListId ∉ listIds st.draftLists := by
    intro hmem
    have := hlb _ hmem
    omega
  have eact : ∀ stx : ImportState, stx.draftLists = st.draftLists ++
        [⟨st.nextListId, name, l.icon, false, []⟩] →
      (if l.isActive then
          (dbExec allOk stx (updListsAt st.nextListId (fun x => { x with isActive := true }))).2
        else stx) =
      { stx with
          calls := stx.calls + (cond l.isActive 1 0)
          draftLists := st.draftLists ++ [⟨st.nextListId, name, l.icon, l.isActive, []⟩] } := by
    intro stx hstx
    cases hact : l.isActive
    · simp only [Bool.false_eq_true, if_false, cond_false, Nat.add_zero]
      rw [← hstx]
    · simp only [if_true, cond_true]
      simp only [dbExec, stepCall, allOk]
      rw [hstx]
      have hupd : updListsAt st.nextListId (fun x => { x with isActive := true })
          (st.draftLists ++ [⟨st.nextListId, name, l.icon, false, []⟩]) =
          st.draftLists ++ [⟨st.nextListId, name, l.icon, true, []⟩] :=
        updListsAt_last st.draftLists ⟨st.nextListId, name, l.icon, false, []⟩ _ hfreshL
      rw [hupd]
  have hstep : jsonListCreate allOk st l name =
      l.sections.foldl (jsonSectionStep allOk st.nextListId)
        { st with
            calls := st.calls + 1 + (cond l.isActive 1 0)
            draftLists := st.draftLists ++ [⟨st.nextListId, name, l.icon, l.isActive, []⟩]
            nextListId := st.nextListId + 1
            importedLists := st.importedLists + 1 } := by
    simp only [jsonListCreate, e1]
    rw [eact _ rfl]
  set Lact : StoreList := ⟨st.nextListId, name, l.icon, l.isActive, []⟩ with hLact
  set st1 : ImportState :=
    { st with
        calls := st.calls + 1 + (cond l.isActive 1 0)
        draftLists := st.draftLists ++ [Lact]
        nextListId := st.nextListId + 1
        importedLists := st.importedLists + 1 } with hst1
  have hsb1 : ∀ i ∈ sectionIds st1.draftLists, i < st1.nextSectionId := by
    intro i hi
    refine hsb i ?_
    rw [hst1] at hi
    dsimp only at hi
    rw [sectionIds_append] at hi
    rcases List.mem_append.mp hi with hi2 | hi2
    · exact hi2
    · simp [sectionIds, hLact] at hi2
  have hib1 : ∀ i ∈ itemIds st1.draftLists, i < st1.nextItemId := by
    intro i hi
    refine hib i ?_
    rw [hst1] at hi
    dsimp only at hi
    rw [itemIds_append] at hi
    rcases List.mem_append.mp hi with hi2 | hi2
    · exact hi2
    · simp [itemIds, hLact] at hi2
  have hrec := jsonSectionsFold_build l.sections st1 st.draftLists Lact rfl hfreshL hsb1 hib1
  rcases hrec with ⟨newSecs, hq1, hq2, hq3, hq4, hq5, hq6, hq7⟩
  refine ⟨{ Lact with sections := newSecs }, ?_, ?_, ?_, ?_, ?_, ?_, ?_⟩
  · rw [hstep, hq1, hLact]
    simp
  · simp only [shapeList, hLact, importedListShape]
    rw [hq2]
  · rw [hstep]
    intro i hi
    rw [hq1] at hi
    have hnl : (l.sections.foldl (jsonSectionStep allOk st.nextListId) st1).nextListId =
        st.nextListId + 1 := by rw [hq5, hst1]
    rw [hnl]
    have hi2 : i ∈ listIds st.draftLists ∨ i = st.nextListId := by
      rw [listIds_append] at hi
      rcases List.mem_append.mp hi with hi3 | hi3
      · exact Or.inl hi3
      · right
        simpa [listIds, hLact] using hi3
    rcases hi2 with hi3 | hi3
    · have := hlb i hi3
      omega
    · omega
  · rw [hstep]
    exact hq3
  · rw [hstep]
    exact hq4
  · rw [hstep, hq6, hst1]
  · rw [hstep, hq7, hst1]

theorem jsonListsFold_char (mode suffix : String) (ex0 : KMap Int) :
    ∀ (ls : List ExportList) (st : ImportState),
      st.existing = ex0 →
      (∀ l ∈ ls, hasKey ex0 (strLower l.name) = true → mode = "skip") →
      (∀ i ∈ listIds st.draftLists, i < st.nextListId) →
      (∀ i ∈ sectionIds st.draftLists, i < st.nextSectionId) →
      (∀ i ∈ itemIds st.draftLists, i < st.nextItemId) →
      ∃ newLs : List StoreList,
        (ls.foldl (jsonListStep allOk mode suffix) st).draftLists = st.draftLists ++ newLs ∧
        newLs.map shapeList = (ls.filter (jsonKeepB ex0)).map importedListShape ∧
        (ls.foldl (jsonListStep allOk mode suffix) st).skippedLists =
          st.skippedLists + ls.countP (jsonSkipB ex0) ∧
        (ls.foldl (jsonListStep allOk mode suffix) st).existing = ex0 := by
  intro ls
  induction ls with
  | nil =>
      intro st hex _ _ _ _
      exact ⟨[], by simp, rfl, by simp, hex⟩
  | cons l rest ih =>
      intro st hex hH hlb hsb hib
      rw [List.foldl_cons]
      have hHrest : ∀ x ∈ rest, hasKey ex0 (strLower x.name) = true → mode = "skip" :=
        fun x hx => hH x (List.mem_cons_of_mem _ hx)
      by_cases h1 : l.name = "[HISTORY]"
      · have hstep : jsonListStep allOk mode suffix st l =
            { st with skippedLists := st.skippedLists + 1 } := by
          simp [jsonListStep, h1]
        rw [hstep]
        rcases ih { st with skippedLists := st.skippedLists + 1 } hex hHrest hlb hsb hib with
          ⟨newLs, hq1, hq2, hq3, hq4⟩
        refine ⟨newLs, hq1, ?_, ?_, hq4⟩
        · have hk : jsonKeepB ex0 l = false := by simp [jsonKeepB, h1]
          simp only [List.filter_cons, hk]
          exact hq2
        · have hk : jsonSkipB ex0 l = true := by simp [jsonSkipB, h1]
          rw [List.countP_cons]
          simp only [hk, if_true]
          rw [hq3]
          dsimp only
          omega
      · by_cases h2 : strLen l.name > MaxListNameLength
        · have hstep : jsonListStep allOk mode suffix st l = st := by
            simp [jsonListStep, h1, h2]
          rw [hstep]
          rcases ih st hex hHrest hlb hsb hib with ⟨newLs, hq1, hq2, hq3, hq4⟩
          refine ⟨newLs, hq1, ?_, ?_, hq4⟩
          · have hk : jsonKeepB ex0 l = false := by simp [jsonKeepB, h1, h2]
            simp only [List.filter_cons, hk]
            exact hq2
          · have hk : jsonSkipB ex0 l = false := by simp [jsonSkipB, h1, h2]
            rw [List.countP_cons]
            simp only [hk, if_false]
            exact hq3
        · cases hck : hasKey ex0 (strLower l.name) with
          | true =>
            have hm := hH l (List.mem_cons_self _ _) hck
            rcases lookupKey_of_hasKey ex0 _ hck with ⟨v, hv⟩
            have hstep : jsonListStep allOk mode suffix st l =
                { st with skippedLists := st.skippedLists + 1 } := by
              simp [jsonListStep, h1, h2, hex, hv, hm]
            rw [hstep]
            rcases ih { st with skippedLists := st.skippedLists + 1 } hex hHrest hlb hsb hib with
              ⟨newLs, hq1, hq2, hq3, hq4⟩
            refine ⟨newLs, hq1, ?_, ?_, hq4⟩
            · have hk : jsonKeepB ex0 l = false := by simp [jsonKeepB, h1, h2, hck]
              simp only [List.filter_cons, hk]
              exact hq2
            · have hk : jsonSkipB ex0 l = true := by
                simp [jsonSkipB, h1, h2, hck]
              rw [List.countP_cons]
              simp only [hk, if_true]
              rw [hq3]
              dsimp only
              omega
          | false =>
            have hstep : jsonListStep allOk mode suffix st l =
                jsonListCreate allOk st l l.name := by
              simp [jsonListStep, h1, h2, hex, lookupKey_of_not_hasKey _ _ hck]
            rw [hstep]
            rcases jsonListCreate_build st l l.name hlb hsb hib with
              ⟨newL, hc1, hc2, hc3, hc4, hc5, hc6, hc7⟩
            rcases ih (jsonListCreate allOk st l l.name) (hc6.trans hex) hHrest hc3 hc4 hc5 with
              ⟨newLs, hq1, hq2, hq3, hq4⟩
            refine ⟨newL :: newLs, ?_, ?_, ?_, hq4⟩
            · rw [hq1, hc1]
              simp
            · have hk : jsonKeepB ex0 l = true := by simp [jsonKeepB, h1, h2, hck]
              simp only [List.filter_cons, hk, if_true, List.map_cons]
              rw [hq2]
              simp only [List.map_cons, hc2, importedListShape]
            · have hk : jsonSkipB ex0 l = false := by simp [jsonSkipB, h1, h2, hck]
              rw [hq3, hc7, List.countP_cons]
              simp [hk]

theorem dbCreateTemplate_frame (ora : Oracle) (st : ImportState) (n d : String) :
    (dbCreateTemplate ora st n d).2.draftLists = st.draftLists ∧
    (dbCreateTemplate ora st n d).2.skippedLists = st.skippedLists := by
  cases h : ora st.calls <;> simp [dbCreateTemplate, stepCall, h]

theorem dbAddTemplateItem_frame (ora : Oracle) (st : ImportState) (tid : Nat)
    (item : ExportTemplateItem) :
    (dbAddTemplateItem ora st tid item).draftLists = st.draftLists ∧
    (dbAddTemplateItem ora st tid item).skippedLists = st.skippedLists := by
  cases h : ora st.calls <;> simp [dbAddTemplateItem, stepCall, h]

theorem addTemplateItemsFold_frame (ora : Oracle) (tid : Nat) :
    ∀ (items : List ExportTemplateItem) (st : ImportState),
      ((items.foldl (fun st it => dbAddTemplateItem ora st tid it) st).draftLists =
        st.draftLists) ∧
      ((items.foldl (fun st it => dbAddTemplateItem ora st tid it) st).skippedLists =
        st.skippedLists) := by
  intro items
  induction items with
  | nil => exact fun st => ⟨rfl, rfl⟩
  | cons it rest ih =>
      intro st
      rw [List.foldl_cons]
      have h1 := dbAddTemplateItem_frame ora st tid it
      exact ⟨(ih _).1.trans h1.1, (ih _).2.trans h1.2⟩

theorem templateStep_frame (ora : Oracle) (st : ImportState) (t : ExportTemplate) :
    (templateStep ora st t).draftLists = st.draftLists ∧
    (templateStep ora st t).skippedLists = st.skippedLists := by
  rcases h : dbCreateTemplate ora st t.name t.description with ⟨oid, stb⟩
  have h2 := dbCreateTemplate_frame ora st t.name t.description
  rw [h] at h2
  cases oid with
  | none => simp only [templateStep, h]; exact h2
  | some tid =>
      simp only [templateStep, h]
      have h3 := addTemplateItemsFold_frame ora tid t.items stb
      exact ⟨h3.1.trans h2.1, h3.2.trans h2.2⟩

theorem historyStep_frame (ora : Oracle) (st : ImportState) (hh : ExportHistory) :
    (historyStep ora st hh).draftLists = st.draftLists ∧
    (historyStep ora st hh).skippedLists = st.skippedLists := by
  rcases h : dbSaveItemHistoryTx ora st hh.name
      (dbGetSectionIDByNameTx st hh.lastSection)
      (if hh.usageCount < 1 then 1 else hh.usageCount) with ⟨ok, stb⟩
  have h2 : stb.draftLists = st.draftLists ∧ stb.skippedLists = st.skippedLists := by
    have h3 : (dbSaveItemHistoryTx ora st hh.name
        (dbGetSectionIDByNameTx st hh.lastSection)
        (if hh.usageCount < 1 then 1 else hh.usageCount)).2 = stb := by rw [h]
    rw [← h3]
    cases h4 : ora st.calls <;> simp [dbSaveItemHistoryTx, stepCall, h4]
  cases ok with
  | false => simp only [historyStep, h]; exact h2
  | true => simp only [historyStep, h]; exact h2

theorem templatesFold_frame (ora : Oracle) :
    ∀ (ts : List ExportTemplate) (st : ImportState),
      ((ts.foldl (templateStep ora) st).draftLists = st.draftLists) ∧
      ((ts.foldl (templateStep ora) st).skippedLists = st.skippedLists) := by
  intro ts
  induction ts with
  | nil => exact fun st => ⟨rfl, rfl⟩
  | cons t rest ih =>
      intro st
      rw [List.foldl_cons]
      have h1 := templateStep_frame ora st t
      exact ⟨(ih _).1.trans h1.1, (ih _).2.trans h1.2⟩

theorem historyFold_frame (ora : Oracle) :
    ∀ (hs : List ExportHistory) (st : ImportState),
      ((hs.foldl (historyStep ora) st).draftLists = st.draftLists) ∧
      ((hs.foldl (historyStep ora) st).skippedLists = st.skippedLists) := by
  intro hs
  induction hs with
  | nil => exact fun st => ⟨rfl, rfl⟩
  | cons hh rest ih =>
      intro st
      rw [List.foldl_cons]
      have h1 := historyStep_frame ora st hh
      exact ⟨(ih _).1.trans h1.1, (ih _).2.trans h1.2⟩

theorem importJSON_skip_char (store : Store) (doc : ExportData) (mode suffix : String)
    (hwf : store.WF)
    (hH : ∀ l ∈ doc.data.lists,
      hasKey (buildExistingNames store) (strLower l.name) = true → mode = "skip") :
    ∃ (newLs : List StoreList) (s : ImportSummary),
      (importJSON store doc mode suffix allOk true true).1 = ImportResult.ok s ∧
      (importJSON store doc mode suffix allOk true true).2.lists = store.lists ++ newLs ∧
      newLs.map shapeList =
        (doc.data.lists.filter (jsonKeepB (buildExistingNames store))).map importedListShape ∧
      s.skippedLists = doc.data.lists.countP (jsonSkipB (buildExistingNames store)) := by
  rcases jsonListsFold_char mode suffix (buildExistingNames store) doc.data.lists
      (initImportState store) rfl hH hwf.2.1 hwf.2.2.2.1 hwf.2.2.2.2.2 with
    ⟨newLs, hq1, hq2, hq3, hq4⟩
  set st1 := doc.data.lists.foldl (jsonListStep allOk mode suffix) (initImportState store)
    with hst1
  set st2 := doc.data.templates.foldl (templateStep allOk) st1 with hst2
  set st3 := doc.data.history.foldl (historyStep allOk) st2 with hst3
  have hT := templatesFold_frame allOk doc.data.templates st1
  have hHst := historyFold_frame allOk doc.data.history st2
  have h1 : (importJSON store doc mode suffix allOk true true).1 =
      ImportResult.ok ⟨st3.importedLists, st3.importedItems, st3.importedTemplates,
        st3.importedHistory, st3.skippedLists⟩ := rfl
  have h2 : (importJSON store doc mode suffix allOk true true).2.lists = st3.draftLists := rfl
  refine ⟨newLs, _, h1, ?_, hq2, ?_⟩
  · rw [h2]
    rw [← hst2] at hT
    rw [← hst3] at hHst
    rw [hHst.1, hT.1, hq1]
    rfl
  · dsimp only
    rw [← hst3] at hHst
    rw [← hst2] at hT
    rw [hHst.2, hT.2, hq3]
    simp [initImportState]

/-! ## Preview validation bounds -/

theorem previewItems_ok (n : String) :
    ∀ items, previewItems n items = Except.ok () →
      ∀ it ∈ items, strLen it.name ≤ MaxItemNameLength := by
  intro items
  induction items with
  | nil => intro _ it h; simp at h
  | cons it rest ih =>
      intro h x hx
      unfold previewItems at h
      by_cases h1 : strLen it.name > MaxItemNameLength
      · rw [if_pos h1] at h
        cases h
      · rw [if_neg h1] at h
        by_cases h2 : strLen it.description > MaxDescriptionLength
        · rw [if_pos h2] at h
          cases h
        · rw [if_neg h2] at h
          rcases List.mem_cons.mp hx with hx2 | hx2
          · rw [hx2]
            omega
          · exact ih h x hx2

theorem previewSections_ok (n : String) :
    ∀ secs, previewSections n secs = Except.ok () →
      ∀ sec ∈ secs, ∀ it ∈ sec.items, strLen it.name ≤ MaxItemNameLength := by
  intro secs
  induction secs with
  | nil => intro _ sec h; simp at h
  | cons sec rest ih =>
      intro h x hx it hit
      unfold previewSections at h
      by_cases h1 : strLen sec.name > MaxSectionNameLength
      · rw [if_pos h1] at h
        cases h
      · rw [if_neg h1] at h
        rcases h3 : previewItems n sec.items with e | u
        · rw [h3] at h
          cases h
        · cases u
          rw [h3] at h
          rcases List.mem_cons.mp hx with hx2 | hx2
          · rw [hx2] at hit
            exact previewItems_ok n sec.items h3 it hit
          · exact ih h x hx2 it hit

theorem previewLists_ok (ex : KMap Bool) :
    ∀ ls (acc acc2 : PreviewAcc), previewLists ex ls acc = Except.ok acc2 →
      ∀ l ∈ ls, ∀ sec ∈ l.sections, ∀ it ∈ sec.items, strLen it.name ≤ MaxItemNameLength := by
  intro ls
  induction ls with
  | nil => intro _ _ _ l h; simp at h
  | cons l rest ih =>
      intro acc acc2 h x hx sec hsec it hit
      unfold previewLists at h
      by_cases h1 : strLen l.name > MaxListNameLength
      · rw [if_pos h1] at h
        cases h
      · rw [if_neg h1] at h
        by_cases h2 : l.name = "[HISTORY]"
        · rw [if_pos h2] at h
          cases h
        · rw [if_neg h2] at h
          rcases h3 : previewSections l.name l.sections with e | u
          · rw [h3] at h
            cases h
          · cases u
            rw [h3] at h
            rcases List.mem_cons.mp hx with hx2 | hx2
            · rw [hx2] at hsec
              exact previewSections_ok l.name l.sections h3 sec hsec it hit
            · exact ih _ _ h x hx2 sec hsec it hit

/-! ## Claim C4 -/

/-- C4 confirmed: an item name longer than 200 characters makes the preview
pass reject the whole upload as invalid with a 400, while the import pass
stores the item with its name truncated to exactly the first 200 characters
(shown here for an importable list under `conflict_resolution=skip`). -/
theorem C4_preview_strict_import_truncates :
    (∀ (doc : ExportData) (store : Store),
        (∃ l ∈ doc.data.lists, ∃ sec ∈ l.sections, ∃ it ∈ sec.items,
          strLen it.name > MaxItemNameLength) →
        (previewJSONImport doc store).valid = false ∧
        (previewJSONImport doc store).status = 400) ∧
    (∀ (doc : ExportData) (store : Store) (suffix : String) (l : ExportList)
        (sec : ExportSection) (it : ExportItem),
        store.WF →
        l ∈ doc.data.lists → sec ∈ l.sections → it ∈ sec.items →
        jsonKeepB (buildExistingNames store) l = true →
        strLen it.name > MaxItemNameLength →
        ∃ sl ∈ (importJSON store doc "skip" suffix allOk true true).2.lists,
          ∃ ssec ∈ sl.sections, ∃ sit ∈ ssec.items,
            sit.name = strTake it.name MaxItemNameLength) := by
  constructor
  · intro doc store ⟨l, hl, sec, hsec, it, hit, hlen⟩
    unfold previewJSONImport
    by_cases hc : doc.app ≠ "koffan" ∧ doc.app ≠ ""
    · rw [if_pos hc]
      exact ⟨rfl, rfl⟩
    · rw [if_neg hc]
      rcases h : previewLists (previewExistingNames store) doc.data.lists ⟨0, [], []⟩ with e | acc
      · exact ⟨rfl, rfl⟩
      · have := previewLists_ok (previewExistingNames store) doc.data.lists _ _ h l hl sec hsec
          it hit
        omega
  · intro doc store suffix l sec it hwf hl hsec hit hkeep hlen
    rcases importJSON_skip_char store doc "skip" suffix hwf (fun _ _ _ => rfl) with
      ⟨newLs, s, hs1, hs2, hs3, hs4⟩
    have hmem1 : importedListShape l ∈ newLs.map shapeList := by
      rw [hs3]
      exact List.mem_map_of_mem _ (List.mem_filter.mpr ⟨hl, hkeep⟩)
    rcases List.mem_map.mp hmem1 with ⟨sl, hsl, hshape⟩
    refine ⟨sl, by rw [hs2]; exact List.mem_append_right _ hsl, ?_⟩
    have hsecs : sl.sections.map shapeSection = l.sections.map importedSectionShape := by
      have := congrArg ExportList.sections hshape
      simpa [shapeList, importedListShape] using this
    have hmem2 : importedSectionShape sec ∈ sl.sections.map shapeSection := by
      rw [hsecs]
      exact List.mem_map_of_mem _ hsec
    rcases List.mem_map.mp hmem2 with ⟨ssec, hssec, hshape2⟩
    refine ⟨ssec, hssec, ?_⟩
    have hits : ssec.items.map shapeItem = sec.items.map importedItemShape := by
      have := congrArg ExportSection.items hshape2
      simpa [shapeSection, importedSectionShape] using this
    have hmem3 : importedItemShape it ∈ ssec.items.map shapeItem := by
      rw [hits]
      exact List.mem_map_of_mem _ hit
    rcases List.mem_map.mp hmem3 with ⟨sit, hsit, hshape3⟩
    refine ⟨sit, hsit, ?_⟩
    have := congrArg ExportItem.name hshape3
    simp only [shapeItem, importedItemShape] at this
    rw [this, truncStr, if_pos hlen]

set_option maxRecDepth 100000 in
/-- C4 witness at a concrete input: a 201-character item name. -/
theorem C4_witness :
    ((previewJSONImport c4doc emptyStore).valid = false ∧
      (previewJSONImport c4doc emptyStore).status = 400) ∧
    (∃ sl ∈ (importJSON emptyStore c4doc "skip" "copy" allOk true true).2.lists,
      ∃ ssec ∈ sl.sections, ∃ sit ∈ ssec.items,
        sit.name = strTake longItemName MaxItemNameLength) := by
  constructor
  · exact C4_preview_strict_import_truncates.1 c4doc emptyStore
      ⟨⟨"L", "i", false, [⟨"S", [⟨longItemName, "desc", false, false⟩]⟩]⟩, by decide,
        ⟨"S", [⟨longItemName, "desc", false, false⟩]⟩, by decide,
        ⟨longItemName, "desc", false, false⟩, by decide, by decide⟩
  · exact C4_preview_strict_import_truncates.2 c4doc emptyStore "copy"
      ⟨"L", "i", false, [⟨"S", [⟨longItemName, "desc", false, false⟩]⟩]⟩
      ⟨"S", [⟨longItemName, "desc", false, false⟩]⟩
      ⟨longItemName, "desc", false, false⟩
      (by simp [Store.WF, IdsOk, emptyStore, listIds, sectionIds, itemIds])
      (by decide) (by decide) (by decide) (by decide) (by decide)

/-! ## Association-list lookup lemmas -/

theorem lookupKey_cons_self {β : Type} (m : KMap β) (k : String) (v : β) :
    lookupKey ((k, v) :: m) k = some v := by
  simp [lookupKey]

theorem lookupKey_cons_ne {β : Type} (m : KMap β) (k k' : String) (v : β) (h : k ≠ k') :
    lookupKey ((k, v) :: m) k' = lookupKey m k' := by
  unfold lookupKey
  rw [List.find?_cons_of_neg _ (by simp [h])]

theorem lookupKey_append {β : Type} (a b : KMap β) (k : String) :
    lookupKey (a ++ b) k = (lookupKey a k).or (lookupKey b k) := by
  unfold lookupKey
  rw [List.find?_append]
  cases a.find? (fun p => p.1 == k) <;> rfl

theorem lookupKey_filter_ne {β : Type} (m : KMap β) (k k' : String) (h : k' ≠ k) :
    lookupKey (m.filter (fun p => !(p.1 == k))) k' = lookupKey m k' := by
  induction m with
  | nil => rfl
  | cons a m ih =>
      rcases a with ⟨ak, av⟩
      by_cases hak : ak = k
      · subst hak
        rw [List.filter_cons_of_neg (by simp)]
        rw [ih, lookupKey_cons_ne _ _ _ _ (Ne.symm h)]
      · rw [List.filter_cons_of_pos (by simp [hak])]
        by_cases hak2 : ak = k'
        · subst hak2
          rw [lookupKey_cons_self, lookupKey_cons_self]
        · rw [lookupKey_cons_ne _ _ _ _ hak2, lookupKey_cons_ne _ _ _ _ hak2, ih]

theorem lookupKey_mapInsert_self {β : Type} (m : KMap β) (k : String) (v : β) :
    lookupKey (mapInsert m k v) k = some v := by
  unfold mapInsert
  rw [lookupKey_append]
  have hk : hasKey (m.filter (fun p => !(p.1 == k))) k = false := by
    rw [hasKey]
    refine List.any_eq_false.mpr ?_
    intro a ha
    have h2 := (List.mem_filter.mp ha).2
    simp at h2 ⊢
    exact h2
  rw [lookupKey_of_not_hasKey _ _ hk, lookupKey_cons_self]
  rfl

theorem lookupKey_mapInsert_ne {β : Type} (m : KMap β) (k k' : String) (v : β) (h : k' ≠ k) :
    lookupKey (mapInsert m k v) k' = lookupKey m k' := by
  unfold mapInsert
  rw [lookupKey_append, lookupKey_filter_ne m k k' h]
  have h2 : lookupKey [(k, v)] k' = none := by
    rw [lookupKey_cons_ne _ _ _ _ (Ne.symm h)]
    rfl
  rw [h2]
  cases lookupKey m k' <;> rfl

theorem lookupKey_keyed_map {α β : Type} (l : List α) (key : α → String) (f : α → β)
    (k : String) :
    lookupKey (l.map (fun g => (key g, f g))) k =
      (l.find? (fun g => key g == k)).map f := by
  induction l with
  | nil => rfl
  | cons g gs ih =>
      by_cases hk : key g = k
      · simp only [List.map_cons]
        rw [hk, lookupKey_cons_self, List.find?_cons_of_pos _ (by simp [hk])]
        rfl
      · simp only [List.map_cons]
        rw [lookupKey_cons_ne _ _ _ _ hk, List.find?_cons_of_neg _ (by simp [hk]), ih]

theorem hasKey_keys_map (sk : List String) (k : String) :
    hasKey (sk.map (fun x => (x, true))) k = sk.contains k := by
  induction sk with
  | nil => rfl
  | cons a sk ih =>
      simp only [List.map_cons, hasKey, List.any_cons, List.contains_cons]
      by_cases hak : a = k
      · subst hak
        simp
      · simp only [hasKey] at ih
        simp only [ih]
        have h1 : (a == k) = false := by simp [hak]
        have h2 : (k == a) = false := by simp [Ne.symm hak]
        rw [h1, h2]

theorem strLen_strLower (s : String) : strLen (strLower s) = strLen s := by
  simp [strLen, strLower]

theorem truncStr_of_le (s : String) (n : Nat) (h : strLen s ≤ n) : truncStr s n = s := by
  unfold truncStr
  rw [if_neg (by omega)]
/-! ## Mid-position update lemmas -/

theorem sectionIds_cons (g : StoreList) (B : List StoreList) :
    sectionIds (g :: B) = g.sections.map (fun s => s.id) ++ sectionIds B := by
  simp [sectionIds]

theorem itemIds_cons (g : StoreList) (B : List StoreList) :
    itemIds (g :: B) =
      (g.sections.map (fun s => s.items.map (fun it => it.id))).flatten ++ itemIds B := by
  simp [itemIds]

theorem listIds_cons (g : StoreList) (B : List StoreList) :
    listIds (g :: B) = g.id :: listIds B := by
  simp [listIds]

theorem nodup_sides {X Y : List Nat} {a : Nat} (h : (X ++ a :: Y).Nodup) : a ∉ X ∧ a ∉ Y := by
  rw [List.nodup_append] at h
  constructor
  · intro ha
    exact h.2.2 ha (List.mem_cons_self _ _)
  · exact (List.nodup_cons.mp h.2.1).1

theorem updListsAt_mid (A : List StoreList) (g : StoreList) (B : List StoreList)
    (f : StoreList → StoreList) (h1 : g.id ∉ listIds A) (h2 : g.id ∉ listIds B) :
    updListsAt g.id f (A ++ g :: B) = A ++ f g :: B := by
  unfold updListsAt
  rw [List.map_append, List.map_cons]
  rw [listMapIdOf A _ (fun l hl => if_neg (by intro he; exact h1 (he ▸ mem_listIds_of hl)))]
  rw [listMapIdOf B _ (fun l hl => if_neg (by intro he; exact h2 (he ▸ mem_listIds_of hl)))]
  rw [if_pos rfl]

theorem updSectionsAt_mid (A : List StoreList) (g : StoreList) (B : List StoreList)
    (s1 : List StoreSection) (sc : StoreSection) (s2 : List StoreSection)
    (f : StoreSection → StoreSection)
    (hg : g.sections = s1 ++ sc :: s2)
    (hA : sc.id ∉ sectionIds A) (hB : sc.id ∉ sectionIds B)
    (h1 : ∀ s ∈ s1, s.id ≠ sc.id) (h2 : ∀ s ∈ s2, s.id ≠ sc.id) :
    updSectionsAt sc.id f (A ++ g :: B) =
      A ++ { g with sections := s1 ++ f sc :: s2 } :: B := by
  unfold updSectionsAt
  rw [List.map_append, List.map_cons]
  have eA : A.map (fun l => { l with sections := l.sections.map (fun s => if s.id = sc.id then f s else s) }) = A := by
    refine listMapIdOf _ _ (fun l hl => ?_)
    have h3 : l.sections.map (fun s => if s.id = sc.id then f s else s) = l.sections :=
      listMapIdOf _ _ (fun s hs => if_neg (by intro he; exact hA (he ▸ mem_sectionIds_of hl hs)))
    rw [h3]
  have eB : B.map (fun l => { l with sections := l.sections.map (fun s => if s.id = sc.id then f s else s) }) = B := by
    refine listMapIdOf _ _ (fun l hl => ?_)
    have h3 : l.sections.map (fun s => if s.id = sc.id then f s else s) = l.sections :=
      listMapIdOf _ _ (fun s hs => if_neg (by intro he; exact hB (he ▸ mem_sectionIds_of hl hs)))
    rw [h3]
  rw [eA, eB]
  have eg : g.sections.map (fun s => if s.id = sc.id then f s else s) = s1 ++ f sc :: s2 := by
    rw [hg, List.map_append, List.map_cons]
    rw [listMapIdOf s1 _ (fun s hs => if_neg (h1 s hs))]
    rw [listMapIdOf s2 _ (fun s hs => if_neg (h2 s hs))]
    rw [if_pos rfl]
  rw [eg]

theorem updItemsAt_mid (A : List StoreList) (g : StoreList) (B : List StoreList)
    (s1 : List StoreSection) (sc : StoreSection) (s2 : List StoreSection)
    (its : List StoreItem) (x : StoreItem) (f : StoreItem → StoreItem)
    (hg : g.sections = s1 ++ sc :: s2) (hsc : sc.items = its ++ [x])
    (hA : x.id ∉ itemIds A) (hB : x.id ∉ itemIds B)
    (h1 : ∀ s ∈ s1, ∀ y ∈ s.items, y.id ≠ x.id)
    (h2 : ∀ s ∈ s2, ∀ y ∈ s.items, y.id ≠ x.id)
    (h3 : ∀ y ∈ its, y.id ≠ x.id) :
    updItemsAt x.id f (A ++ g :: B) =
      A ++ { g with sections := s1 ++ { sc with items := its ++ [f x] } :: s2 } :: B := by
  unfold updItemsAt
  rw [List.map_append, List.map_cons]
  have eA : A.map (fun l => { l with sections := l.sections.map (fun s => { s with items := s.items.map (fun it => if it.id = x.id then f it else it) }) }) = A := by
    refine listMapIdOf _ _ (fun l hl => ?_)
    have h4 : l.sections.map (fun s => { s with items := s.items.map (fun it => if it.id = x.id then f it else it) }) = l.sections := by
      refine listMapIdOf _ _ (fun s hs => ?_)
      have h5 : s.items.map (fun it => if it.id = x.id then f it else it) = s.items :=
        listMapIdOf _ _ (fun it hi => if_neg (by intro he; exact hA (he ▸ mem_itemIds_of hl hs hi)))
      rw [h5]
    rw [h4]
  have eB : B.map (fun l => { l with sections := l.sections.map (fun s => { s with items := s.items.map (fun it => if it.id = x.id then f it else it) }) }) = B := by
    refine listMapIdOf _ _ (fun l hl => ?_)
    have h4 : l.sections.map (fun s => { s with items := s.items.map (fun it => if it.id = x.id then f it else it) }) = l.sections := by
      refine listMapIdOf _ _ (fun s hs => ?_)
      have h5 : s.items.map (fun it => if it.id = x.id then f it else it) = s.items :=
        listMapIdOf _ _ (fun it hi => if_neg (by intro he; exact hB (he ▸ mem_itemIds_of hl hs hi)))
      rw [h5]
    rw [h4]
  rw [eA, eB]
  have eg : g.sections.map (fun s => { s with items := s.items.map (fun it => if it.id = x.id then f it else it) }) = s1 ++ { sc with items := its ++ [f x] } :: s2 := by
    rw [hg, List.map_append, List.map_cons]
    have e1 : s1.map (fun s => { s with items := s.items.map (fun it => if it.id = x.id then f it else it) }) = s1 := by
      refine listMapIdOf _ _ (fun s hs => ?_)
      have h5 : s.items.map (fun it => if it.id = x.id then f it else it) = s.items :=
        listMapIdOf _ _ (fun it hi => if_neg (h1 s hs it hi))
      rw [h5]
    have e2 : s2.map (fun s => { s with items := s.items.map (fun it => if it.id = x.id then f it else it) }) = s2 := by
      refine listMapIdOf _ _ (fun s hs => ?_)
      have h5 : s.items.map (fun it => if it.id = x.id then f it else it) = s.items :=
        listMapIdOf _ _ (fun it hi => if_neg (h2 s hs it hi))
      rw [h5]
    have e3 : sc.items.map (fun it => if it.id = x.id then f it else it) = its ++ [f x] := by
      rw [hsc, List.map_append, List.map_cons]
      rw [listMapIdOf its _ (fun it hi => if_neg (h3 it hi))]
      rw [if_pos rfl]
      rfl
    rw [e1, e2, e3]
  rw [eg]

/-! ## CSV import: generic helpers -/

theorem find?_decomp {α : Type} (p : α → Bool) :
    ∀ (l : List α) (a : α), l.find? p = some a →
      ∃ l1 l2, l = l1 ++ a :: l2 ∧ ∀ x ∈ l1, p x = false := by
  intro l
  induction l with
  | nil => intro a h; cases h
  | cons b t ih =>
      intro a h
      cases hb : p b with
      | true =>
          rw [List.find?_cons_of_pos _ hb] at h
          cases h
          exact ⟨[], t, rfl, by intro x hx; cases hx⟩
      | false =>
          rw [List.find?_cons_of_neg _ (by simp [hb])] at h
          rcases ih a h with ⟨l1, l2, he, hall⟩
          refine ⟨b :: l1, l2, by rw [he]; rfl, ?_⟩
          intro x hx
          rcases List.mem_cons.mp hx with h1 | h1
          · subst h1; exact hb
          · exact hall x h1

theorem hasKey_false_of_lookup_none {β : Type} (m : KMap β) (k : String)
    (h : lookupKey m k = none) : hasKey m k = false := by
  cases hh : hasKey m k
  · rfl
  · rcases lookupKey_of_hasKey m k hh with ⟨v, hv⟩
    rw [hv] at h
    cases h

theorem strLen_truncStr_le (s : String) (n : Nat) : strLen (truncStr s n) ≤ n := by
  unfold truncStr
  by_cases h : strLen s > n
  · rw [if_pos h]
    show (s.data.take n).length ≤ n
    rw [List.length_take]
    omega
  · rw [if_neg h]
    omega

theorem contains_false_iff (l : List String) (a : String) :
    l.contains a = false ↔ a ∉ l := by
  constructor
  · intro h hm
    have h2 : l.contains a = true := by
      rw [List.contains_iff_exists_mem_beq]
      exact ⟨a, hm, by simp⟩
    rw [h] at h2
    cases h2
  · intro h
    cases hc : l.contains a
    · rfl
    · rcases List.contains_iff_exists_mem_beq.mp hc with ⟨x, hx, he⟩
      have hax : a = x := by simpa using he
      exact absurd (hax ▸ hx) h

theorem nodup_insert_mid {α : Type} {X Y Z : List α} {a : α}
    (h : ((X ++ Y) ++ Z).Nodup) (ha : a ∉ (X ++ Y) ++ Z) :
    ((X ++ (Y ++ [a])) ++ Z).Nodup := by
  have e : (X ++ (Y ++ [a])) ++ Z = (X ++ Y) ++ a :: Z := by simp
  rw [e, List.nodup_middle]
  refine List.nodup_cons.mpr ⟨?_, h⟩
  intro hm
  exact ha (by simpa using hm)

theorem nodup_snoc {α : Type} {L : List α} {a : α} (h : L.Nodup) (ha : a ∉ L) :
    (L ++ [a]).Nodup := by
  rw [show L ++ [a] = L ++ a :: [] from rfl, List.nodup_middle]
  refine List.nodup_cons.mpr ⟨?_, ?_⟩
  · simpa using ha
  · simpa using h

theorem foldl_filter_if {α β : Type} (p : α → Bool) (f : β → α → β) :
    ∀ (l : List α) (b : β),
      l.foldl (fun acc x => if p x then f acc x else acc) b = (l.filter p).foldl f b := by
  intro l
  induction l with
  | nil => intro b; rfl
  | cons x t ih =>
      intro b
      rw [List.foldl_cons]
      cases hp : p x
      · rw [List.filter_cons_of_neg (by simp [hp]), if_neg (by simp [hp]), ih]
      · rw [List.filter_cons_of_pos (by simp [hp]), if_pos (by simp [hp]), List.foldl_cons, ih]

theorem find?_prefix_none {α : Type} (p : α → Bool) (c1 : List α) (x : α) (c2 : List α)
    (h : ∀ y ∈ c1, p y = false) :
    (c1 ++ x :: c2).find? p = if p x then some x else c2.find? p := by
  have h0 : c1.find? p = none := by
    refine List.find?_eq_none.mpr ?_
    intro y hy
    rw [h y hy]
    exact Bool.false_ne_true
  rw [List.find?_append, h0]
  cases hx : p x
  · rw [List.find?_cons_of_neg _ (by simp [hx])]
    simp
  · rw [List.find?_cons_of_pos _ hx]
    simp

theorem listIds_decomp (A : List StoreList) (g : StoreList) (B : List StoreList) :
    listIds (A ++ g :: B) = listIds A ++ g.id :: listIds B := by
  simp [listIds]

theorem sectionIds_decomp (A : List StoreList) (g : StoreList) (B : List StoreList) :
    sectionIds (A ++ g :: B) =
      sectionIds A ++ g.sections.map (fun s => s.id) ++ sectionIds B := by
  simp [sectionIds]

theorem itemIds_decomp (A : List StoreList) (g : StoreList) (B : List StoreList) :
    itemIds (A ++ g :: B) =
      itemIds A ++ (g.sections.map (fun s => s.items.map (fun it => it.id))).flatten ++
        itemIds B := by
  simp [itemIds]

theorem fresh_list_facts (A : List StoreList) (g : StoreList) (B : List StoreList)
    (hnd : (listIds (A ++ g :: B)).Nodup) : g.id ∉ listIds A ∧ g.id ∉ listIds B := by
  rw [listIds_decomp] at hnd
  exact nodup_sides hnd

theorem fresh_section_facts (A : List StoreList) (g : StoreList) (B : List StoreList)
    (s1 : List StoreSection) (sc : StoreSection) (s2 : List StoreSection)
    (hg : g.sections = s1 ++ sc :: s2)
    (hnd : (sectionIds (A ++ g :: B)).Nodup) :
    sc.id ∉ sectionIds A ∧ sc.id ∉ sectionIds B ∧
      (∀ s ∈ s1, s.id ≠ sc.id) ∧ (∀ s ∈ s2, s.id ≠ sc.id) := by
  rw [sectionIds_decomp, hg] at hnd
  have e : sectionIds A ++ (s1 ++ sc :: s2).map (fun s => s.id) ++ sectionIds B =
      (sectionIds A ++ s1.map (fun s => s.id)) ++ sc.id ::
        (s2.map (fun s => s.id) ++ sectionIds B) := by
    simp
  rw [e] at hnd
  have h := nodup_sides hnd
  refine ⟨?_, ?_, ?_, ?_⟩
  · intro hm
    exact h.1 (List.mem_append_left _ hm)
  · intro hm
    exact h.2 (List.mem_append_right _ hm)
  · intro s hs he
    exact h.1 (List.mem_append_right _ (List.mem_map.mpr ⟨s, hs, he⟩))
  · intro s hs he
    exact h.2 (List.mem_append_left _ (List.mem_map.mpr ⟨s, hs, he⟩))

/-! ## CSV import: item creation -/

theorem csvFlagStep (ST : ImportState) (A : List StoreList) (g : StoreList) (B : List StoreList)
    (s1 : List StoreSection) (sc : StoreSection) (s2 : List StoreSection)
    (its : List StoreItem) (x : StoreItem) (f : StoreItem → StoreItem)
    (hd : ST.draftLists = A ++ g :: B) (hg : g.sections = s1 ++ sc :: s2)
    (hsc : sc.items = its ++ [x])
    (hA : x.id ∉ itemIds A) (hB : x.id ∉ itemIds B)
    (h1 : ∀ s ∈ s1, ∀ y ∈ s.items, y.id ≠ x.id)
    (h2 : ∀ s ∈ s2, ∀ y ∈ s.items, y.id ≠ x.id)
    (h3 : ∀ y ∈ its, y.id ≠ x.id) :
    (dbExec allOk ST (updItemsAt x.id f)).2 =
      { ST with
          calls := ST.calls + 1
          draftLists := A ++
            { g with sections := s1 ++ { sc with items := its ++ [f x] } :: s2 } :: B } := by
  simp only [dbExec, stepCall, allOk]
  rw [hd, updItemsAt_mid A g B s1 sc s2 its x f hg hsc hA hB h1 h2 h3]

theorem csvFlagPhase (ST : ImportState) (A : List StoreList) (g : StoreList) (B : List StoreList)
    (s1 : List StoreSection) (sc : StoreSection) (s2 : List StoreSection)
    (its : List StoreItem) (x : StoreItem) (c u : Bool)
    (hd : ST.draftLists = A ++ g :: B) (hg : g.sections = s1 ++ sc :: s2)
    (hsc : sc.items = its ++ [x])
    (hA : x.id ∉ itemIds A) (hB : x.id ∉ itemIds B)
    (h1 : ∀ s ∈ s1, ∀ y ∈ s.items, y.id ≠ x.id)
    (h2 : ∀ s ∈ s2, ∀ y ∈ s.items, y.id ≠ x.id)
    (h3 : ∀ y ∈ its, y.id ≠ x.id) :
    (if u then
        (dbExec allOk
          (if c then (dbExec allOk ST (updItemsAt x.id (fun y => { y with completed := true }))).2
           else ST)
          (updItemsAt x.id (fun y => { y with uncertain := true }))).2
      else
        (if c then (dbExec allOk ST (updItemsAt x.id (fun y => { y with completed := true }))).2
         else ST)) =
    { ST with
        calls := ST.calls + (cond c 1 0) + (cond u 1 0)
        draftLists := A ++ { g with sections := s1 ++ { sc with items := its ++
          [{ x with completed := x.completed || c, uncertain := x.uncertain || u }] } :: s2 } :: B } := by
  have hstep1 := csvFlagStep ST A g B s1 sc s2 its x
    (fun y => { y with completed := true }) hd hg hsc hA hB h1 h2 h3
  cases c <;> cases u
  case false.false =>
    simp only [Bool.false_eq_true, if_false, cond_false, Nat.add_zero, Bool.or_false]
    rw [show ({ x with completed := x.completed, uncertain := x.uncertain } : StoreItem)
        = x from rfl,
      ← hsc,
      show ({ sc with items := sc.items } : StoreSection) = sc from rfl,
      ← hg,
      show ({ g with sections := g.sections } : StoreList) = g from rfl,
      ← hd]
  case false.true =>
    have hstep2 := csvFlagStep ST A g B s1 sc s2 its x
      (fun y => { y with uncertain := true }) hd hg hsc hA hB h1 h2 h3
    simp only [Bool.false_eq_true, if_false, if_true, cond_false, cond_true, Nat.add_zero,
      Bool.or_false, Bool.or_true]
    rw [hstep2]
  case true.false =>
    simp only [Bool.false_eq_true, if_false, if_true, cond_false, cond_true, Nat.add_zero,
      Bool.or_false, Bool.or_true]
    rw [hstep1]
  case true.true =>
    simp only [if_true, cond_true, Bool.or_true]
    rw [hstep1]
    have hstep2 := csvFlagStep
      { ST with
          calls := ST.calls + 1
          draftLists := A ++ { g with sections := s1 ++
            { sc with items := its ++ [{ x with completed := true }] } :: s2 } :: B }
      A
      { g with sections := s1 ++ { sc with items := its ++ [{ x with completed := true }] } :: s2 }
      B s1
      { sc with items := its ++ [{ x with completed := true }] }
      s2 its
      { x with completed := true }
      (fun y => { y with uncertain := true }) rfl rfl rfl hA hB h1 h2 h3
    rw [hstep2]

theorem csvItem_full (st : CSVState) (A : List StoreList) (g : StoreList) (B : List StoreList)
    (s1 : List StoreSection) (sc : StoreSection) (s2 : List StoreSection)
    (n dsc : String) (comp unc : Bool)
    (hd : st.base.draftLists = A ++ g :: B)
    (hg : g.sections = s1 ++ sc :: s2)
    (hscA : sc.id ∉ sectionIds A) (hscB : sc.id ∉ sectionIds B)
    (hs1 : ∀ s ∈ s1, s.id ≠ sc.id) (hs2 : ∀ s ∈ s2, s.id ≠ sc.id)
    (hib : ∀ i ∈ itemIds (A ++ g :: B), i < st.base.nextItemId) :
    ∃ c, csvItem allOk st sc.id n dsc comp unc =
      { st with base := { st.base with
          calls := c
          draftLists := A ++ { g with sections := s1 ++
            { sc with items := sc.items ++
              newCsvItems st.base.nextItemId n dsc comp unc } :: s2 } :: B
          nextItemId := st.base.nextItemId + (if n = "" then 0 else 1)
          importedItems := st.base.importedItems + (if n = "" then 0 else 1) } } := by
  by_cases hn : n = ""
  · refine ⟨st.base.calls, ?_⟩
    have hstep : csvItem allOk st sc.id n dsc comp unc = st := by
      simp [csvItem, hn]
    have hni : newCsvItems st.base.nextItemId n dsc comp unc = [] := by
      simp [newCsvItems, hn]
    have hif : (if n = "" then 0 else 1) = 0 := if_pos hn
    rw [hstep, hni, hif, List.append_nil, Nat.add_zero, Nat.add_zero,
      show ({ sc with items := sc.items } : StoreSection) = sc from rfl, ← hg,
      show ({ g with sections := g.sections } : StoreList) = g from rfl, ← hd]
  · have e1 : dbCreateItemTx allOk st.base sc.id n dsc =
        (some st.base.nextItemId,
          { st.base with
              calls := st.base.calls + 1
              draftLists := A ++ { g with sections := s1 ++
                { sc with items := sc.items ++
                  [⟨st.base.nextItemId, n, dsc, false, false⟩] } :: s2 } :: B
              nextItemId := st.base.nextItemId + 1 }) := by
      simp only [dbCreateItemTx, stepCall, allOk]
      rw [hd, updSectionsAt_mid A g B s1 sc s2 _ hg hscA hscB hs1 hs2]
    have hfA : st.base.nextItemId ∉ itemIds A := by
      intro hm
      have := hib _ (by rw [itemIds_decomp]; exact List.mem_append_left _ (List.mem_append_left _ hm))
      omega
    have hfB : st.base.nextItemId ∉ itemIds B := by
      intro hm
      have := hib _ (by rw [itemIds_decomp]; exact List.mem_append_right _ hm)
      omega
    have hgm : g ∈ A ++ g :: B := by simp
    have hf1 : ∀ s ∈ s1, ∀ y ∈ s.items, y.id ≠ st.base.nextItemId := by
      intro s hs y hy he
      have hm : y.id ∈ itemIds (A ++ g :: B) :=
        mem_itemIds_of hgm (by rw [hg]; exact List.mem_append_left _ hs) hy
      have := hib _ hm
      omega
    have hf2 : ∀ s ∈ s2, ∀ y ∈ s.items, y.id ≠ st.base.nextItemId := by
      intro s hs y hy he
      have hm : y.id ∈ itemIds (A ++ g :: B) :=
        mem_itemIds_of hgm
          (by rw [hg]; exact List.mem_append_right _ (List.mem_cons_of_mem _ hs)) hy
      have := hib _ hm
      omega
    have hf3 : ∀ y ∈ sc.items, y.id ≠ st.base.nextItemId := by
      intro y hy he
      have hm : y.id ∈ itemIds (A ++ g :: B) :=
        mem_itemIds_of hgm
          (by rw [hg]; exact List.mem_append_right _ (List.mem_cons_self _ _)) hy
      have := hib _ hm
      omega
    have ephase := csvFlagPhase
      { st.base with
          calls := st.base.calls + 1
          draftLists := A ++ { g with sections := s1 ++
            { sc with items := sc.items ++
              [⟨st.base.nextItemId, n, dsc, false, false⟩] } :: s2 } :: B
          nextItemId := st.base.nextItemId + 1 }
      A
      { g with sections := s1 ++
        { sc with items := sc.items ++ [⟨st.base.nextItemId, n, dsc, false, false⟩] } :: s2 }
      B s1
      { sc with items := sc.items ++ [⟨st.base.nextItemId, n, dsc, false, false⟩] }
      s2 sc.items
      (⟨st.base.nextItemId, n, dsc, false, false⟩ : StoreItem)
      comp unc rfl rfl rfl hfA hfB hf1 hf2 hf3
    refine ⟨st.base.calls + 1 + (cond comp 1 0) + (cond unc 1 0), ?_⟩
    simp only [csvItem, e1, ephase, Bool.false_or, newCsvItems, hn, if_false, ite_false,
      ne_eq, not_false_eq_true, if_true, ite_true]

/-! ## CSV import: history rows and id-multiset shapes -/

theorem csvHistoryRow_frame (ora : Oracle) (stb : ImportState) (row : List String) :
    ∃ dh ih c, csvHistoryRow ora stb row =
      { stb with draftHistory := dh, importedHistory := ih, calls := c } := by
  simp only [csvHistoryRow]
  by_cases h : (if row.length > 2 then strTrim (col row 2) else "") ≠ ""
  · rw [if_pos h]
    simp only [dbSaveItemHistoryTx, stepCall]
    cases ora stb.calls
    · exact ⟨_, _, _, rfl⟩
    · exact ⟨_, _, _, rfl⟩
  · rw [if_neg h]
    exact ⟨stb.draftHistory, stb.importedHistory, stb.calls, rfl⟩

theorem itemIds_mid_insert_mem (A : List StoreList) (g : StoreList) (B : List StoreList)
    (s1 : List StoreSection) (sc : StoreSection) (s2 : List StoreSection)
    (newIts : List StoreItem) (hg : g.sections = s1 ++ sc :: s2) :
    ∀ i ∈ itemIds (A ++
        { g with sections := s1 ++ { sc with items := sc.items ++ newIts } :: s2 } :: B),
      i ∈ itemIds (A ++ g :: B) ∨ i ∈ newIts.map (fun x => x.id) := by
  have e1 : itemIds (A ++
      { g with sections := s1 ++ { sc with items := sc.items ++ newIts } :: s2 } :: B) =
      itemIds A ++ ((s1.map (fun s => s.items.map (fun it => it.id))).flatten ++
        (sc.items.map (fun it => it.id) ++ (newIts.map (fun it => it.id) ++
          (s2.map (fun s => s.items.map (fun it => it.id))).flatten))) ++ itemIds B := by
    simp [itemIds]
  have e2 : itemIds (A ++ g :: B) =
      itemIds A ++ ((s1.map (fun s => s.items.map (fun it => it.id))).flatten ++
        (sc.items.map (fun it => it.id) ++
          (s2.map (fun s => s.items.map (fun it => it.id))).flatten)) ++ itemIds B := by
    simp [itemIds, hg]
  intro i hi
  rw [e1] at hi
  rw [e2]
  have em : newIts.map (fun it => it.id) = newIts.map (fun x => x.id) := rfl
  rw [← em]
  simp only [List.mem_append] at hi ⊢
  tauto

theorem itemIds_new_section_mem (A : List StoreList) (g : StoreList) (B : List StoreList)
    (ns : StoreSection) :
    ∀ i ∈ itemIds (A ++ { g with sections := g.sections ++ [ns] } :: B),
      i ∈ itemIds (A ++ g :: B) ∨ i ∈ ns.items.map (fun x => x.id) := by
  have e1 : itemIds (A ++ { g with sections := g.sections ++ [ns] } :: B) =
      itemIds A ++ ((g.sections.map (fun s => s.items.map (fun it => it.id))).flatten ++
        ns.items.map (fun it => it.id)) ++ itemIds B := by
    simp [itemIds]
  have e2 : itemIds (A ++ g :: B) =
      itemIds A ++ (g.sections.map (fun s => s.items.map (fun it => it.id))).flatten ++
        itemIds B := by
    simp [itemIds]
  intro i hi
  rw [e1] at hi
  rw [e2]
  have em : ns.items.map (fun it => it.id) = ns.items.map (fun x => x.id) := rfl
  rw [← em]
  simp only [List.mem_append] at hi ⊢
  tauto

theorem sectionIds_new_section (A : List StoreList) (g : StoreList) (B : List StoreList)
    (ns : StoreSection) :
    sectionIds (A ++ { g with sections := g.sections ++ [ns] } :: B) =
      (sectionIds A ++ (g.sections.map (fun s => s.id) ++ [ns.id])) ++ sectionIds B := by
  simp [sectionIds]

theorem sectionIds_mid_item (A : List StoreList) (g : StoreList) (B : List StoreList)
    (s1 : List StoreSection) (sc : StoreSection) (s2 : List StoreSection)
    (newIts : List StoreItem) (hg : g.sections = s1 ++ sc :: s2) :
    sectionIds (A ++
        { g with sections := s1 ++ { sc with items := sc.items ++ newIts } :: s2 } :: B) =
      sectionIds (A ++ g :: B) := by
  simp [sectionIds, hg]

theorem listIds_upd (A : List StoreList) (g : StoreList) (B : List StoreList)
    (ss : List StoreSection) :
    listIds (A ++ { g with sections := ss } :: B) = listIds (A ++ g :: B) := by
  simp [listIds]

/-! ## CSV import: section lookup or creation -/

theorem csvSectionItem_char (st : CSVState) (A : List StoreList) (g : StoreList)
    (B : List StoreList) (listKey s0 n dsc : String) (comp unc : Bool)
    (hd : st.base.draftLists = A ++ g :: B)
    (hsm : (lookupKey st.createdSections listKey).getD [] =
      g.sections.map (fun sc => (strLower sc.name, sc.id)))
    (hlA : g.id ∉ listIds A) (hlB : g.id ∉ listIds B)
    (hsNd : (sectionIds (A ++ g :: B)).Nodup)
    (hsB : ∀ i ∈ sectionIds (A ++ g :: B), i < st.base.nextSectionId)
    (hiB : ∀ i ∈ itemIds (A ++ g :: B), i < st.base.nextItemId) :
    (∃ s1 sc s2 c, g.sections = s1 ++ sc :: s2 ∧
      (∀ x ∈ s1, strLower x.name ≠
        strLower (truncStr (if s0 = "" then defaultSectionNameVal else s0)
          MaxSectionNameLength)) ∧
      strLower sc.name =
        strLower (truncStr (if s0 = "" then defaultSectionNameVal else s0)
          MaxSectionNameLength) ∧
      csvSectionItem allOk defaultSectionNameVal st g.id listKey s0 n dsc comp unc =
        { st with base := { st.base with
            calls := c
            draftLists := A ++ { g with sections := s1 ++
              { sc with items := sc.items ++
                newCsvItems st.base.nextItemId n dsc comp unc } :: s2 } :: B
            nextItemId := st.base.nextItemId + (if n = "" then 0 else 1)
            importedItems := st.base.importedItems + (if n = "" then 0 else 1) } }) ∨
    ((∀ x ∈ g.sections, strLower x.name ≠
        strLower (truncStr (if s0 = "" then defaultSectionNameVal else s0)
          MaxSectionNameLength)) ∧
      ∃ c, csvSectionItem allOk defaultSectionNameVal st g.id listKey s0 n dsc comp unc =
        { st with
            base := { st.base with
              calls := c
              draftLists := A ++ { g with sections := g.sections ++
                [⟨st.base.nextSectionId,
                  truncStr (if s0 = "" then defaultSectionNameVal else s0) MaxSectionNameLength,
                  newCsvItems st.base.nextItemId n dsc comp unc⟩] } :: B
              nextSectionId := st.base.nextSectionId + 1
              nextItemId := st.base.nextItemId + (if n = "" then 0 else 1)
              importedItems := st.base.importedItems + (if n = "" then 0 else 1) }
            createdSections := mapInsert st.createdSections listKey
              (g.sections.map (fun sc => (strLower sc.name, sc.id)) ++
                [(strLower (truncStr (if s0 = "" then defaultSectionNameVal else s0)
                  MaxSectionNameLength), st.base.nextSectionId)]) }) := by
  have hlk : lookupKey ((lookupKey st.createdSections listKey).getD [])
      (strLower (truncStr (if s0 = "" then defaultSectionNameVal else s0)
        MaxSectionNameLength)) =
      (g.sections.find? (fun sc => strLower sc.name ==
        strLower (truncStr (if s0 = "" then defaultSectionNameVal else s0)
          MaxSectionNameLength))).map (fun sc => sc.id) := by
    rw [hsm, lookupKey_keyed_map]
  cases hfind : g.sections.find? (fun sc => strLower sc.name ==
      strLower (truncStr (if s0 = "" then defaultSectionNameVal else s0)
        MaxSectionNameLength)) with
  | some sc =>
      rcases find?_decomp _ _ _ hfind with ⟨s1, s2, hgs, hall⟩
      have hpred := List.find?_some hfind
      have hscn : strLower sc.name =
          strLower (truncStr (if s0 = "" then defaultSectionNameVal else s0)
            MaxSectionNameLength) := by
        simpa using hpred
      rcases fresh_section_facts A g B s1 sc s2 hgs hsNd with ⟨hA2, hB2, h12, h22⟩
      rcases csvItem_full st A g B s1 sc s2 n dsc comp unc hd hgs hA2 hB2 h12 h22 hiB with
        ⟨c, hci⟩
      refine Or.inl ⟨s1, sc, s2, c, hgs, ?_, hscn, ?_⟩
      · intro x hx he
        have h2 := hall x hx
        rw [he] at h2
        simp at h2
      · simp only [csvSectionItem, hlk, hfind, Option.map_some']
        exact hci
  | none =>
      have hall : ∀ x ∈ g.sections, strLower x.name ≠
          strLower (truncStr (if s0 = "" then defaultSectionNameVal else s0)
            MaxSectionNameLength) := by
        intro x hx he
        have h2 := List.find?_eq_none.mp hfind x hx
        rw [he] at h2
        simp at h2
      have hnk : hasKey (g.sections.map (fun sc => (strLower sc.name, sc.id)))
          (strLower (truncStr (if s0 = "" then defaultSectionNameVal else s0)
            MaxSectionNameLength)) = false := by
        refine hasKey_false_of_lookup_none _ _ ?_
        rw [lookupKey_keyed_map, hfind]
        rfl
      have e2 : dbCreateSectionForListTx allOk st.base g.id
          (truncStr (if s0 = "" then defaultSectionNameVal else s0) MaxSectionNameLength) =
          (some st.base.nextSectionId,
            { st.base with
                calls := st.base.calls + 1
                draftLists := A ++ { g with sections := g.sections ++
                  [⟨st.base.nextSectionId,
                    truncStr (if s0 = "" then defaultSectionNameVal else s0)
                      MaxSectionNameLength, []⟩] } :: B
                nextSectionId := st.base.nextSectionId + 1 }) := by
        simp only [dbCreateSectionForListTx, stepCall, allOk]
        rw [hd, updListsAt_mid A g B _ hlA hlB]
      have hd1 : ({ st with
          base := { st.base with
            calls := st.base.calls + 1
            draftLists := A ++ { g with sections := g.sections ++
              [⟨st.base.nextSectionId,
                truncStr (if s0 = "" then defaultSectionNameVal else s0)
                  MaxSectionNameLength, []⟩] } :: B
            nextSectionId := st.base.nextSectionId + 1 }
          createdSections := mapInsert st.createdSections listKey
            (g.sections.map (fun sc => (strLower sc.name, sc.id)) ++
              [(strLower (truncStr (if s0 = "" then defaultSectionNameVal else s0)
                MaxSectionNameLength), st.base.nextSectionId)]) } : CSVState).base.draftLists =
          A ++ { g with sections := g.sections ++
            [⟨st.base.nextSectionId,
              truncStr (if s0 = "" then defaultSectionNameVal else s0)
                MaxSectionNameLength, []⟩] } :: B := rfl
      have hscA1 : (⟨st.base.nextSectionId,
          truncStr (if s0 = "" then defaultSectionNameVal else s0) MaxSectionNameLength,
          []⟩ : StoreSection).id ∉ sectionIds A := by
        intro hm
        have := hsB _ (by
          rw [sectionIds_decomp]
          exact List.mem_append_left _ (List.mem_append_left _ hm))
        simp at this
      have hscB1 : (⟨st.base.nextSectionId,
          truncStr (if s0 = "" then defaultSectionNameVal else s0) MaxSectionNameLength,
          []⟩ : StoreSection).id ∉ sectionIds B := by
        intro hm
        have := hsB _ (by
          rw [sectionIds_decomp]
          exact List.mem_append_right _ hm)
        simp at this
      have hs11 : ∀ s ∈ g.sections, s.id ≠ (⟨st.base.nextSectionId,
          truncStr (if s0 = "" then defaultSectionNameVal else s0) MaxSectionNameLength,
          []⟩ : StoreSection).id := by
        intro s hs he
        have := hsB s.id (by
          rw [sectionIds_decomp]
          exact List.mem_append_left _
            (List.mem_append_right _ (List.mem_map.mpr ⟨s, hs, rfl⟩)))
        rw [he] at this
        simp at this
      have hs21 : ∀ s ∈ ([] : List StoreSection), s.id ≠ (⟨st.base.nextSectionId,
          truncStr (if s0 = "" then defaultSectionNameVal else s0) MaxSectionNameLength,
          []⟩ : StoreSection).id := by
        intro s hs
        cases hs
      have hib1 : ∀ i ∈ itemIds (A ++ { g with sections := g.sections ++
          [⟨st.base.nextSectionId,
            truncStr (if s0 = "" then defaultSectionNameVal else s0)
              MaxSectionNameLength, []⟩] } :: B), i < st.base.nextItemId := by
        have e3 : itemIds (A ++ { g with sections := g.sections ++
            [⟨st.base.nextSectionId,
              truncStr (if s0 = "" then defaultSectionNameVal else s0)
                MaxSectionNameLength, []⟩] } :: B) = itemIds (A ++ g :: B) := by
          simp [itemIds]
        rw [e3]
        exact hiB
      rcases csvItem_full
        { st with
          base := { st.base with
            calls := st.base.calls + 1
            draftLists := A ++ { g with sections := g.sections ++
              [⟨st.base.nextSectionId,
                truncStr (if s0 = "" then defaultSectionNameVal else s0)
                  MaxSectionNameLength, []⟩] } :: B
            nextSectionId := st.base.nextSectionId + 1 }
          createdSections := mapInsert st.createdSections listKey
            (g.sections.map (fun sc => (strLower sc.name, sc.id)) ++
              [(strLower (truncStr (if s0 = "" then defaultSectionNameVal else s0)
                MaxSectionNameLength), st.base.nextSectionId)]) }
        A
        { g with sections := g.sections ++
          [⟨st.base.nextSectionId,
            truncStr (if s0 = "" then defaultSectionNameVal else s0)
              MaxSectionNameLength, []⟩] }
        B g.sections
        (⟨st.base.nextSectionId,
          truncStr (if s0 = "" then defaultSectionNameVal else s0) MaxSectionNameLength,
          []⟩ : StoreSection)
        [] n dsc comp unc hd1 rfl hscA1 hscB1 hs11 hs21 hib1 with ⟨c, hci⟩
      refine Or.inr ⟨hall, c, ?_⟩
      simp only [csvSectionItem, hlk, hfind, Option.map_none']
      rw [e2]
      simp only []
      rw [hsm, mapInsert_of_not_hasKey _ _ _ hnk]
      exact hci

/-! ## CSV import: list creation -/

theorem csvCreateList_char (st : CSVState) (listName listKey listIcon s0 n dsc : String)
    (comp unc : Bool)
    (hlB2 : ∀ i ∈ listIds st.base.draftLists, i < st.base.nextListId)
    (hsNd : (sectionIds st.base.draftLists).Nodup)
    (hsB : ∀ i ∈ sectionIds st.base.draftLists, i < st.base.nextSectionId)
    (hiB : ∀ i ∈ itemIds st.base.draftLists, i < st.base.nextItemId) :
    ∃ c, csvCreateList allOk defaultSectionNameVal st listName listKey listIcon s0 n dsc
        comp unc =
      { st with
          base := { st.base with
            calls := c
            draftLists := st.base.draftLists ++
              [⟨st.base.nextListId, listName, listIcon, false,
                [⟨st.base.nextSectionId,
                  truncStr (if s0 = "" then defaultSectionNameVal else s0) MaxSectionNameLength,
                  newCsvItems st.base.nextItemId n dsc comp unc⟩]⟩]
            nextListId := st.base.nextListId + 1
            nextSectionId := st.base.nextSectionId + 1
            nextItemId := st.base.nextItemId + (if n = "" then 0 else 1)
            importedLists := st.base.importedLists + 1
            importedItems := st.base.importedItems + (if n = "" then 0 else 1) }
          createdLists := mapInsert st.createdLists listKey st.base.nextListId
          createdSections := mapInsert (mapInsert st.createdSections listKey []) listKey
            [(strLower (truncStr (if s0 = "" then defaultSectionNameVal else s0)
              MaxSectionNameLength), st.base.nextSectionId)] } := by
  have e1 : dbCreateListTx allOk st.base listName listIcon =
      (some st.base.nextListId,
        { st.base with
            calls := st.base.calls + 1
            draftLists := st.base.draftLists ++
              [⟨st.base.nextListId, listName, listIcon, false, []⟩]
            nextListId := st.base.nextListId + 1 }) := by
    simp only [dbCreateListTx, stepCall, allOk]
  have hchar := csvSectionItem_char
    { st with
        base := { st.base with
          calls := st.base.calls + 1
          draftLists := st.base.draftLists ++
            [⟨st.base.nextListId, listName, listIcon, false, []⟩]
          nextListId := st.base.nextListId + 1
          importedLists := st.base.importedLists + 1 }
        createdLists := mapInsert st.createdLists listKey st.base.nextListId
        createdSections := mapInsert st.createdSections listKey [] }
    st.base.draftLists
    (⟨st.base.nextListId, listName, listIcon, false, []⟩ : StoreList)
    [] listKey s0 n dsc comp unc rfl
    (by rw [lookupKey_mapInsert_self]; rfl)
    (by
      intro hm
      have := hlB2 _ hm
      simp at this)
    (by intro hm; cases hm)
    (by
      have e3 : sectionIds (st.base.draftLists ++
          [(⟨st.base.nextListId, listName, listIcon, false, []⟩ : StoreList)]) =
          sectionIds st.base.draftLists := by
        simp [sectionIds]
      rw [show st.base.draftLists ++
          (⟨st.base.nextListId, listName, listIcon, false, []⟩ : StoreList) :: [] =
          st.base.draftLists ++
          [(⟨st.base.nextListId, listName, listIcon, false, []⟩ : StoreList)] from rfl, e3]
      exact hsNd)
    (by
      have e3 : sectionIds (st.base.draftLists ++
          [(⟨st.base.nextListId, listName, listIcon, false, []⟩ : StoreList)]) =
          sectionIds st.base.draftLists := by
        simp [sectionIds]
      rw [show st.base.draftLists ++
          (⟨st.base.nextListId, listName, listIcon, false, []⟩ : StoreList) :: [] =
          st.base.draftLists ++
          [(⟨st.base.nextListId, listName, listIcon, false, []⟩ : StoreList)] from rfl, e3]
      exact hsB)
    (by
      have e3 : itemIds (st.base.draftLists ++
          [(⟨st.base.nextListId, listName, listIcon, false, []⟩ : StoreList)]) =
          itemIds st.base.draftLists := by
        simp [itemIds]
      rw [show st.base.draftLists ++
          (⟨st.base.nextListId, listName, listIcon, false, []⟩ : StoreList) :: [] =
          st.base.draftLists ++
          [(⟨st.base.nextListId, listName, listIcon, false, []⟩ : StoreList)] from rfl, e3]
      exact hiB)
  rcases hchar with ⟨s1, sc, s2, c, hgs, h1, h2, hres⟩ | ⟨hall, c, hres⟩
  · exact absurd hgs (by cases s1 <;> simp)
  · refine ⟨c, ?_⟩
    simp only [csvCreateList, e1]
    exact hres

/-! ## Spec-side grouping walk lemmas -/

theorem specAddRowToSections_notFound (d : String) (r : List String) :
    ∀ (ss : List ExportSection),
      (∀ s ∈ ss, strLower s.name ≠ strLower (rowSectionName d r)) →
      specAddRowToSections d r ss = ss ++ [⟨rowSectionName d r, specRowItems r⟩] := by
  intro ss
  induction ss with
  | nil => intro h; rfl
  | cons s t ih =>
      intro h
      simp only [specAddRowToSections]
      rw [if_neg (h s (List.mem_cons_self s t)),
        ih (fun x hx => h x (List.mem_cons_of_mem _ hx))]
      rfl

theorem specAddRowToSections_found (d : String) (r : List String) :
    ∀ (s1 : List ExportSection) (sc : ExportSection) (s2 : List ExportSection),
      (∀ s ∈ s1, strLower s.name ≠ strLower (rowSectionName d r)) →
      strLower sc.name = strLower (rowSectionName d r) →
      specAddRowToSections d r (s1 ++ sc :: s2) =
        s1 ++ { sc with items := sc.items ++ specRowItems r } :: s2 := by
  intro s1
  induction s1 with
  | nil =>
      intro sc s2 h1 h2
      simp only [List.nil_append, specAddRowToSections]
      rw [if_pos h2]
  | cons s t ih =>
      intro sc s2 h1 h2
      simp only [List.cons_append, specAddRowToSections, List.append_eq]
      rw [if_neg (h1 s (List.mem_cons_self s t)),
        ih sc s2 (fun x hx => h1 x (List.mem_cons_of_mem _ hx)) h2]

theorem specAddRow_notFound (d : String) (r : List String) :
    ∀ (G : List ExportList),
      (∀ x ∈ G, strLower x.name ≠ rowKey r) →
      specAddRow d r G =
        G ++ [⟨rowListName r, rowIcon r, false, specAddRowToSections d r []⟩] := by
  intro G
  induction G with
  | nil => intro h; rfl
  | cons x t ih =>
      intro h
      simp only [specAddRow]
      rw [if_neg (h x (List.mem_cons_self x t)),
        ih (fun y hy => h y (List.mem_cons_of_mem _ hy))]
      rfl

theorem specAddRow_found (d : String) (r : List String) :
    ∀ (G1 : List ExportList) (g : ExportList) (G2 : List ExportList),
      (∀ x ∈ G1, strLower x.name ≠ rowKey r) →
      strLower g.name = rowKey r →
      specAddRow d r (G1 ++ g :: G2) =
        G1 ++ { g with sections := specAddRowToSections d r g.sections } :: G2 := by
  intro G1
  induction G1 with
  | nil =>
      intro g G2 h1 h2
      simp only [List.nil_append, specAddRow]
      rw [if_pos h2]
  | cons x t ih =>
      intro g G2 h1 h2
      simp only [List.cons_append, specAddRow, List.append_eq]
      rw [if_neg (h1 x (List.mem_cons_self x t)),
        ih g G2 (fun y hy => h1 y (List.mem_cons_of_mem _ hy)) h2]

theorem newCsvItems_shape (nid : Nat) (r : List String) :
    (newCsvItems nid (rowItemName r) (rowItemDesc r) (rowCompleted r)
      (rowUncertain r)).map shapeItem = specRowItems r := by
  unfold newCsvItems specRowItems
  by_cases h : rowItemName r = ""
  · rw [if_pos h, if_neg (by simp [h])]
    rfl
  · rw [if_neg h, if_pos h]
    rfl

theorem keyed_upd (c1 c2 : List StoreList) (g : StoreList) (ss : List StoreSection) :
    (c1 ++ { g with sections := ss } :: c2).map (fun x => (strLower x.name, x.id)) =
      (c1 ++ g :: c2).map (fun x => (strLower x.name, x.id)) := by
  simp

theorem names_upd (c1 c2 : List StoreList) (g : StoreList) (ss : List StoreSection) :
    (c1 ++ { g with sections := ss } :: c2).map (fun x => strLower x.name) =
      (c1 ++ g :: c2).map (fun x => strLower x.name) := by
  simp

/-! ## CSV import: row step, list already created -/

theorem csvRow_found_char (store : Store) (ex0 : KMap Int) (st : CSVState)
    (created : List StoreList) (SK : List String) (r : List String) (g : StoreList)
    (hinv : CsvInv store ex0 st created SK)
    (hfind : created.find? (fun x => strLower x.name == rowKey r) = some g) :
    ∃ created2,
      CsvInv store ex0
        (csvSectionItem allOk defaultSectionNameVal st g.id (rowKey r)
          (if r.length > 2 then strTrim (col r 2) else "")
          (rowItemName r) (rowItemDesc r) (rowCompleted r) (rowUncertain r))
        created2 SK ∧
      created2.map shapeList = specAddRow defaultSectionNameVal r (created.map shapeList) := by
  obtain ⟨hdr, hex, hcl, hcs, hskn, hskc, hfk, hknd, hsknd, hskcc, hlnd, hlb, hsnd, hsb, hib⟩ :=
    hinv
  rcases find?_decomp _ _ _ hfind with ⟨c1, c2, hce, hallc1⟩
  have hgk : strLower g.name = rowKey r := by simpa using List.find?_some hfind
  have e : (store.lists ++ c1) ++ g :: c2 = store.lists ++ created := by
    rw [hce]
    simp
  have hdr2 : st.base.draftLists = (store.lists ++ c1) ++ g :: c2 := by
    rw [hdr, hce]
    simp
  have hsm : (lookupKey st.createdSections (rowKey r)).getD [] =
      g.sections.map (fun sc => (strLower sc.name, sc.id)) := by
    rw [hcs (rowKey r), hfind]
    rfl
  have hlf := fresh_list_facts (store.lists ++ c1) g c2 (by rw [e]; exact hlnd)
  have hsnd2 : (sectionIds ((store.lists ++ c1) ++ g :: c2)).Nodup := by
    rw [e]
    exact hsnd
  have hsb2 : ∀ i ∈ sectionIds ((store.lists ++ c1) ++ g :: c2), i < st.base.nextSectionId := by
    rw [e]
    exact hsb
  have hib2 : ∀ i ∈ itemIds ((store.lists ++ c1) ++ g :: c2), i < st.base.nextItemId := by
    rw [e]
    exact hib
  have hpred1 : ∀ x ∈ c1.map shapeList, strLower x.name ≠ rowKey r := by
    intro x hx he
    rcases List.mem_map.mp hx with ⟨y, hy, hxy⟩
    subst hxy
    have he2 : strLower y.name = rowKey r := he
    have h3 := hallc1 y hy
    rw [he2] at h3
    simp at h3
  have hpredg : strLower (shapeList g).name = rowKey r := hgk
  set nits := newCsvItems st.base.nextItemId (rowItemName r) (rowItemDesc r) (rowCompleted r)
    (rowUncertain r) with hnits
  have hnitsmem : ∀ i ∈ nits.map (fun x => x.id), i = st.base.nextItemId ∧
      rowItemName r ≠ "" := by
    intro i hi
    rw [hnits] at hi
    by_cases hn : rowItemName r = ""
    · simp [newCsvItems, hn] at hi
    · simp only [newCsvItems, if_neg hn, List.map_cons, List.map_nil,
        List.mem_singleton] at hi
      exact ⟨hi, hn⟩
  rcases csvSectionItem_char st (store.lists ++ c1) g c2 (rowKey r)
      (if r.length > 2 then strTrim (col r 2) else "")
      (rowItemName r) (rowItemDesc r) (rowCompleted r) (rowUncertain r)
      hdr2 hsm hlf.1 hlf.2 hsnd2 hsb2 hib2 with
    ⟨s1, sc, s2, c, hgs, hs1ne, hscn, hres⟩ | ⟨hallsec, c, hres⟩
  · -- the row's section already exists inside g
    refine ⟨c1 ++ { g with sections := s1 ++ { sc with items := sc.items ++ nits } :: s2 } ::
      c2, ?_, ?_⟩
    · rw [hres]
      have hpg : (strLower ({ g with
          sections := s1 ++ { sc with items := sc.items ++ nits } :: s2 } : StoreList).name ==
          rowKey r) = true := by
        simp [hgk]
      have e7 : listIds (store.lists ++
          (c1 ++ { g with sections := s1 ++ { sc with items := sc.items ++ nits } :: s2 } ::
            c2)) = listIds (store.lists ++ created) := by
        rw [hce]
        simp [listIds]
      have e8 : sectionIds (store.lists ++
          (c1 ++ { g with sections := s1 ++ { sc with items := sc.items ++ nits } :: s2 } ::
            c2)) = sectionIds (store.lists ++ created) := by
        rw [hce]
        simp [sectionIds, hgs]
      have e6 : store.lists ++
          (c1 ++ { g with sections := s1 ++ { sc with items := sc.items ++ nits } :: s2 } ::
            c2) =
          (store.lists ++ c1) ++
            { g with sections := s1 ++ { sc with items := sc.items ++ nits } :: s2 } :: c2 := by
        simp
      refine ⟨?_, hex, ?_, ?_, hskn, hskc, ?_, ?_, hsknd, hskcc, ?_, ?_, ?_, ?_, ?_⟩
      · simp
      · rw [keyed_upd c1 c2 g _, ← hce]
        exact hcl
      · intro k
        by_cases hk : k = rowKey r
        · subst hk
          rw [find?_prefix_none _ c1 _ c2 hallc1, if_pos hpg, Option.map_some']
          have hcs2 := hcs (rowKey r)
          rw [hfind] at hcs2
          simp only [Option.map_some'] at hcs2
          have hval : ({ g with
              sections := s1 ++ { sc with items := sc.items ++ nits } :: s2 } :
                StoreList).sections.map (fun sc => (strLower sc.name, sc.id)) =
              g.sections.map (fun sc => (strLower sc.name, sc.id)) := by
            rw [hgs]
            simp
          rw [hval]
          exact hcs2
        · have hfg : (strLower g.name == k) = false := by
            rw [hgk]
            exact beq_eq_false_iff_ne.mpr (Ne.symm hk)
          have hfind2 : (c1 ++
              { g with sections := s1 ++ { sc with items := sc.items ++ nits } :: s2 } ::
                c2).find? (fun x => strLower x.name == k) =
              created.find? (fun x => strLower x.name == k) := by
            rw [hce, List.find?_append, List.find?_append]
            congr 1
            rw [List.find?_cons_of_neg _ (by simp [hfg]),
              List.find?_cons_of_neg _ (by simp [hfg])]
          rw [hfind2]
          exact hcs k
      · intro x hx
        rcases List.mem_append.mp hx with h1 | h1
        · exact hfk x (by rw [hce]; exact List.mem_append_left _ h1)
        · rcases List.mem_cons.mp h1 with h2 | h2
          · subst h2
            exact hfk g (by rw [hce]; exact List.mem_append_right _ (List.mem_cons_self _ _))
          · exact hfk x (by rw [hce]; exact List.mem_append_right _ (List.mem_cons_of_mem _ h2))
      · rw [names_upd c1 c2 g _, ← hce]
        exact hknd
      · rw [e7]
        exact hlnd
      · intro i hi
        rw [e7] at hi
        exact hlb i hi
      · rw [e8]
        exact hsnd
      · intro i hi
        rw [e8] at hi
        exact hsb i hi
      · intro i hi
        show i < st.base.nextItemId + (if rowItemName r = "" then 0 else 1)
        rw [e6] at hi
        rcases itemIds_mid_insert_mem (store.lists ++ c1) g c2 s1 sc s2 nits hgs i hi with
          h | h
        · have h2 : i ∈ itemIds (store.lists ++ created) := by
            rw [← e]
            exact h
          exact lt_of_lt_of_le (hib i h2) (Nat.le_add_right _ _)
        · rcases hnitsmem i h with ⟨h2, hn⟩
          rw [h2, if_neg hn]
          omega
    · -- spec side: row lands in the existing section
      have hpsec1 : ∀ x ∈ s1.map shapeSection, strLower x.name ≠
          strLower (rowSectionName defaultSectionNameVal r) := by
        intro x hx he
        rcases List.mem_map.mp hx with ⟨y, hy, hxy⟩
        subst hxy
        exact hs1ne y hy he
      have hpsecg : strLower (shapeSection sc).name =
          strLower (rowSectionName defaultSectionNameVal r) := hscn
      have hsecs : specAddRowToSections defaultSectionNameVal r (shapeList g).sections =
          s1.map shapeSection ++
            { shapeSection sc with items := (shapeSection sc).items ++ specRowItems r } ::
              s2.map shapeSection := by
        show specAddRowToSections defaultSectionNameVal r (g.sections.map shapeSection) = _
        rw [hgs, List.map_append, List.map_cons]
        exact specAddRowToSections_found defaultSectionNameVal r _ _ _ hpsec1 hpsecg
      have hss : shapeSection { sc with items := sc.items ++ nits } =
          { shapeSection sc with items := (shapeSection sc).items ++ specRowItems r } := by
        show (⟨sc.name, (sc.items ++ nits).map shapeItem⟩ : ExportSection) = _
        rw [List.map_append, hnits, newCsvItems_shape]
        rfl
      have hhead : shapeList { g with
          sections := s1 ++ { sc with items := sc.items ++ nits } :: s2 } =
          { shapeList g with
            sections :=
              specAddRowToSections defaultSectionNameVal r (shapeList g).sections } := by
        show (⟨g.name, g.icon, g.isActive,
          (s1 ++ { sc with items := sc.items ++ nits } :: s2).map shapeSection⟩ :
            ExportList) = _
        rw [hsecs, List.map_append, List.map_cons, hss]
        rfl
      rw [hce]
      simp only [List.map_append, List.map_cons]
      rw [specAddRow_found defaultSectionNameVal r (c1.map shapeList) (shapeList g)
        (c2.map shapeList) hpred1 hpredg, hhead]
  · -- the row creates a fresh section inside g
    set snt := truncStr
      (if (if r.length > 2 then strTrim (col r 2) else "") = "" then defaultSectionNameVal
        else (if r.length > 2 then strTrim (col r 2) else "")) MaxSectionNameLength with hsnt
    refine ⟨c1 ++ { g with sections := g.sections ++
      [⟨st.base.nextSectionId, snt, nits⟩] } :: c2, ?_, ?_⟩
    · rw [hres]
      have hpg : (strLower ({ g with sections := g.sections ++
          [⟨st.base.nextSectionId, snt, nits⟩] } : StoreList).name == rowKey r) = true := by
        simp [hgk]
      have e7 : listIds (store.lists ++ (c1 ++ { g with sections := g.sections ++
          [⟨st.base.nextSectionId, snt, nits⟩] } :: c2)) =
          listIds (store.lists ++ created) := by
        rw [hce]
        simp [listIds]
      have e6 : store.lists ++ (c1 ++ { g with sections := g.sections ++
          [⟨st.base.nextSectionId, snt, nits⟩] } :: c2) =
          (store.lists ++ c1) ++ { g with sections := g.sections ++
            [⟨st.base.nextSectionId, snt, nits⟩] } :: c2 := by
        simp
      refine ⟨?_, hex, ?_, ?_, hskn, hskc, ?_, ?_, hsknd, hskcc, ?_, ?_, ?_, ?_, ?_⟩
      · simp
      · rw [keyed_upd c1 c2 g _, ← hce]
        exact hcl
      · intro k
        by_cases hk : k = rowKey r
        · subst hk
          rw [find?_prefix_none _ c1 _ c2 hallc1, if_pos hpg, Option.map_some']
          rw [lookupKey_mapInsert_self]
          congr 1
          simp
        · have hfg : (strLower g.name == k) = false := by
            rw [hgk]
            exact beq_eq_false_iff_ne.mpr (Ne.symm hk)
          have hfind2 : (c1 ++ { g with sections := g.sections ++
              [⟨st.base.nextSectionId, snt, nits⟩] } :: c2).find?
                (fun x => strLower x.name == k) =
              created.find? (fun x => strLower x.name == k) := by
            rw [hce, List.find?_append, List.find?_append]
            congr 1
            rw [List.find?_cons_of_neg _ (by simp [hfg]),
              List.find?_cons_of_neg _ (by simp [hfg])]
          rw [hfind2, lookupKey_mapInsert_ne _ _ _ _ hk]
          exact hcs k
      · intro x hx
        rcases List.mem_append.mp hx with h1 | h1
        · exact hfk x (by rw [hce]; exact List.mem_append_left _ h1)
        · rcases List.mem_cons.mp h1 with h2 | h2
          · subst h2
            exact hfk g (by rw [hce]; exact List.mem_append_right _ (List.mem_cons_self _ _))
          · exact hfk x (by rw [hce]; exact List.mem_append_right _ (List.mem_cons_of_mem _ h2))
      · rw [names_upd c1 c2 g _, ← hce]
        exact hknd
      · rw [e7]
        exact hlnd
      · intro i hi
        rw [e7] at hi
        exact hlb i hi
      · rw [e6, sectionIds_new_section]
        refine nodup_insert_mid ?_ ?_
        · rw [← sectionIds_decomp]
          exact hsnd2
        · intro hm
          have h2 : st.base.nextSectionId ∈ sectionIds ((store.lists ++ c1) ++ g :: c2) := by
            rw [sectionIds_decomp]
            exact hm
          have := hsb2 _ h2
          omega
      · intro i hi
        show i < st.base.nextSectionId + 1
        rw [e6, sectionIds_new_section] at hi
        have h2 : i ∈ sectionIds ((store.lists ++ c1) ++ g :: c2) ∨
            i = st.base.nextSectionId := by
          rw [sectionIds_decomp]
          simp only [List.mem_append, List.mem_singleton] at hi ⊢
          tauto
        rcases h2 with h2 | h2
        · have := hsb2 _ h2
          omega
        · omega
      · intro i hi
        show i < st.base.nextItemId + (if rowItemName r = "" then 0 else 1)
        rw [e6] at hi
        rcases itemIds_new_section_mem (store.lists ++ c1) g c2 _ i hi with h | h
        · have h2 : i ∈ itemIds (store.lists ++ created) := by
            rw [← e]
            exact h
          exact lt_of_lt_of_le (hib i h2) (Nat.le_add_right _ _)
        · rcases hnitsmem i h with ⟨h2, hn⟩
          rw [h2, if_neg hn]
          omega
    · -- spec side: row creates a fresh section at the end of g
      have hallsec2 : ∀ x ∈ (shapeList g).sections, strLower x.name ≠
          strLower (rowSectionName defaultSectionNameVal r) := by
        intro x hx he
        rcases List.mem_map.mp hx with ⟨y, hy, hxy⟩
        subst hxy
        exact hallsec y hy he
      have hsecs : specAddRowToSections defaultSectionNameVal r (shapeList g).sections =
          (shapeList g).sections ++
            [⟨rowSectionName defaultSectionNameVal r, specRowItems r⟩] :=
        specAddRowToSections_notFound defaultSectionNameVal r _ hallsec2
      have hhead : shapeList { g with sections := g.sections ++
          [⟨st.base.nextSectionId, snt, nits⟩] } =
          { shapeList g with
            sections :=
              specAddRowToSections defaultSectionNameVal r (shapeList g).sections } := by
        show (⟨g.name, g.icon, g.isActive,
          (g.sections ++ [(⟨st.base.nextSectionId, snt, nits⟩ : StoreSection)]).map
            shapeSection⟩ : ExportList) = _
        rw [hsecs, List.map_append]
        show (⟨g.name, g.icon, g.isActive, g.sections.map shapeSection ++
          [(⟨snt, nits.map shapeItem⟩ : ExportSection)]⟩ : ExportList) = _
        rw [hnits, newCsvItems_shape]
        rfl
      rw [hce]
      simp only [List.map_append, List.map_cons]
      rw [specAddRow_found defaultSectionNameVal r (c1.map shapeList) (shapeList g)
        (c2.map shapeList) hpred1 hpredg, hhead]

/-! ## CSV import: row step, fresh list -/

theorem csvRow_new_char (store : Store) (ex0 : KMap Int) (st : CSVState)
    (created : List StoreList) (SK : List String) (r : List String)
    (hinv : CsvInv store ex0 st created SK)
    (hc : hasKey ex0 (rowKey r) = false)
    (hnone : created.find? (fun x => strLower x.name == rowKey r) = none) :
    ∃ created2,
      CsvInv store ex0
        (csvCreateList allOk defaultSectionNameVal st (rowListName r) (rowKey r) (rowIcon r)
          (if r.length > 2 then strTrim (col r 2) else "")
          (rowItemName r) (rowItemDesc r) (rowCompleted r) (rowUncertain r))
        created2 SK ∧
      created2.map shapeList = specAddRow defaultSectionNameVal r (created.map shapeList) := by
  obtain ⟨hdr, hex, hcl, hcs, hskn, hskc, hfk, hknd, hsknd, hskcc, hlnd, hlb, hsnd, hsb, hib⟩ :=
    hinv
  have hallk : ∀ x ∈ created, (strLower x.name == rowKey r) = false := by
    intro x hx
    have := List.find?_eq_none.mp hnone x hx
    simpa using this
  set nits := newCsvItems st.base.nextItemId (rowItemName r) (rowItemDesc r) (rowCompleted r)
    (rowUncertain r) with hnits
  have hnitsmem : ∀ i ∈ nits.map (fun x => x.id), i = st.base.nextItemId ∧
      rowItemName r ≠ "" := by
    intro i hi
    rw [hnits] at hi
    by_cases hn : rowItemName r = ""
    · simp [newCsvItems, hn] at hi
    · simp only [newCsvItems, if_neg hn, List.map_cons, List.map_nil,
        List.mem_singleton] at hi
      exact ⟨hi, hn⟩
  set snt := truncStr
    (if (if r.length > 2 then strTrim (col r 2) else "") = "" then defaultSectionNameVal
      else (if r.length > 2 then strTrim (col r 2) else "")) MaxSectionNameLength with hsnt
  rcases csvCreateList_char st (rowListName r) (rowKey r) (rowIcon r)
      (if r.length > 2 then strTrim (col r 2) else "")
      (rowItemName r) (rowItemDesc r) (rowCompleted r) (rowUncertain r)
      (by rw [hdr]; exact hlb) (by rw [hdr]; exact hsnd) (by rw [hdr]; exact hsb)
      (by rw [hdr]; exact hib) with ⟨c, hres⟩
  refine ⟨created ++ [⟨st.base.nextListId, rowListName r, rowIcon r, false,
    [(⟨st.base.nextSectionId, snt, nits⟩ : StoreSection)]⟩], ?_, ?_⟩
  · rw [hres]
    have hnkey : hasKey st.createdLists (rowKey r) = false := by
      rw [hcl]
      refine hasKey_false_of_lookup_none _ _ ?_
      rw [lookupKey_keyed_map, hnone]
      rfl
    have el : listIds (store.lists ++ (created ++ [(⟨st.base.nextListId, rowListName r,
        rowIcon r, false, [(⟨st.base.nextSectionId, snt, nits⟩ : StoreSection)]⟩ :
          StoreList)])) = listIds (store.lists ++ created) ++ [st.base.nextListId] := by
      simp [listIds]
    have es : sectionIds (store.lists ++ (created ++ [(⟨st.base.nextListId, rowListName r,
        rowIcon r, false, [(⟨st.base.nextSectionId, snt, nits⟩ : StoreSection)]⟩ :
          StoreList)])) = sectionIds (store.lists ++ created) ++ [st.base.nextSectionId] := by
      simp [sectionIds]
    have ei : itemIds (store.lists ++ (created ++ [(⟨st.base.nextListId, rowListName r,
        rowIcon r, false, [(⟨st.base.nextSectionId, snt, nits⟩ : StoreSection)]⟩ :
          StoreList)])) = itemIds (store.lists ++ created) ++ nits.map (fun x => x.id) := by
      simp [itemIds]
    refine ⟨?_, hex, ?_, ?_, hskn, hskc, ?_, ?_, hsknd, hskcc, ?_, ?_, ?_, ?_, ?_⟩
    · show st.base.draftLists ++ _ = _
      rw [hdr]
      exact List.append_assoc _ _ _
    · show mapInsert st.createdLists (rowKey r) st.base.nextListId = _
      rw [mapInsert_of_not_hasKey _ _ _ hnkey, hcl, List.map_append]
      rfl
    · intro k
      by_cases hk : k = rowKey r
      · subst hk
        show lookupKey (mapInsert (mapInsert st.createdSections (rowKey r) []) (rowKey r)
          [(strLower snt, st.base.nextSectionId)]) (rowKey r) = _
        rw [lookupKey_mapInsert_self, List.find?_append, hnone]
        rw [List.find?_cons_of_pos _ (by simp [rowKey])]
        rfl
      · show lookupKey (mapInsert (mapInsert st.createdSections (rowKey r) []) (rowKey r)
          [(strLower snt, st.base.nextSectionId)]) k = _
        rw [lookupKey_mapInsert_ne _ _ _ _ hk, lookupKey_mapInsert_ne _ _ _ _ hk,
          List.find?_append]
        rw [List.find?_cons_of_neg _
          (by simp only [rowKey] at hk; simp [beq_eq_false_iff_ne.mpr (Ne.symm hk)])]
        have ho : (created.find? (fun x => strLower x.name == k)).or
            (List.find? (fun x => strLower x.name == k) ([] : List StoreList)) =
            created.find? (fun x => strLower x.name == k) := by
          cases created.find? (fun x => strLower x.name == k) <;> rfl
        rw [ho]
        exact hcs k
    · intro x hx
      rcases List.mem_append.mp hx with h1 | h1
      · exact hfk x h1
      · rcases List.mem_cons.mp h1 with h2 | h2
        · subst h2
          exact hc
        · cases h2
    · rw [List.map_append]
      refine nodup_snoc hknd ?_
      intro hm
      rcases List.mem_map.mp hm with ⟨y, hy, hxy⟩
      have h2 : strLower y.name = rowKey r := hxy
      have h3 := hallk y hy
      rw [h2] at h3
      simp at h3
    · rw [el]
      refine nodup_snoc hlnd ?_
      intro hm
      have := hlb _ hm
      omega
    · intro i hi
      show i < st.base.nextListId + 1
      rw [el] at hi
      rcases List.mem_append.mp hi with h1 | h1
      · have := hlb _ h1
        omega
      · have h2 : i = st.base.nextListId := by simpa using h1
        omega
    · rw [es]
      refine nodup_snoc hsnd ?_
      intro hm
      have := hsb _ hm
      omega
    · intro i hi
      show i < st.base.nextSectionId + 1
      rw [es] at hi
      rcases List.mem_append.mp hi with h1 | h1
      · have := hsb _ h1
        omega
      · have h2 : i = st.base.nextSectionId := by simpa using h1
        omega
    · intro i hi
      show i < st.base.nextItemId + (if rowItemName r = "" then 0 else 1)
      rw [ei] at hi
      rcases List.mem_append.mp hi with h1 | h1
      · exact lt_of_lt_of_le (hib i h1) (Nat.le_add_right _ _)
      · rcases hnitsmem i h1 with ⟨h2, hn⟩
        rw [h2, if_neg hn]
        omega
  · have hpredAll : ∀ x ∈ created.map shapeList, strLower x.name ≠ rowKey r := by
      intro x hx he
      rcases List.mem_map.mp hx with ⟨y, hy, hxy⟩
      subst hxy
      have he2 : strLower y.name = rowKey r := he
      have h3 := hallk y hy
      rw [he2] at h3
      simp at h3
    rw [specAddRow_notFound defaultSectionNameVal r _ hpredAll, List.map_append]
    have hgshape : shapeList (⟨st.base.nextListId, rowListName r, rowIcon r, false,
        [(⟨st.base.nextSectionId, snt, nits⟩ : StoreSection)]⟩ : StoreList) =
        (⟨rowListName r, rowIcon r, false,
          specAddRowToSections defaultSectionNameVal r []⟩ : ExportList) := by
      show (⟨rowListName r, rowIcon r, false,
        [(⟨snt, nits.map shapeItem⟩ : ExportSection)]⟩ : ExportList) = _
      rw [hnits, newCsvItems_shape]
      rfl
    simp only [List.map_cons, List.map_nil]
    rw [hgshape]

/-! ## CSV import: row step, conflicting list in skip mode -/

theorem csvRow_conflict_char (store : Store) (ex0 : KMap Int) (st : CSVState)
    (created : List StoreList) (SK : List String) (r : List String)
    (hinv : CsvInv store ex0 st created SK)
    (hc : hasKey ex0 (rowKey r) = true)
    (hnm : rowKey r ∉ SK) :
    CsvInv store ex0
      { st with
          base := { st.base with skippedLists := st.base.skippedLists + 1 }
          skippedNames := mapInsert st.skippedNames (rowKey r) true }
      created (SK ++ [rowKey r]) := by
  obtain ⟨hdr, hex, hcl, hcs, hskn, hskc, hfk, hknd, hsknd, hskcc, hlnd, hlb, hsnd, hsb, hib⟩ :=
    hinv
  have hnk : hasKey st.skippedNames (rowKey r) = false := by
    rw [hskn, hasKey_keys_map]
    exact (contains_false_iff _ _).mpr hnm
  refine ⟨hdr, hex, hcl, hcs, ?_, ?_, hfk, hknd, ?_, ?_, hlnd, hlb, hsnd, hsb, hib⟩
  · show mapInsert st.skippedNames (rowKey r) true = _
    rw [mapInsert_of_not_hasKey _ _ _ hnk, hskn, List.map_append]
    rfl
  · show st.base.skippedLists + 1 = _
    rw [hskc, List.length_append]
    rfl
  · exact nodup_snoc hsknd hnm
  · intro k hk
    rcases List.mem_append.mp hk with h1 | h1
    · exact hskcc k h1
    · have h2 : k = rowKey r := by simpa using h1
      subst h2
      refine ⟨hc, ?_⟩
      show strLen (strLower (rowListName r)) ≤ MaxListNameLength
      rw [strLen_strLower]
      exact strLen_truncStr_le _ _

/-! ## CSV import: the full row step -/

theorem csvRowStep_char (store : Store) (ex0 : KMap Int) (mode suffix : String)
    (st : CSVState) (created : List StoreList) (SK : List String) (r : List String)
    (hinv : CsvInv store ex0 st created SK)
    (hrow : validCsvRow r = true → hasKey ex0 (rowKey r) = true →
      mode = "skip" ∧ strLen (strTrim (col r 0)) ≤ MaxListNameLength) :
    ∃ created2 SK2,
      CsvInv store ex0 (csvRowStep allOk mode suffix defaultSectionNameVal st r) created2 SK2 ∧
      created2.map shapeList =
        (if validCsvRow r && !hasKey ex0 (rowKey r) then
          specAddRow defaultSectionNameVal r (created.map shapeList)
        else created.map shapeList) ∧
      SK2 = (if validCsvRow r && hasKey ex0 (rowKey r) && !(SK.contains (rowKey r)) then
        SK ++ [rowKey r] else SK) := by
  by_cases h4 : r.length < 4
  · have hv : validCsvRow r = false := by
      unfold validCsvRow
      rw [decide_eq_false (by omega : ¬(4 ≤ r.length))]
      simp
    refine ⟨created, SK, ?_, ?_, ?_⟩
    · have hstep : csvRowStep allOk mode suffix defaultSectionNameVal st r = st := by
        simp only [csvRowStep]
        rw [if_pos h4]
      rw [hstep]
      exact hinv
    · rw [hv]
      simp
    · rw [hv]
      simp
  · by_cases hemp : strTrim (col r 0) = ""
    · have hv : validCsvRow r = false := by
        simp [validCsvRow, hemp]
      refine ⟨created, SK, ?_, ?_, ?_⟩
      · have hstep : csvRowStep allOk mode suffix defaultSectionNameVal st r = st := by
          simp only [csvRowStep]
          rw [if_neg h4, if_pos hemp]
        rw [hstep]
        exact hinv
      · rw [hv]
        simp
      · rw [hv]
        simp
    · by_cases hhist : strTrim (col r 0) = "[HISTORY]"
      · have hv : validCsvRow r = false := by
          simp [validCsvRow, hhist]
        rcases csvHistoryRow_frame allOk st.base r with ⟨dh, ih2, cc, hfr⟩
        refine ⟨created, SK, ?_, ?_, ?_⟩
        · have hstep : csvRowStep allOk mode suffix defaultSectionNameVal st r =
              { st with base := csvHistoryRow allOk st.base r } := by
            simp only [csvRowStep]
            rw [if_neg h4, if_neg hemp, if_pos hhist]
          rw [hstep, hfr]
          obtain ⟨hdr, hex, hcl, hcs, hskn, hskc, hfk, hknd, hsknd, hskcc, hlnd, hlb,
            hsnd, hsb, hib⟩ := hinv
          exact ⟨hdr, hex, hcl, hcs, hskn, hskc, hfk, hknd, hsknd, hskcc, hlnd, hlb,
            hsnd, hsb, hib⟩
        · rw [hv]
          simp
        · rw [hv]
          simp
      · have hv : validCsvRow r = true := by
          unfold validCsvRow
          rw [decide_eq_true (by omega : 4 ≤ r.length)]
          simp [hemp, hhist]
        have hskval : hasKey st.skippedNames (strLower (strTrim (col r 0))) =
            SK.contains (strLower (strTrim (col r 0))) := by
          rw [hinv.sknames, hasKey_keys_map]
        by_cases hc : hasKey ex0 (rowKey r) = true
        · obtain ⟨hmode, hlen0⟩ := hrow hv hc
          have hkey0 : strLower (strTrim (col r 0)) = rowKey r := by
            show _ = strLower (truncStr (strTrim (col r 0)) MaxListNameLength)
            rw [truncStr_of_le _ _ hlen0]
          by_cases hcont : SK.contains (rowKey r) = true
          · have hstep : csvRowStep allOk mode suffix defaultSectionNameVal st r = st := by
              simp only [csvRowStep]
              rw [if_neg h4, if_neg hemp, if_neg hhist,
                if_pos (by rw [hskval, hkey0]; exact hcont)]
            refine ⟨created, SK, ?_, ?_, ?_⟩
            · rw [hstep]
              exact hinv
            · rw [hv, hc]
              simp
            · rw [hv, hc, hcont]
              simp
          · have hcontf : SK.contains (rowKey r) = false := by
              cases hh : SK.contains (rowKey r) with
              | false => rfl
              | true => exact absurd hh hcont
            have hnm : rowKey r ∉ SK := (contains_false_iff SK (rowKey r)).mp hcontf
            have hfnone : created.find? (fun x => strLower x.name == rowKey r) = none := by
              refine List.find?_eq_none.mpr ?_
              intro x hx hpx
              have h2 : strLower x.name = rowKey r := by simpa using hpx
              have h3 := hinv.frKeys x hx
              rw [h2] at h3
              rw [h3] at hc
              simp at hc
            have hlkc : lookupKey st.createdLists (rowKey r) = none := by
              rw [hinv.clists, lookupKey_keyed_map, hfnone]
              rfl
            rcases lookupKey_of_hasKey ex0 (rowKey r) hc with ⟨eid, heid⟩
            have hstep : csvRowStep allOk mode suffix defaultSectionNameVal st r =
                { st with
                    base := { st.base with skippedLists := st.base.skippedLists + 1 }
                    skippedNames := mapInsert st.skippedNames (rowKey r) true } := by
              simp only [csvRowStep]
              rw [if_neg h4, if_neg hemp, if_neg hhist,
                if_neg (by rw [hskval, hkey0, hcontf]; exact Bool.false_ne_true)]
              rw [show strLower (if strLen (strTrim (col r 0)) > MaxListNameLength then
                strTake (strTrim (col r 0)) MaxListNameLength else strTrim (col r 0)) =
                rowKey r from rfl]
              simp only [hlkc]
              simp only [show lookupKey st.base.existing (rowKey r) = some eid from by
                rw [hinv.exist0]; exact heid]
              rw [if_pos hmode]
            refine ⟨created, SK ++ [rowKey r], ?_, ?_, ?_⟩
            · rw [hstep]
              exact csvRow_conflict_char store ex0 st created SK r hinv hc hnm
            · rw [hv, hc]
              simp
            · rw [hv, hc, hcontf]
              simp
        · have hcf : hasKey ex0 (rowKey r) = false := by
            cases hh : hasKey ex0 (rowKey r) with
            | false => rfl
            | true => exact absurd hh hc
          have hskf : hasKey st.skippedNames (strLower (strTrim (col r 0))) = false := by
            rw [hskval]
            refine (contains_false_iff _ _).mpr ?_
            intro hm
            by_cases hl : strLen (strTrim (col r 0)) ≤ MaxListNameLength
            · have hkey0 : strLower (strTrim (col r 0)) = rowKey r := by
                show _ = strLower (truncStr (strTrim (col r 0)) MaxListNameLength)
                rw [truncStr_of_le _ _ hl]
              rw [hkey0] at hm
              have h2 := (hinv.skC _ hm).1
              rw [h2] at hcf
              simp at hcf
            · have h2 := (hinv.skC _ hm).2
              have h3 : strLen (strLower (strTrim (col r 0))) > MaxListNameLength := by
                rw [strLen_strLower]
                omega
              omega
          cases hfnd : created.find? (fun x => strLower x.name == rowKey r) with
          | some g =>
              have hlkc : lookupKey st.createdLists (rowKey r) = some g.id := by
                rw [hinv.clists, lookupKey_keyed_map, hfnd]
                rfl
              have hstep : csvRowStep allOk mode suffix defaultSectionNameVal st r =
                  csvSectionItem allOk defaultSectionNameVal st g.id (rowKey r)
                    (if r.length > 2 then strTrim (col r 2) else "")
                    (rowItemName r) (rowItemDesc r) (rowCompleted r) (rowUncertain r) := by
                simp only [csvRowStep]
                rw [if_neg h4, if_neg hemp, if_neg hhist,
                  if_neg (by rw [hskf]; exact Bool.false_ne_true)]
                rw [show strLower (if strLen (strTrim (col r 0)) > MaxListNameLength then
                  strTake (strTrim (col r 0)) MaxListNameLength else strTrim (col r 0)) =
                  rowKey r from rfl]
                simp only [hlkc]
                rfl
              rcases csvRow_found_char store ex0 st created SK r g hinv hfnd with
                ⟨created2, hi2, hsp⟩
              refine ⟨created2, SK, ?_, ?_, ?_⟩
              · rw [hstep]
                exact hi2
              · rw [hv, hcf]
                simpa using hsp
              · rw [hv, hcf]
                simp
          | none =>
              have hlkc : lookupKey st.createdLists (rowKey r) = none := by
                rw [hinv.clists, lookupKey_keyed_map, hfnd]
                rfl
              have hlke : lookupKey st.base.existing (rowKey r) = none := by
                rw [hinv.exist0]
                exact lookupKey_of_not_hasKey _ _ hcf
              have hstep : csvRowStep allOk mode suffix defaultSectionNameVal st r =
                  csvCreateList allOk defaultSectionNameVal st (rowListName r) (rowKey r)
                    (rowIcon r) (if r.length > 2 then strTrim (col r 2) else "")
                    (rowItemName r) (rowItemDesc r) (rowCompleted r) (rowUncertain r) := by
                simp only [csvRowStep]
                rw [if_neg h4, if_neg hemp, if_neg hhist,
                  if_neg (by rw [hskf]; exact Bool.false_ne_true)]
                rw [show strLower (if strLen (strTrim (col r 0)) > MaxListNameLength then
                  strTake (strTrim (col r 0)) MaxListNameLength else strTrim (col r 0)) =
                  rowKey r from rfl]
                simp only [hlkc]
                simp only [hlke]
                rfl
              rcases csvRow_new_char store ex0 st created SK r hinv hcf hfnd with
                ⟨created2, hi2, hsp⟩
              refine ⟨created2, SK, ?_, ?_, ?_⟩
              · rw [hstep]
                exact hi2
              · rw [hv, hcf]
                simpa using hsp
              · rw [hv, hcf]
                simp

/-! ## CSV import: the master fold and the whole import -/

theorem csvRowsFold_char (store : Store) (ex0 : KMap Int) (mode suffix : String) :
    ∀ (rows : List (List String)) (st : CSVState) (created : List StoreList)
      (SK : List String),
      CsvInv store ex0 st created SK →
      (∀ r ∈ rows, validCsvRow r = true → hasKey ex0 (rowKey r) = true →
        mode = "skip" ∧ strLen (strTrim (col r 0)) ≤ MaxListNameLength) →
      ∃ created2 SK2,
        CsvInv store ex0
          (rows.foldl (csvRowStep allOk mode suffix defaultSectionNameVal) st) created2 SK2 ∧
        created2.map shapeList =
          specGroupFold defaultSectionNameVal ex0 rows (created.map shapeList) ∧
        SK2 = skFold ex0 rows SK := by
  intro rows
  induction rows with
  | nil =>
      intro st created SK hinv hrow
      exact ⟨created, SK, hinv, rfl, rfl⟩
  | cons r rest ih =>
      intro st created SK hinv hrow
      rw [List.foldl_cons]
      rcases csvRowStep_char store ex0 mode suffix st created SK r hinv
        (hrow r (List.mem_cons_self _ _)) with ⟨c2, S2, hi2, hsp, hsk⟩
      rcases ih (csvRowStep allOk mode suffix defaultSectionNameVal st r) c2 S2 hi2
        (fun x hx => hrow x (List.mem_cons_of_mem _ hx)) with ⟨c3, S3, hi3, hsp3, hsk3⟩
      refine ⟨c3, S3, hi3, ?_, ?_⟩
      · rw [hsp3, hsp]
        rfl
      · rw [hsk3, hsk]
        rfl

theorem importCSV_char (store : Store) (records : List (List String)) (mode suffix : String)
    (hwf : store.WF) (hlen : 2 ≤ records.length)
    (hrow : ∀ r ∈ records.drop 1, validCsvRow r = true →
      hasKey (buildExistingNames store) (rowKey r) = true →
      mode = "skip" ∧ strLen (strTrim (col r 0)) ≤ MaxListNameLength) :
    ∃ (newLs : List StoreList) (s : CSVImportSummary),
      (importCSV store records mode suffix allOk true true).1 = ImportResult.ok s ∧
      (importCSV store records mode suffix allOk true true).2.lists = store.lists ++ newLs ∧
      newLs.map shapeList =
        specGroupFold defaultSectionNameVal (buildExistingNames store) (records.drop 1) [] ∧
      s.skippedLists = (skFold (buildExistingNames store) (records.drop 1) []).length := by
  have hinv0 : CsvInv store (buildExistingNames store)
      ⟨initImportState store, [], [], []⟩ [] [] := by
    refine ⟨?_, rfl, rfl, ?_, rfl, rfl, ?_, ?_, ?_, ?_, ?_, ?_, ?_, ?_, ?_⟩
    · show store.lists = store.lists ++ []
      simp
    · intro k
      rfl
    · intro g hg
      cases hg
    · exact List.nodup_nil
    · exact List.nodup_nil
    · intro k hk
      cases hk
    · show (listIds (store.lists ++ [])).Nodup
      rw [List.append_nil]
      exact hwf.1
    · show ∀ i ∈ listIds (store.lists ++ []), i < store.nextListId
      rw [List.append_nil]
      exact hwf.2.1
    · show (sectionIds (store.lists ++ [])).Nodup
      rw [List.append_nil]
      exact hwf.2.2.1
    · show ∀ i ∈ sectionIds (store.lists ++ []), i < store.nextSectionId
      rw [List.append_nil]
      exact hwf.2.2.2.1
    · show ∀ i ∈ itemIds (store.lists ++ []), i < store.nextItemId
      rw [List.append_nil]
      exact hwf.2.2.2.2.2
  rcases csvRowsFold_char store (buildExistingNames store) mode suffix (records.drop 1)
    ⟨initImportState store, [], [], []⟩ [] [] hinv0 hrow with ⟨c2, S2, hi2, hsp, hsk⟩
  have hne : ¬(records.length < 2) := by omega
  have h1 : (importCSV store records mode suffix allOk true true).1 =
      ImportResult.ok
        ⟨((records.drop 1).foldl (csvRowStep allOk mode suffix defaultSectionNameVal)
            ⟨initImportState store, [], [], []⟩).base.importedLists,
          ((records.drop 1).foldl (csvRowStep allOk mode suffix defaultSectionNameVal)
            ⟨initImportState store, [], [], []⟩).base.importedItems,
          ((records.drop 1).foldl (csvRowStep allOk mode suffix defaultSectionNameVal)
            ⟨initImportState store, [], [], []⟩).base.importedHistory,
          ((records.drop 1).foldl (csvRowStep allOk mode suffix defaultSectionNameVal)
            ⟨initImportState store, [], [], []⟩).base.skippedLists⟩ := by
    simp only [importCSV]
    rw [if_neg hne]
    rfl
  have h2 : (importCSV store records mode suffix allOk true true).2.lists =
      ((records.drop 1).foldl (csvRowStep allOk mode suffix defaultSectionNameVal)
        ⟨initImportState store, [], [], []⟩).base.draftLists := by
    simp only [importCSV]
    rw [if_neg hne]
    rfl
  refine ⟨c2, _, h1, ?_, hsp, ?_⟩
  · rw [h2, hi2.drafts]
  · show ((records.drop 1).foldl (csvRowStep allOk mode suffix defaultSectionNameVal)
        ⟨initImportState store, [], [], []⟩).base.skippedLists = _
    rw [hi2.skcount, hsk]

theorem skFold_no_conflict (ex0 : KMap Int) :
    ∀ (rows : List (List String)) (sk : List String),
      (∀ r ∈ rows, validCsvRow r = true → hasKey ex0 (rowKey r) = false) →
      skFold ex0 rows sk = sk := by
  intro rows
  induction rows with
  | nil => intro sk h; rfl
  | cons r rest ih =>
      intro sk h
      unfold skFold
      rw [List.foldl_cons]
      have hcond : (validCsvRow r && hasKey ex0 (rowKey r) && !(sk.contains (rowKey r))) =
          false := by
        by_cases hv : validCsvRow r = true
        · rw [hv, h r (List.mem_cons_self _ _) hv]
          rfl
        · have hv2 : validCsvRow r = false := by
            cases hh : validCsvRow r with
            | false => rfl
            | true => exact absurd hh hv
          rw [hv2]
          rfl
      rw [if_neg (by rw [hcond]; exact Bool.false_ne_true)]
      exact ih sk (fun x hx => h x (List.mem_cons_of_mem _ hx))

/-- C6 counterexample: under `conflict_resolution=copy`, two CSV data rows
carrying the same list name (case-insensitive key `"x"`, colliding with the
existing list `"X"`) do NOT contribute to one created list: each row mints its
own renamed list, so the store ends with three lists `"X"`, `"X (copy)"` and
`"X (copy 2)"` — contradicting "all rows sharing the same list name contribute
to one created list". -/
theorem C6_counterexample :
    rowKey ["X", "", "S", "apple"] = rowKey ["X", "", "S", "pear"] ∧
    ((importCSV c6store c6rows "copy" "copy" allOk true true).2.lists.map
      (fun l => l.name)) = ["X", "X (copy)", "X (copy 2)"] := by
  constructor
  · rfl
  · decide

/-- C6 amended: for a well-formed store, as long as no valid data row collides
case-insensitively with an existing list name, `importCSV` groups the data
rows into lists and sections by case-insensitive name with first occurrence
fixing creation order and the localized default section name substituted for
an empty section column — the created rows are exactly `groupCsvRows` of the
valid data rows, for any conflict-resolution mode.  (With collisions, copy
mode violates the grouping: see the counterexample.) -/
theorem C6_csv_grouping_amended (store : Store) (records : List (List String))
    (mode suffix : String) (hwf : store.WF) (hlen : 2 ≤ records.length)
    (hnc : ∀ r ∈ records.drop 1, validCsvRow r = true →
      hasKey (buildExistingNames store) (rowKey r) = false) :
    ∃ (newLs : List StoreList) (s : CSVImportSummary),
      (importCSV store records mode suffix allOk true true).1 = ImportResult.ok s ∧
      (importCSV store records mode suffix allOk true true).2.lists = store.lists ++ newLs ∧
      newLs.map shapeList =
        groupCsvRows defaultSectionNameVal ((records.drop 1).filter validCsvRow) ∧
      s.skippedLists = 0 := by
  have hrow : ∀ r ∈ records.drop 1, validCsvRow r = true →
      hasKey (buildExistingNames store) (rowKey r) = true →
      mode = "skip" ∧ strLen (strTrim (col r 0)) ≤ MaxListNameLength := by
    intro r hr hv hc
    rw [hnc r hr hv] at hc
    simp at hc
  rcases importCSV_char store records mode suffix hwf hlen hrow with ⟨newLs, s, h1, h2, h3, h4⟩
  refine ⟨newLs, s, h1, h2, ?_, ?_⟩
  · rw [h3]
    unfold specGroupFold groupCsvRows
    rw [foldl_filter_if]
    have hfe : (records.drop 1).filter
        (fun r => validCsvRow r && !hasKey (buildExistingNames store) (rowKey r)) =
        (records.drop 1).filter validCsvRow := by
      refine List.filter_congr ?_
      intro r hr
      by_cases hv : validCsvRow r = true
      · rw [hv, hnc r hr hv]
        rfl
      · have hv2 : validCsvRow r = false := by
          cases hh : validCsvRow r with
          | false => rfl
          | true => exact absurd hh hv
        rw [hv2]
        rfl
    rw [hfe]
  · rw [h4, skFold_no_conflict (buildExistingNames store) (records.drop 1) [] hnc]
    rfl

/-- C6 witness at a concrete input: an empty store and four data rows
exercising case-insensitive list and section grouping and the default section
name. -/
theorem C6_witness :
    ∃ (newLs : List StoreList) (s : CSVImportSummary),
      (importCSV emptyStore c6wrows "skip" "copy" allOk true true).1 = ImportResult.ok s ∧
      (importCSV emptyStore c6wrows "skip" "copy" allOk true true).2.lists =
        emptyStore.lists ++ newLs ∧
      newLs.map shapeList =
        groupCsvRows defaultSectionNameVal ((c6wrows.drop 1).filter validCsvRow) ∧
      s.skippedLists = 0 :=
  C6_csv_grouping_amended emptyStore c6wrows "skip" "copy"
    (by simp [Store.WF, IdsOk, emptyStore, listIds, sectionIds, itemIds])
    (by decide)
    (by decide)

set_option maxRecDepth 100000 in
/-- C7 counterexample: with `conflict_resolution=skip`, two CSV rows of the
same over-long list name (101 characters, whose 100-character truncation
collides with an existing list) increment the `skipped_lists` counter twice
for that single uploaded list, because the skipped-name marker is stored
under the post-truncation key while the check reads the pre-truncation key. -/
theorem C7_counterexample :
    rowKey [longListName, "", "S", "x"] = rowKey [longListName, "", "S", "y"] ∧
    (importCSV c7store c7rows "skip" "s" allOk true true).1 =
      ImportResult.ok ⟨0, 0, 0, 2⟩ := by
  constructor
  · rfl
  · decide

/-- C7 amended: under `conflict_resolution=skip` with every database call
succeeding, (JSON) each uploaded list whose name collides case-insensitively
with an existing list produces no rows — the lists added to the store are
exactly the valid non-colliding uploads — and `skipped_lists` counts the
colliding (or reserved-name) uploads once each; (CSV) provided every valid
data row's trimmed list name is within the 100-character limit, no rows are
created for colliding row groups, the created lists are exactly the grouping
of the valid non-colliding rows, and `skipped_lists` is incremented exactly
once per distinct colliding key.  (Without the length proviso a single
over-long colliding upload is counted once per row: see the counterexample.) -/
theorem C7_skip_amended :
    (∀ (store : Store) (doc : ExportData) (suffix : String), store.WF →
      ∃ (newLs : List StoreList) (s : ImportSummary),
        (importJSON store doc "skip" suffix allOk true true).1 = ImportResult.ok s ∧
        (importJSON store doc "skip" suffix allOk true true).2.lists =
          store.lists ++ newLs ∧
        newLs.map shapeList =
          (doc.data.lists.filter (jsonKeepB (buildExistingNames store))).map
            importedListShape ∧
        s.skippedLists = doc.data.lists.countP (jsonSkipB (buildExistingNames store))) ∧
    (∀ (store : Store) (records : List (List String)) (suffix : String), store.WF →
      2 ≤ records.length →
      (∀ r ∈ records.drop 1, validCsvRow r = true →
        strLen (strTrim (col r 0)) ≤ MaxListNameLength) →
      ∃ (newLs : List StoreList) (s : CSVImportSummary),
        (importCSV store records "skip" suffix allOk true true).1 = ImportResult.ok s ∧
        (importCSV store records "skip" suffix allOk true true).2.lists =
          store.lists ++ newLs ∧
        newLs.map shapeList =
          groupCsvRows defaultSectionNameVal ((records.drop 1).filter (fun r =>
            validCsvRow r && !hasKey (buildExistingNames store) (rowKey r))) ∧
        s.skippedLists =
          (csvConflictKeys (buildExistingNames store) (records.drop 1)).length) := by
  constructor
  · intro store doc suffix hwf
    exact importJSON_skip_char store doc "skip" suffix hwf (fun l hl hc => rfl)
  · intro store records suffix hwf hlen hshort
    have hrow : ∀ r ∈ records.drop 1, validCsvRow r = true →
        hasKey (buildExistingNames store) (rowKey r) = true →
        "skip" = "skip" ∧ strLen (strTrim (col r 0)) ≤ MaxListNameLength := by
      intro r hr hv hc
      exact ⟨rfl, hshort r hr hv⟩
    rcases importCSV_char store records "skip" suffix hwf hlen hrow with
      ⟨newLs, s, h1, h2, h3, h4⟩
    refine ⟨newLs, s, h1, h2, ?_, ?_⟩
    · rw [h3]
      unfold specGroupFold groupCsvRows
      rw [foldl_filter_if]
    · rw [h4]
      rfl

/-- C7 witness at concrete inputs: a store holding list `"G"`, a JSON upload
with one colliding and one fresh list, and a CSV upload with two rows of the
colliding name and one fresh row. -/
theorem C7_witness :
    (∃ (newLs : List StoreList) (s : ImportSummary),
      (importJSON c7wstore c7wdoc "skip" "copy" allOk true true).1 = ImportResult.ok s ∧
      (importJSON c7wstore c7wdoc "skip" "copy" allOk true true).2.lists =
        c7wstore.lists ++ newLs ∧
      newLs.map shapeList =
        (c7wdoc.data.lists.filter (jsonKeepB (buildExistingNames c7wstore))).map
          importedListShape ∧
      s.skippedLists = c7wdoc.data.lists.countP (jsonSkipB (buildExistingNames c7wstore))) ∧
    (∃ (newLs : List StoreList) (s : CSVImportSummary),
      (importCSV c7wstore c7wrows "skip" "copy" allOk true true).1 = ImportResult.ok s ∧
      (importCSV c7wstore c7wrows "skip" "copy" allOk true true).2.lists =
        c7wstore.lists ++ newLs ∧
      newLs.map shapeList =
        groupCsvRows defaultSectionNameVal ((c7wrows.drop 1).filter (fun r =>
          validCsvRow r && !hasKey (buildExistingNames c7wstore) (rowKey r))) ∧
      s.skippedLists =
        (csvConflictKeys (buildExistingNames c7wstore) (c7wrows.drop 1)).length) :=
  ⟨C7_skip_amended.1 c7wstore c7wdoc "copy"
    (by simp [Store.WF, IdsOk, c7wstore, listIds, sectionIds, itemIds]),
   C7_skip_amended.2 c7wstore c7wrows "copy"
    (by simp [Store.WF, IdsOk, c7wstore, listIds, sectionIds, itemIds])
    (by decide)
    (by decide)⟩

end Koffan
